import Mathlib

/-
Verification of the skills-scanner core engine (tag normalizer, relationship
graph builder, workflow assembler) against its natural-language specification.

The TypeScript sources are shallowly embedded here:
  * src/utils/graphBuilder.ts        -> namespace GraphBuilder
  * the tag vocabulary module        -> namespace TagVocabulary
  * the workflow assembler module    -> namespace WorkflowAssembler

Modelling conventions, used consistently below:
  * JavaScript numbers are modelled as exact rationals.  Decimal literals of
    the source (1.35, 0.12, ...) are read as the exact rationals they denote.
    The one transcendental function the pipeline uses, Math.log inside
    smoothIdf, is abstracted into an explicit parameter `idfOf` of the graph
    builder (and Math.exp into `expOf` for the assembler's confidence value);
    every theorem below is proved for an arbitrary such parameter, and
    concrete instances use the exact rational value of the corresponding
    IEEE-754 double where it matters.
  * JavaScript `Map` / plain-object records are modelled as association
    lists with in-place update (`upsert`), which preserves the insertion
    order that `Map` iteration and `Object.keys` expose.
  * JavaScript `Set`-based deduplication keeps the first occurrence, modelled
    by `dedupFirst`.
  * `Array.prototype.sort` is required by the ECMAScript spec to be stable;
    a stable sort is uniquely determined by its comparator, so it is modelled
    by a stable insertion sort over the same comparator (comparators are
    modelled as rational-valued functions, mirroring the numeric comparators
    of the source; `||`-chaining of comparator results is `cmpOr`).
  * `String.prototype.localeCompare` on the ASCII identifiers used by this
    program is code-unit comparison, modelled by `strCmp`.
  * `Number.prototype.toFixed(4)` followed by `Number(...)` is modelled by
    rounding to the nearest multiple of 1/10000 (`round4`).
-/

set_option allowUnsafeReducibility true
attribute [semireducible] Rat.mul Rat.add Rat.sub Rat.inv

namespace SkillsScanner

/-- Lower-casing of a single character as JavaScript `toLowerCase` acts on the
ASCII range (the tags and identifiers this program manipulates are ASCII). -/
def jsToLowerChar (c : Char) : Char :=
  if 'A' ≤ c ∧ c ≤ 'Z' then Char.ofNat (c.toNat + 32) else c

/-- Whitespace test matching the characters the source's `\s` regex class and
`String.prototype.trim` treat as whitespace, restricted to the ASCII range. -/
def jsIsWs (c : Char) : Bool :=
  c = ' ' ∨ c = '\t' ∨ c = '\n' ∨ c = '\x0d' ∨ c = '\x0c' ∨ c = '\x0b'

/-- Model of `String.prototype.toLowerCase` (ASCII range). -/
def strLower (s : String) : String :=
  ⟨s.data.map jsToLowerChar⟩

/-- Model of `String.prototype.trim`. -/
def strTrim (s : String) : String :=
  ⟨((s.data.dropWhile jsIsWs).reverse.dropWhile jsIsWs).reverse⟩

/-- Lexicographic three-way comparison of character lists by code point. -/
def listCmp : List Char → List Char → Int
  | [], [] => 0
  | [], _ :: _ => -1
  | _ :: _, [] => 1
  | a :: as', b :: bs =>
    if a.toNat < b.toNat then -1
    else if b.toNat < a.toNat then 1
    else listCmp as' bs

/-- Model of `String.prototype.localeCompare` (and of the default string
comparison used by argument-less `Array.prototype.sort`) on ASCII data:
code-unit lexicographic comparison. -/
def strCmp (a b : String) : Int :=
  listCmp a.data b.data

/-- Model of JavaScript `a || b` applied to two numeric comparator results:
returns `b` exactly when `a` is `0` (the only falsy value arising here). -/
def cmpOr (a b : ℚ) : ℚ :=
  if a = 0 then b else a

/-- Conversion of an integer-valued comparison to the rational comparator
world of `cmpOr`. -/
def intCmpQ (i : Int) : ℚ := (i : ℚ)

/-- Insertion step of the stable sort: `x` is placed after every element `y`
already in the (sorted) accumulator with `cmp y x ≤ 0`, i.e. after all
elements the comparator orders before `x` or ties with `x`. -/
def stableInsert (cmp : α → α → ℚ) (x : α) : List α → List α
  | [] => [x]
  | y :: ys => if cmp y x ≤ 0 then y :: stableInsert cmp x ys else x :: y :: ys

/-- Model of `Array.prototype.sort(cmp)`: a stable sort by the comparator
`cmp` (negative means "first argument first").  ECMAScript requires the sort
to be stable, and a stable sort is uniquely determined by a consistent
comparator, so this insertion sort is extensionally the source's sort. -/
def jsSort (cmp : α → α → ℚ) (l : List α) : List α :=
  l.foldl (fun acc x => stableInsert cmp x acc) []

/-- Deduplication keeping the first occurrence, as `new Set(...)` iteration
does in JavaScript. -/
def dedupFirst [DecidableEq α] (l : List α) : List α :=
  l.foldl (fun acc x => if x ∈ acc then acc else acc ++ [x]) []

/-- Lookup in an insertion-ordered association list (model of `Map.get` /
property access on a plain object; keys are unique by construction). -/
def alGet [DecidableEq κ] (m : List (κ × α)) (k : κ) : Option α :=
  (m.find? (fun p => p.1 = k)).map (·.2)

/-- In-place update of an insertion-ordered association list: an existing key
keeps its position and gets the new value, a new key is appended.  This is
exactly how `Map.set` and plain-object assignment behave with respect to the
iteration order JavaScript exposes. -/
def upsert [DecidableEq κ] (m : List (κ × α)) (k : κ) (v : α) : List (κ × α) :=
  match m with
  | [] => [(k, v)]
  | (k', v') :: rest => if k' = k then (k, v) :: rest else (k', v') :: upsert rest k v

/-- Model of `Number(x.toFixed(4))`: rounding to the nearest multiple of
1/10000 (ties rounded up, adequate for the non-negative scores rounded by
this program). -/
def round4 (q : ℚ) : ℚ :=
  (round (q * 10000) : ℚ) / 10000

/-- Maximal chunks of non-whitespace characters, i.e. `split(/\s+/)` with the
empty chunks that leading/trailing whitespace produces included at the ends. -/
def wsChunks (cs : List Char) : List (List Char) :=
  cs.foldr
    (fun c acc =>
      if jsIsWs c then [] :: acc
      else
        match acc with
        | [] => [[c]]
        | w :: ws => (c :: w) :: ws)
    [[]]

/-- Concatenation of a list of strings with a separator, modelling
`Array.prototype.join`. -/
def strJoin (sep : String) : List String → String
  | [] => ""
  | [x] => x
  | x :: xs => x ++ sep ++ strJoin sep xs

end SkillsScanner

namespace SkillsScanner

/-- Stage values of `src/types.ts` (`Stage`). -/
inductive Stage
  | intake | plan | implement | verify | refactor | security | docs | release | other
deriving DecidableEq, Repr

/-- Edge types of `src/types.ts` (`EdgeType`). -/
inductive EdgeType
  | depends_on | precedes | complements | alternative_to
deriving DecidableEq, Repr

/-- Projection of the `SkillRecord` interface of `src/types.ts` to the fields
the graph builder and the workflow assembler read (`id`, `name`, `stage` and
the three canonical tag lists); the remaining metadata fields never influence
the functions verified here. -/
structure SkillRecord where
  id : String
  name : String
  stage : Stage
  inputsTags : List String
  artifactsTags : List String
  capabilitiesTags : List String
deriving DecidableEq, Repr

/-- Drop-reason counters of `src/types.ts` (`GraphDropReasons`). -/
structure GraphDropReasons where
  stoplist : ℕ
  spec : ℕ
  threshold : ℕ
  topK : ℕ
  stage : ℕ
  similarity : ℕ
  reciprocalDependsOn : ℕ
deriving DecidableEq, Repr

/-- Per-type edge counters (`Record<EdgeType, number>` of the metrics). -/
structure EdgeTypeCounts where
  depends_on : ℕ
  precedes : ℕ
  complements : ℕ
  alternative_to : ℕ
deriving DecidableEq, Repr

/-- Degree summary of `src/types.ts` (`GraphNodeDegree`). -/
structure GraphNodeDegree where
  id : String
  degree : ℕ
  inDegree : ℕ
  outDegree : ℕ
deriving DecidableEq, Repr

/-- Metrics record of `src/types.ts` (`GraphMetrics`). -/
structure GraphMetrics where
  edgeCount : ℕ
  density : ℚ
  distributionByType : EdgeTypeCounts
  topDegreeNodes : List GraphNodeDegree
  dropReasons : GraphDropReasons
  threshold : ℚ
  candidateCount : ℕ
deriving DecidableEq, Repr

/-- Edge record of `src/types.ts` (`SkillGraphEdge`); `from`/`to` are spelled
`fromId`/`toId` because `from` is a Lean keyword. -/
structure SkillGraphEdge where
  fromId : String
  toId : String
  type : EdgeType
  score : ℚ
  overlapTags : List String
  via : List String
deriving DecidableEq, Repr

/-- Graph record of `src/types.ts` (`SkillGraph`); the two record-typed
indices are insertion-ordered association lists (see `upsert`). -/
structure SkillGraph where
  edges : List SkillGraphEdge
  adjacency : List (String × List String)
  relatedBySkill : List (String × List String)
  chains : List (List String)
  metrics : GraphMetrics
deriving DecidableEq, Repr

end SkillsScanner

namespace SkillsScanner.TagVocabulary

/-- ARTIFACT_INTERFACE_TAGS of the tag-vocabulary module. -/
def ARTIFACT_INTERFACE_TAGS : List String :=
  ["plan", "spec", "schema", "code", "patch", "tests", "docs", "config",
   "report", "pr", "deploy", "readme", "changelog"]

/-- Model of the exported `getArtifactInterfaceTags()` accessor. -/
def getArtifactInterfaceTags : List String := ARTIFACT_INTERFACE_TAGS

end SkillsScanner.TagVocabulary

namespace SkillsScanner.GraphBuilder

open SkillsScanner

/-- STAGE_ORDER of `src/utils/graphBuilder.ts`. -/
def STAGE_ORDER : Stage → ℕ
  | .intake => 0
  | .plan => 1
  | .implement => 2
  | .verify => 3
  | .refactor => 4
  | .security => 5
  | .docs => 6
  | .release => 7
  | .other => 8

/-- STOPLIST of `src/utils/graphBuilder.ts`. -/
def STOPLIST : List String :=
  ["workflow", "planning", "tasks", "quality", "validation", "requirements"]

/-- ARTIFACT_INTERFACE_SET of `src/utils/graphBuilder.ts` (membership test). -/
def ARTIFACT_INTERFACE_SET (tag : String) : Bool :=
  TagVocabulary.getArtifactInterfaceTags.contains tag

/-- FIELD_WEIGHTS.artifacts (the double literal 1.35 read exactly). -/
def FIELD_WEIGHTS_artifacts : ℚ := mkRat 27 20

/-- FIELD_WEIGHTS.capabilities (the double literal 1.15 read exactly). -/
def FIELD_WEIGHTS_capabilities : ℚ := mkRat 23 20

/-- ABS_THRESHOLD = 1.2. -/
def ABS_THRESHOLD : ℚ := mkRat 6 5

/-- PERCENTILE_THRESHOLD = 0.7. -/
def PERCENTILE_THRESHOLD : ℚ := mkRat 7 10

/-- ALTERNATIVE_SIMILARITY_MIN = 0.6. -/
def ALTERNATIVE_SIMILARITY_MIN : ℚ := mkRat 3 5

/-- RECIPROCAL_SCORE_EPSILON = 0.12. -/
def RECIPROCAL_SCORE_EPSILON : ℚ := mkRat 3 25

/-- TOP_K of `src/utils/graphBuilder.ts`. -/
def TOP_K : EdgeType → ℕ
  | .depends_on => 5
  | .precedes => 5
  | .complements => 5
  | .alternative_to => 3

/-- DIRECTED_TYPES of `src/utils/graphBuilder.ts` (membership test). -/
def DIRECTED_TYPES (t : EdgeType) : Bool :=
  t = EdgeType.depends_on ∨ t = EdgeType.precedes

/-- Candidate record (`EdgeCandidate` interface of graphBuilder.ts). -/
structure EdgeCandidate where
  fromId : String
  toId : String
  type : EdgeType
  score : ℚ
  overlapTags : List String
deriving DecidableEq, Repr

/-- Result record of `resolveReciprocalDepends`. -/
structure ReciprocalResolution where
  directed : List EdgeCandidate
  promotedComplements : List EdgeCandidate
deriving DecidableEq, Repr

/-- normalizeToken of graphBuilder.ts: `token.trim().toLowerCase()`. -/
def normalizeToken (token : String) : String :=
  strLower (strTrim token)

/-- stageRank of graphBuilder.ts: `STAGE_ORDER[stage || 'other']`. -/
def stageRank (stage : Option Stage) : ℕ :=
  STAGE_ORDER (stage.getD .other)

/-- normalizeTags of graphBuilder.ts:
`Array.from(new Set(tags.map(normalizeToken).filter(Boolean)))`. -/
def normalizeTags (tags : List String) : List String :=
  dedupFirst ((tags.map normalizeToken).filter (fun t => t ≠ ""))

/-- intersectTags of graphBuilder.ts. -/
def intersectTags (left right : List String) : List String :=
  (normalizeTags left).filter (fun tag => tag ∈ normalizeTags right)

/-- percentile of graphBuilder.ts (linear interpolation between the two
neighbouring order statistics). -/
def percentile (values : List ℚ) (q : ℚ) : ℚ :=
  if values.length = 0 then 0
  else
    let sorted := jsSort (fun a b => a - b) values
    let index : ℚ := ((sorted.length : ℚ) - 1) * q
    let low : ℤ := ⌊index⌋
    let high : ℤ := ⌈index⌉
    if low = high then sorted.getD low.toNat 0
    else
      let weight := index - (low : ℚ)
      sorted.getD low.toNat 0 * (1 - weight) + sorted.getD high.toNat 0 * weight

/-- scoreTags of graphBuilder.ts.  `idfByTag` is the association list the
builder computes from document frequencies; a missing tag contributes 0. -/
def scoreTags (overlapTags : List String) (idfByTag : List (String × ℚ)) (fieldWeight : ℚ) : ℚ :=
  let scoredTags := overlapTags.filter (fun tag => ¬ STOPLIST.contains tag)
  if scoredTags.length = 0 then 0
  else scoredTags.foldl (fun sum tag => sum + ((alGet idfByTag tag).getD 0) * fieldWeight) 0

/-- jaccardSimilarity of graphBuilder.ts (operates on the raw lists through
`Set`s, i.e. on first-occurrence deduplications). -/
def jaccardSimilarity (left right : List String) : ℚ :=
  let a := dedupFirst left
  let b := dedupFirst right
  if a.length = 0 ∧ b.length = 0 then 0
  else
    let intersection := (a.filter (fun t => t ∈ b)).length
    let union := a.length + b.length - intersection
    if union = 0 then 0 else (intersection : ℚ) / (union : ℚ)

/-- computeDf of graphBuilder.ts: document frequency per normalized tag, as
an insertion-ordered association list. -/
def computeDf (skills : List SkillRecord) : List (String × ℕ) :=
  skills.foldl
    (fun df skill =>
      (normalizeTags (skill.inputsTags ++ skill.artifactsTags ++ skill.capabilitiesTags)).foldl
        (fun df tag => upsert df tag ((alGet df tag).getD 0 + 1)) df)
    []

/-- hasSpecificNonStopTag of graphBuilder.ts.  The source reads
`(df.get(tag) || Number.POSITIVE_INFINITY) <= specificDfMax`; document
frequencies are always ≥ 1, so `||` fires exactly when the tag is absent,
in which case the comparison with infinity is false. -/
def hasSpecificNonStopTag (tag : String) (df : List (String × ℕ)) (specificDfMax : ℕ) : Bool :=
  if STOPLIST.contains tag then false
  else
    match alGet df tag with
    | none => false
    | some d => d ≤ specificDfMax

/-- validateOverlapTags of graphBuilder.ts; returns the surviving tags (or
`none`) together with the updated drop counters. -/
def validateOverlapTags (overlapTags : List String) (df : List (String × ℕ))
    (specificDfMax : ℕ) (dropReasons : GraphDropReasons) (artifactInterfaceOnly : Bool) :
    Option (List String) × GraphDropReasons :=
  if overlapTags.length = 0 then (none, dropReasons)
  else
    let narrowedByInterface :=
      if artifactInterfaceOnly then overlapTags.filter (fun tag => ARTIFACT_INTERFACE_SET tag)
      else overlapTags
    if narrowedByInterface.length = 0 then
      (none, { dropReasons with spec := dropReasons.spec + 1 })
    else
      let nonStopTags := narrowedByInterface.filter (fun tag => ¬ STOPLIST.contains tag)
      if nonStopTags.length = 0 then
        (none, { dropReasons with stoplist := dropReasons.stoplist + 1 })
      else
        let hasSpecific := nonStopTags.any (fun tag => hasSpecificNonStopTag tag df specificDfMax)
        if ¬ hasSpecific then
          (none, { dropReasons with spec := dropReasons.spec + 1 })
        else
          (some (normalizeTags nonStopTags), dropReasons)

/-- String form of an edge type, as the source's template literals render it
when building map keys. -/
def edgeTypeName : EdgeType → String
  | .depends_on => "depends_on"
  | .precedes => "precedes"
  | .complements => "complements"
  | .alternative_to => "alternative_to"

/-- Sorted unordered pair of identifiers, as `[from, to].sort()` produces. -/
def sortPair (a b : String) : String × String :=
  if strCmp a b ≤ 0 then (a, b) else (b, a)

/-- Key of an unordered pair, `` `${p0}<->${p1}` `` in the source. -/
def pairKey (a b : String) : String :=
  (sortPair a b).1 ++ "<->" ++ (sortPair a b).2

/-- Key of a direction, `` `${from}->${to}` `` in the source. -/
def dirKey (c : EdgeCandidate) : String :=
  c.fromId ++ "->" ++ c.toId

/-- Ordered pairs `(source, target)` in the nested-loop order of
collectCandidates. -/
def orderedPairs (skills : List SkillRecord) : List (SkillRecord × SkillRecord) :=
  skills.flatMap (fun source => skills.map (fun target => (source, target)))

/-- Index pairs `i < j` in the nested-loop order of collectCandidates. -/
def upperPairs : List α → List (α × α)
  | [] => []
  | x :: rest => rest.map (fun y => (x, y)) ++ upperPairs rest

/-- Body of collectCandidates' ordered-pair loop (depends_on and precedes
candidates for one `(source, target)` pair). -/
def orderedPairStep (df : List (String × ℕ)) (idfByTag : List (String × ℚ)) (specificDfMax : ℕ)
    (acc : List EdgeCandidate × GraphDropReasons) (pair : SkillRecord × SkillRecord) :
    List EdgeCandidate × GraphDropReasons :=
  let source := pair.1
  let target := pair.2
  if source.id = target.id then acc
  else
    let v := validateOverlapTags (intersectTags source.artifactsTags target.inputsTags)
      df specificDfMax acc.2 true
    let acc1 : List EdgeCandidate × GraphDropReasons :=
      match v.1 with
      | some dependsOverlap =>
        (acc.1 ++ [{ fromId := source.id, toId := target.id, type := .depends_on,
                     score := scoreTags dependsOverlap idfByTag FIELD_WEIGHTS_artifacts,
                     overlapTags := dependsOverlap }], v.2)
      | none => (acc.1, v.2)
    if STAGE_ORDER source.stage ≥ STAGE_ORDER target.stage then
      (acc1.1, { acc1.2 with stage := acc1.2.stage + 1 })
    else
      let w := validateOverlapTags (intersectTags source.artifactsTags target.inputsTags)
        df specificDfMax acc1.2 true
      match w.1 with
      | none => (acc1.1, w.2)
      | some precedesOverlap =>
        (acc1.1 ++ [{ fromId := source.id, toId := target.id, type := .precedes,
                      score := scoreTags precedesOverlap idfByTag FIELD_WEIGHTS_artifacts,
                      overlapTags := precedesOverlap }], w.2)

/-- Body of collectCandidates' unordered-pair loop (complements and
alternative_to candidates for one `i < j` pair). -/
def upperPairStep (df : List (String × ℕ)) (idfByTag : List (String × ℚ)) (specificDfMax : ℕ)
    (acc : List EdgeCandidate × GraphDropReasons) (pair : SkillRecord × SkillRecord) :
    List EdgeCandidate × GraphDropReasons :=
  let left := pair.1
  let right := pair.2
  let v := validateOverlapTags (intersectTags left.capabilitiesTags right.capabilitiesTags)
    df specificDfMax acc.2 false
  let acc1 : List EdgeCandidate × GraphDropReasons :=
    match v.1 with
    | some complementsOverlap =>
      let hasHighIdfSpecific := complementsOverlap.any (fun tag =>
        hasSpecificNonStopTag tag df specificDfMax ∧ ((alGet idfByTag tag).getD 0) ≥ mkRat 17 10)
      if ¬ hasHighIdfSpecific then
        (acc.1, { v.2 with spec := v.2.spec + 1 })
      else
        (acc.1 ++ [{ fromId := left.id, toId := right.id, type := .complements,
                     score := scoreTags complementsOverlap idfByTag FIELD_WEIGHTS_capabilities,
                     overlapTags := complementsOverlap }], v.2)
    | none => (acc.1, v.2)
  if ((STAGE_ORDER left.stage : ℤ) - (STAGE_ORDER right.stage : ℤ)).natAbs > 1 then
    (acc1.1, { acc1.2 with stage := acc1.2.stage + 1 })
  else
    let leftCaps := (normalizeTags left.capabilitiesTags).filter (fun tag => ¬ STOPLIST.contains tag)
    let rightCaps := (normalizeTags right.capabilitiesTags).filter (fun tag => ¬ STOPLIST.contains tag)
    let similarity := jaccardSimilarity leftCaps rightCaps
    if similarity < ALTERNATIVE_SIMILARITY_MIN then
      (acc1.1, { acc1.2 with similarity := acc1.2.similarity + 1 })
    else
      let w := validateOverlapTags (intersectTags left.capabilitiesTags right.capabilitiesTags)
        df specificDfMax acc1.2 false
      match w.1 with
      | none => (acc1.1, w.2)
      | some alternativeOverlap =>
        let baseScore := scoreTags alternativeOverlap idfByTag FIELD_WEIGHTS_capabilities
        (acc1.1 ++ [{ fromId := left.id, toId := right.id, type := .alternative_to,
                      score := baseScore * (1 + similarity),
                      overlapTags := alternativeOverlap }], w.2)

/-- collectCandidates of graphBuilder.ts.  `specificDfMax` is
`Math.max(1, Math.floor(n * SPECIFIC_DF_RATIO))` with the 0.3 ratio read as
the exact rational 3/10. -/
def collectCandidates (skills : List SkillRecord) (df : List (String × ℕ))
    (idfByTag : List (String × ℚ)) (dropReasons : GraphDropReasons) :
    List EdgeCandidate × GraphDropReasons :=
  let n := skills.length
  let specificDfMax := max 1 (n * 3 / 10)
  let acc1 := (orderedPairs skills).foldl (orderedPairStep df idfByTag specificDfMax)
    ([], dropReasons)
  (upperPairs skills).foldl (upperPairStep df idfByTag specificDfMax) acc1

/-- Mutable-map phase of one reciprocal bucket: keep the best candidate per
direction, counting every displaced candidate as a reciprocal drop. -/
def bestByDirectionFold (bucket : List EdgeCandidate) (dropReasons : GraphDropReasons) :
    List (String × EdgeCandidate) × GraphDropReasons :=
  bucket.foldl
    (fun acc candidate =>
      let key := dirKey candidate
      match alGet acc.1 key with
      | none => (upsert acc.1 key candidate, acc.2)
      | some existing =>
        if candidate.score > existing.score then
          (upsert acc.1 key candidate,
           { acc.2 with reciprocalDependsOn := acc.2.reciprocalDependsOn + 1 })
        else
          (acc.1, { acc.2 with reciprocalDependsOn := acc.2.reciprocalDependsOn + 1 }))
    ([], dropReasons)

/-- Processing of one bucket of reciprocal depends_on candidates (body of the
`for (const bucket of byPair.values())` loop of resolveReciprocalDepends):
returns the kept depends_on candidates, the promoted complements candidates
and the updated drop counters. -/
def resolveBucket (skillsById : List (String × SkillRecord)) (bucket : List EdgeCandidate)
    (dropReasons : GraphDropReasons) :
    List EdgeCandidate × List EdgeCandidate × GraphDropReasons :=
  match bucket with
  | [] => ([], [], dropReasons)
  | [c] => ([c], [], dropReasons)
  | _ =>
    let b := bestByDirectionFold bucket dropReasons
    let directionBest := b.1.map (·.2)
    match directionBest with
    | [single] => ([single], [], b.2)
    | _ =>
      let sorted := jsSort (fun a b' => intCmpQ (strCmp (dirKey a) (dirKey b'))) directionBest
      match sorted with
      | first :: second :: _ =>
        let firstDelta : ℤ :=
          (stageRank ((alGet skillsById first.toId).map (·.stage)) : ℤ) -
            (stageRank ((alGet skillsById first.fromId).map (·.stage)) : ℤ)
        let secondDelta : ℤ :=
          (stageRank ((alGet skillsById second.toId).map (·.stage)) : ℤ) -
            (stageRank ((alGet skillsById second.fromId).map (·.stage)) : ℤ)
        if firstDelta > 0 ∧ secondDelta ≤ 0 then
          ([first], [], { b.2 with reciprocalDependsOn := b.2.reciprocalDependsOn + 1 })
        else if secondDelta > 0 ∧ firstDelta ≤ 0 then
          ([second], [], { b.2 with reciprocalDependsOn := b.2.reciprocalDependsOn + 1 })
        else if |first.score - second.score| ≤ RECIPROCAL_SCORE_EPSILON then
          let pair := sortPair first.fromId first.toId
          ([],
           [{ fromId := pair.1, toId := pair.2, type := .complements,
              score := (first.score + second.score) / 2,
              overlapTags := normalizeTags (first.overlapTags ++ second.overlapTags) }],
           { b.2 with reciprocalDependsOn := b.2.reciprocalDependsOn + 2 })
        else
          let winner := if first.score ≥ second.score then first else second
          ([winner], [], { b.2 with reciprocalDependsOn := b.2.reciprocalDependsOn + 1 })
      | _ => ([], [], b.2)

/-- resolveReciprocalDepends of graphBuilder.ts. -/
def resolveReciprocalDepends (candidates : List EdgeCandidate)
    (skillsById : List (String × SkillRecord)) (dropReasons : GraphDropReasons) :
    ReciprocalResolution × GraphDropReasons :=
  let nonDepends := candidates.filter (fun c => c.type ≠ .depends_on)
  let depends := candidates.filter (fun c => c.type = .depends_on)
  let byPair := depends.foldl
    (fun m c =>
      let key := pairKey c.fromId c.toId
      upsert m key (((alGet m key).getD []) ++ [c]))
    []
  let processed := byPair.foldl
    (fun acc kv =>
      let r := resolveBucket skillsById kv.2 acc.2
      ((acc.1.1 ++ r.1, acc.1.2 ++ r.2.1), r.2.2))
    ((([] : List EdgeCandidate), ([] : List EdgeCandidate)), dropReasons)
  ({ directed := nonDepends ++ processed.1.1, promotedComplements := processed.1.2 },
   processed.2)

/-- mergeUndirectedCandidates of graphBuilder.ts. -/
def mergeUndirectedCandidates (candidates : List EdgeCandidate) (type : EdgeType) :
    List EdgeCandidate :=
  let byPair := candidates.foldl
    (fun m candidate =>
      if candidate.type ≠ type then m
      else
        let pair := sortPair candidate.fromId candidate.toId
        let key := pair.1 ++ "<->" ++ pair.2
        let normalized : EdgeCandidate :=
          { candidate with
            fromId := pair.1
            toId := pair.2
            overlapTags := normalizeTags candidate.overlapTags }
        match alGet m key with
        | none => upsert m key normalized
        | some existing =>
          upsert m key
            { existing with
              score := max existing.score normalized.score
              overlapTags := normalizeTags (existing.overlapTags ++ normalized.overlapTags) })
    []
  byPair.map (·.2)

/-- Body of thresholdCandidates' loop. -/
def thresholdStep (threshold : ℚ) (acc : List EdgeCandidate × GraphDropReasons)
    (candidate : EdgeCandidate) : List EdgeCandidate × GraphDropReasons :=
  if candidate.score < threshold then
    (acc.1, { acc.2 with threshold := acc.2.threshold + 1 })
  else
    (acc.1 ++ [candidate], acc.2)

/-- thresholdCandidates of graphBuilder.ts; also returns the threshold. -/
def thresholdCandidates (candidates : List EdgeCandidate) (dropReasons : GraphDropReasons) :
    List EdgeCandidate × ℚ × GraphDropReasons :=
  let threshold := max ABS_THRESHOLD (percentile (candidates.map (·.score)) PERCENTILE_THRESHOLD)
  let r := candidates.foldl (thresholdStep threshold) ([], dropReasons)
  (r.1, threshold, r.2)

/-- pruneDirected of graphBuilder.ts: per `(source, type)` group, sort by
score descending then target id, keep the first `TOP_K` entries. -/
def pruneDirected (candidates : List EdgeCandidate) (dropReasons : GraphDropReasons) :
    List EdgeCandidate × GraphDropReasons :=
  let groups := candidates.foldl
    (fun m candidate =>
      let key := candidate.fromId ++ "|" ++ edgeTypeName candidate.type
      upsert m key (((alGet m key).getD []) ++ [candidate]))
    []
  groups.foldl
    (fun acc kv =>
      let bucket := jsSort
        (fun a b => cmpOr (b.score - a.score) (intCmpQ (strCmp a.toId b.toId))) kv.2
      let limit := match bucket with
        | [] => 0
        | c :: _ => TOP_K c.type
      (acc.1 ++ bucket.take limit,
       { acc.2 with topK := acc.2.topK + (bucket.length - min bucket.length limit) }))
    ([], dropReasons)

/-- pruneUndirected of graphBuilder.ts: sort all candidates of the type by
score descending (ties by from-id then to-id), then greedily keep an edge
while both endpoints' degree within the type is below `TOP_K`. -/
def pruneUndirected (candidates : List EdgeCandidate) (type : EdgeType)
    (dropReasons : GraphDropReasons) : List EdgeCandidate × GraphDropReasons :=
  let limit := TOP_K type
  let sorted := jsSort
    (fun a b =>
      cmpOr (cmpOr (b.score - a.score) (intCmpQ (strCmp a.fromId b.fromId)))
        (intCmpQ (strCmp a.toId b.toId)))
    candidates
  let r := sorted.foldl
    (fun acc candidate =>
      let degreeByNode := acc.1
      let fromDegree := (alGet degreeByNode candidate.fromId).getD 0
      let toDegree := (alGet degreeByNode candidate.toId).getD 0
      if fromDegree ≥ limit ∨ toDegree ≥ limit then
        (degreeByNode, acc.2.1, { acc.2.2 with topK := acc.2.2.topK + 1 })
      else
        (upsert (upsert degreeByNode candidate.fromId (fromDegree + 1)) candidate.toId (toDegree + 1),
         acc.2.1 ++ [candidate], acc.2.2))
    (([] : List (String × ℕ)), [], dropReasons)
  (r.2.1, r.2.2)

/-- Depth-first expansion of buildChains.  The recursion of the source
terminates because the path never revisits a node; the explicit `fuel`
argument (instantiated with a bound larger than any possible path length)
makes that termination structural. -/
def dfsChains (adjacency : List (String × List String)) :
    ℕ → String → List String → List (List String)
  | 0, _, _ => []
  | fuel + 1, node, path =>
    let next := (alGet adjacency node).getD []
    if next.length = 0 then [path]
    else
      (next.take 4).flatMap
        (fun candidate =>
          if candidate ∈ path then []
          else dfsChains adjacency fuel candidate (path ++ [candidate]))

/-- buildChains of graphBuilder.ts. -/
def buildChains (adjacency : List (String × List String)) : List (List String) :=
  let hasIncoming := adjacency.flatMap (·.2)
  let starts := (adjacency.map (·.1)).filter (fun node => node ∉ hasIncoming)
  let fuel := 1 + adjacency.length + (adjacency.map (fun p => p.2.length)).sum
  let chains := (starts.take 30).flatMap (fun start => dfsChains adjacency fuel start [start])
  ((jsSort (fun a b => (b.length : ℚ) - (a.length : ℚ))
    (chains.filter (fun chain => chain.length > 1))).take 20)

/-- buildMetrics of graphBuilder.ts. -/
def buildMetrics (skills : List SkillRecord) (edges : List SkillGraphEdge)
    (relatedBySkill : List (String × List String)) (inDegree outDegree : List (String × ℕ))
    (dropReasons : GraphDropReasons) (threshold : ℚ) (candidateCount : ℕ) : GraphMetrics :=
  let distributionByType := edges.foldl
    (fun d edge =>
      match edge.type with
      | .depends_on => { d with depends_on := d.depends_on + 1 }
      | .precedes => { d with precedes := d.precedes + 1 }
      | .complements => { d with complements := d.complements + 1 }
      | .alternative_to => { d with alternative_to := d.alternative_to + 1 })
    ({ depends_on := 0, precedes := 0, complements := 0, alternative_to := 0 } : EdgeTypeCounts)
  let topDegreeNodes := (jsSort
    (fun a b =>
      cmpOr (cmpOr ((b.degree : ℚ) - (a.degree : ℚ)) ((b.outDegree : ℚ) - (a.outDegree : ℚ)))
        (intCmpQ (strCmp a.id b.id)))
    (skills.map (fun skill =>
      ({ id := skill.id,
         degree := ((alGet relatedBySkill skill.id).getD []).length,
         inDegree := (alGet inDegree skill.id).getD 0,
         outDegree := (alGet outDegree skill.id).getD 0 } : GraphNodeDegree)))).take 10
  let edgeCount := edges.length
  let n := skills.length
  let density : ℚ := if n > 1 then (edgeCount : ℚ) / ((n : ℚ) * ((n : ℚ) - 1)) else 0
  { edgeCount := edgeCount, density := density, distributionByType := distributionByType,
    topDegreeNodes := topDegreeNodes, dropReasons := dropReasons, threshold := threshold,
    candidateCount := candidateCount }

/-- State of the edge-indexing loop of buildSkillGraph (the records
`adjacency`, `relatedBySkill`, `inDegree`, `outDegree` the source mutates). -/
structure EdgeIndexState where
  adjacency : List (String × List String)
  relatedBySkill : List (String × List String)
  inDegree : List (String × ℕ)
  outDegree : List (String × ℕ)
deriving DecidableEq, Repr

/-- Body of the `for (const edge of edges)` indexing loop of buildSkillGraph. -/
def edgeIndexStep (acc : EdgeIndexState) (edge : SkillGraphEdge) : EdgeIndexState :=
  let acc1 :=
    if DIRECTED_TYPES edge.type then
      { acc with
        adjacency := upsert acc.adjacency edge.fromId
          (((alGet acc.adjacency edge.fromId).getD []) ++ [edge.toId])
        outDegree := upsert acc.outDegree edge.fromId
          (((alGet acc.outDegree edge.fromId).getD 0) + 1)
        inDegree := upsert acc.inDegree edge.toId
          (((alGet acc.inDegree edge.toId).getD 0) + 1) }
    else acc
  let related1 := upsert acc1.relatedBySkill edge.fromId
    (((alGet acc1.relatedBySkill edge.fromId).getD []) ++ [edge.toId])
  let related2 := upsert related1 edge.toId
    (((alGet related1 edge.toId).getD []) ++ [edge.fromId])
  { acc1 with relatedBySkill := related2 }

/-- Zeroed drop counters, the builder's initial `dropReasons` record. -/
def dropReasons0 : GraphDropReasons :=
  { stoplist := 0, spec := 0, threshold := 0, topK := 0, stage := 0, similarity := 0,
    reciprocalDependsOn := 0 }

/-- Document frequencies of buildSkillGraph. -/
def dfOf (skills : List SkillRecord) : List (String × ℕ) :=
  computeDf skills

/-- The `idfByTag` map of buildSkillGraph: `idfOf` applied to every document
frequency (the source iterates the df map and applies smoothIdf). -/
def idfByTagOf (idfOf : ℕ → ℕ → ℚ) (skills : List SkillRecord) : List (String × ℚ) :=
  (dfOf skills).map (fun p => (p.1, idfOf skills.length p.2))

/-- Candidate generation stage of buildSkillGraph. -/
def candidatesOf (idfOf : ℕ → ℕ → ℚ) (skills : List SkillRecord) :
    List EdgeCandidate × GraphDropReasons :=
  collectCandidates skills (dfOf skills) (idfByTagOf idfOf skills) dropReasons0

/-- Thresholding stage of buildSkillGraph. -/
def thresholdedOf (idfOf : ℕ → ℕ → ℚ) (skills : List SkillRecord) :
    List EdgeCandidate × ℚ × GraphDropReasons :=
  thresholdCandidates (candidatesOf idfOf skills).1 (candidatesOf idfOf skills).2

/-- The score threshold buildSkillGraph reports in its metrics. -/
def thresholdOf (idfOf : ℕ → ℕ → ℚ) (skills : List SkillRecord) : ℚ :=
  (thresholdedOf idfOf skills).2.1

/-- The `skillsById` map of buildSkillGraph. -/
def skillsByIdOf (skills : List SkillRecord) : List (String × SkillRecord) :=
  skills.foldl (fun m skill => upsert m skill.id skill) []

/-- Reciprocal-depends_on resolution stage of buildSkillGraph. -/
def reciprocalOf (idfOf : ℕ → ℕ → ℚ) (skills : List SkillRecord) :
    ReciprocalResolution × GraphDropReasons :=
  resolveReciprocalDepends
    ((thresholdedOf idfOf skills).1.filter (fun c => DIRECTED_TYPES c.type))
    (skillsByIdOf skills) (thresholdedOf idfOf skills).2.2

/-- Merged complements candidates of buildSkillGraph (surviving complements
plus the complements promoted from reciprocal depends_on pairs). -/
def mergedComplementsOf (idfOf : ℕ → ℕ → ℚ) (skills : List SkillRecord) : List EdgeCandidate :=
  mergeUndirectedCandidates
    ((thresholdedOf idfOf skills).1.filter (fun c => c.type = .complements) ++
      (reciprocalOf idfOf skills).1.promotedComplements)
    .complements

/-- Directed pruning stage of buildSkillGraph. -/
def prunedDirectedOf (idfOf : ℕ → ℕ → ℚ) (skills : List SkillRecord) :
    List EdgeCandidate × GraphDropReasons :=
  pruneDirected (reciprocalOf idfOf skills).1.directed (reciprocalOf idfOf skills).2

/-- Complements pruning stage of buildSkillGraph. -/
def prunedComplementsOf (idfOf : ℕ → ℕ → ℚ) (skills : List SkillRecord) :
    List EdgeCandidate × GraphDropReasons :=
  pruneUndirected (mergedComplementsOf idfOf skills) .complements
    (prunedDirectedOf idfOf skills).2

/-- Alternative_to pruning stage of buildSkillGraph. -/
def prunedAlternativesOf (idfOf : ℕ → ℕ → ℚ) (skills : List SkillRecord) :
    List EdgeCandidate × GraphDropReasons :=
  pruneUndirected
    (mergeUndirectedCandidates
      ((thresholdedOf idfOf skills).1.filter (fun c => c.type = .alternative_to))
      .alternative_to)
    .alternative_to (prunedComplementsOf idfOf skills).2

/-- All candidates buildSkillGraph keeps, in emission order. -/
def keptCandidatesOf (idfOf : ℕ → ℕ → ℚ) (skills : List SkillRecord) : List EdgeCandidate :=
  (prunedDirectedOf idfOf skills).1 ++ (prunedComplementsOf idfOf skills).1 ++
    (prunedAlternativesOf idfOf skills).1

/-- Rendering of a kept candidate as an output edge (scores rounded to four
decimals, `via` mirroring `overlapTags`). -/
def edgeOfCandidate (c : EdgeCandidate) : SkillGraphEdge :=
  { fromId := c.fromId, toId := c.toId, type := c.type, score := round4 c.score,
    overlapTags := c.overlapTags, via := c.overlapTags }

/-- The sorted edge list buildSkillGraph returns. -/
def edgesOf (idfOf : ℕ → ℕ → ℚ) (skills : List SkillRecord) : List SkillGraphEdge :=
  jsSort
    (fun a b =>
      cmpOr (cmpOr (b.score - a.score) (intCmpQ (strCmp a.fromId b.fromId)))
        (intCmpQ (strCmp a.toId b.toId)))
    ((keptCandidatesOf idfOf skills).map edgeOfCandidate)

/-- buildSkillGraph of graphBuilder.ts, assembled from the stage definitions
above (which mirror the source's `let`-sequence one for one).  `idfOf n df`
abstracts `smoothIdf(n, df) = Math.log((n + 1) / (df + 1)) + 1`, the one use
of a transcendental function (see the header comment); everything else
follows the source line by line.  The companion `logGraphMetrics` call of the
source is console-only and does not influence the returned structure. -/
def buildSkillGraph (idfOf : ℕ → ℕ → ℚ) (skills : List SkillRecord) : SkillGraph :=
  let adjacency0 := skills.foldl (fun m skill => upsert m skill.id ([] : List String)) []
  let relatedBySkill0 := skills.foldl (fun m skill => upsert m skill.id ([] : List String)) []
  let inDegree0 := skills.foldl (fun m skill => upsert m skill.id (0 : ℕ)) []
  let outDegree0 := skills.foldl (fun m skill => upsert m skill.id (0 : ℕ)) []
  let edges := edgesOf idfOf skills
  let indexed := edges.foldl (edgeIndexStep)
    ({ adjacency := adjacency0, relatedBySkill := relatedBySkill0, inDegree := inDegree0,
       outDegree := outDegree0 } : EdgeIndexState)
  let adjacency := indexed.adjacency.map (fun p => (p.1, dedupFirst p.2))
  let relatedBySkill := indexed.relatedBySkill.map (fun p => (p.1, dedupFirst p.2))
  let metrics := buildMetrics skills edges relatedBySkill indexed.inDegree indexed.outDegree
    (prunedAlternativesOf idfOf skills).2 (thresholdOf idfOf skills)
    (candidatesOf idfOf skills).1.length
  { edges := edges, adjacency := adjacency, relatedBySkill := relatedBySkill,
    chains := buildChains adjacency, metrics := metrics }

end SkillsScanner.GraphBuilder

namespace SkillsScanner.TagVocabulary

open SkillsScanner

/-- TAG_VOCAB of the tag-vocabulary module. -/
def TAG_VOCAB : List String :=
  ["requirements", "planning", "workflow", "tasks", "automation", "integration",
   "repo", "files", "api", "rest", "graphql", "webhook",
   "auth", "oauth", "security", "privacy", "compliance", "risk",
   "audit", "plan", "spec", "schema", "code", "patch",
   "tests", "docs", "config", "report", "pr", "debugging",
   "refactor", "performance", "monitoring", "observability", "logging", "ci-cd",
   "deploy", "docker", "kubernetes", "serverless", "nodejs", "typescript",
   "javascript", "python", "go", "rust", "java", "react",
   "nextjs", "frontend", "backend", "database", "db", "sql",
   "nosql", "vector-db", "rag", "llm", "prompting", "agents",
   "mcp", "tooling", "cli", "scripts", "readme", "changelog",
   "guides", "templates", "examples", "architecture", "diagram", "mermaid",
   "ui", "ux", "design", "accessibility", "seo", "analytics",
   "dashboard", "reporting", "documents", "export", "csv", "json",
   "yaml", "markdown", "pdf", "docx", "pptx", "image",
   "video", "audio", "notebook", "notion", "slack", "discord",
   "telegram", "github", "jira", "file-ops", "data-extraction", "data-transform",
   "validation", "quality"]

/-- Extra (non-interface) members of ARTIFACT_TAGS_ALLOWED. -/
def ARTIFACT_ALLOWED_EXTRAS : List String :=
  ["guides", "templates", "examples", "diagram", "scripts", "export",
   "csv", "json", "yaml", "markdown", "pdf", "docx",
   "pptx", "image", "video", "audio"]

/-- ARTIFACT_FIELD_AUTOCORRECT of the tag-vocabulary module. -/
def ARTIFACT_FIELD_AUTOCORRECT : List (String × String) :=
  [("workflow", "plan"), ("planning", "plan"), ("tasks", "plan"),
   ("requirements", "spec"), ("architecture", "spec"), ("mermaid", "diagram"),
   ("api", "spec"), ("rest", "spec"), ("graphql", "spec"),
   ("webhook", "spec"), ("frontend", "code"), ("backend", "code"),
   ("ui", "spec"), ("ux", "spec"), ("design", "spec"),
   ("database", "schema"), ("db", "schema"), ("sql", "schema"),
   ("nosql", "schema"), ("vector-db", "schema"), ("llm", "docs"),
   ("prompting", "docs"), ("agents", "docs"), ("mcp", "config"),
   ("tooling", "scripts"), ("cli", "scripts"), ("automation", "scripts"),
   ("file-ops", "scripts"), ("files", "code"), ("data-extraction", "report"),
   ("data-transform", "report"), ("security", "report"), ("privacy", "report"),
   ("compliance", "report"), ("risk", "report"), ("audit", "report"),
   ("validation", "tests"), ("quality", "tests"), ("observability", "report"),
   ("monitoring", "report"), ("logging", "report"), ("github", "pr"),
   ("jira", "report"), ("notion", "docs"), ("slack", "report"),
   ("discord", "report"), ("telegram", "report")]

/-- ALIAS_MAP of the tag-vocabulary module. -/
def ALIAS_MAP : List (String × String) :=
  [("js", "javascript"), ("ts", "typescript"), ("reactjs", "react"),
   ("react_js", "react"), ("node", "nodejs"), ("nodejs", "nodejs"),
   ("node_js", "nodejs")]

/-- SYNONYM_TO_TAG of the tag-vocabulary module, in literal order. -/
def SYNONYM_TO_TAG : List (String × String) :=
  [("requirement", "requirements"), ("requirements", "requirements"), ("spec", "spec"),
   ("specs", "spec"), ("specification", "spec"), ("specifications", "spec"),
   ("prd", "spec"), ("roadmap", "plan"), ("planning", "planning"),
   ("orchestration", "workflow"), ("pipeline", "workflow"), ("pipelines", "workflow"),
   ("todo", "tasks"), ("todos", "tasks"), ("task", "tasks"),
   ("automation", "automation"), ("automations", "automation"), ("integration", "integration"),
   ("integrations", "integration"), ("connector", "integration"), ("connectors", "integration"),
   ("repository", "repo"), ("repo", "repo"), ("file", "files"),
   ("files", "files"), ("endpoint", "api"), ("endpoints", "api"),
   ("http", "rest"), ("restapi", "rest"), ("graphql", "graphql"),
   ("hook", "webhook"), ("webhooks", "webhook"), ("authentication", "auth"),
   ("authorization", "auth"), ("login", "auth"), ("oauth2", "oauth"),
   ("sec", "security"), ("privacy", "privacy"), ("gdpr", "compliance"),
   ("hipaa", "compliance"), ("iso27001", "compliance"), ("risk", "risk"),
   ("audit", "audit"), ("schema", "schema"), ("schemas", "schema"),
   ("implementation", "code"), ("sourcecode", "code"), ("source", "code"),
   ("diff", "patch"), ("patches", "patch"), ("config", "config"),
   ("configs", "config"), ("configuration", "config"), ("settings", "config"),
   ("test", "tests"), ("testing", "tests"), ("qa", "tests"),
   ("jest", "tests"), ("vitest", "tests"), ("pytest", "tests"),
   ("playwright", "tests"), ("cypress", "tests"), ("report", "report"),
   ("reports", "report"), ("summary", "report"), ("pullrequest", "pr"),
   ("merge", "pr"), ("deploy", "deploy"), ("deployment", "deploy"),
   ("deployments", "deploy"), ("release", "deploy"), ("releases", "deploy"),
   ("vercel", "deploy"), ("netlify", "deploy"), ("debug", "debugging"),
   ("debugging", "debugging"), ("profiling", "performance"), ("metrics", "monitoring"),
   ("tracing", "observability"), ("logs", "logging"), ("logging", "logging"),
   ("cicd", "ci-cd"), ("ci", "ci-cd"), ("cd", "ci-cd"),
   ("container", "docker"), ("containers", "docker"), ("k8s", "kubernetes"),
   ("lambda", "serverless"), ("cloudfunctions", "serverless"), ("node", "nodejs"),
   ("node.js", "nodejs"), ("ts", "typescript"), ("js", "javascript"),
   ("golang", "go"), ("frontend", "frontend"), ("backend", "backend"),
   ("database", "database"), ("databases", "database"), ("postgresql", "db"),
   ("postgres", "db"), ("mysql", "db"), ("sqlite", "db"),
   ("mongo", "nosql"), ("mongodb", "nosql"), ("redis", "nosql"),
   ("vectordb", "vector-db"), ("embeddings", "rag"), ("rag", "rag"),
   ("llms", "llm"), ("ai", "llm"), ("prompts", "prompting"),
   ("prompt", "prompting"), ("agent", "agents"), ("mcpserver", "mcp"),
   ("mcpservers", "mcp"), ("modelcontextprotocol", "mcp"), ("tool", "tooling"),
   ("tools", "tooling"), ("command", "cli"), ("commands", "cli"),
   ("script", "scripts"), ("scripts", "scripts"), ("documentation", "docs"),
   ("docs", "docs"), ("readme", "readme"), ("changelog", "changelog"),
   ("guide", "guides"), ("guides", "guides"), ("template", "templates"),
   ("templates", "templates"), ("sample", "examples"), ("samples", "examples"),
   ("example", "examples"), ("diagram", "diagram"), ("diagrams", "diagram"),
   ("flowchart", "diagram"), ("mermaid", "mermaid"), ("ux", "ux"),
   ("ui", "ui"), ("a11y", "accessibility"), ("accessibility", "accessibility"),
   ("analytics", "analytics"), ("chart", "dashboard"), ("charts", "dashboard"),
   ("dashboard", "dashboard"), ("reporting", "reporting"), ("document", "documents"),
   ("documents", "documents"), ("doc", "documents"), ("exporting", "export"),
   ("exports", "export"), ("export", "export"), ("xlsx", "csv"),
   ("tsv", "csv"), ("json", "json"), ("yml", "yaml"),
   ("md", "markdown"), ("markdown", "markdown"), ("pdf", "pdf"),
   ("word", "docx"), ("docx", "docx"), ("powerpoint", "pptx"),
   ("ppt", "pptx"), ("slides", "pptx"), ("pptx", "pptx"),
   ("image", "image"), ("images", "image"), ("screenshot", "image"),
   ("screenshots", "image"), ("video", "video"), ("videos", "video"),
   ("audio", "audio"), ("notebooklm", "notebook"), ("notebook", "notebook"),
   ("notion", "notion"), ("slack", "slack"), ("discord", "discord"),
   ("telegram", "telegram"), ("github", "github"), ("jira", "jira"),
   ("filesystem", "file-ops"), ("extraction", "data-extraction"), ("parser", "data-extraction"),
   ("transform", "data-transform"), ("etl", "data-transform"), ("validate", "validation"),
   ("validation", "validation"), ("quality", "quality")]

/-- COMPOUND_SYNONYMS of the tag-vocabulary module. -/
def COMPOUND_SYNONYMS : List (String × String) :=
  [("requirements spec", "spec"), ("mcp server", "mcp"), ("model context protocol", "mcp"),
   ("pull request", "pr"), ("code patch", "patch"), ("output artifact", "report"),
   ("test suite", "tests"), ("word document", "docx"), ("power point", "pptx"),
   ("slide deck", "pptx")]

/-- VOCAB_SET membership test. -/
def VOCAB_SET (tag : String) : Bool :=
  TAG_VOCAB.contains tag

/-- ARTIFACT_TAGS_ALLOWED: the interface tags plus the extra artifact kinds
(the source spreads ARTIFACT_INTERFACE_TAGS into the set literal first). -/
def ARTIFACT_TAGS_ALLOWED : List String :=
  ARTIFACT_INTERFACE_TAGS ++ ARTIFACT_ALLOWED_EXTRAS

/-- Field names of `MachineTagSemantics` (`keyof MachineTagSemantics`). -/
inductive MachineField
  | inputsTags | artifactsTags | capabilitiesTags
deriving DecidableEq, Repr

/-- FIELD_ALLOWED of the tag-vocabulary module (INPUT_TAGS_ALLOWED and
CAPABILITY_TAGS_ALLOWED are both `new Set(TAG_VOCAB)`). -/
def FIELD_ALLOWED : MachineField → List String
  | .inputsTags => TAG_VOCAB
  | .artifactsTags => ARTIFACT_TAGS_ALLOWED
  | .capabilitiesTags => TAG_VOCAB

/-- Reason codes of `InvalidTagIssue` in `src/types.ts`. -/
inductive IssueReason
  | unknown_tag | field_not_allowed | artifact_evidence_missing
deriving DecidableEq, Repr

/-- InvalidTagIssue of `src/types.ts`. -/
structure InvalidTagIssue where
  field : MachineField
  rawTag : String
  mappedTo : Option String
  reason : Option IssueReason
deriving DecidableEq, Repr

/-- MachineTagSemantics of `src/types.ts`. -/
structure MachineTagSemantics where
  inputsTags : List String
  artifactsTags : List String
  capabilitiesTags : List String
deriving DecidableEq, Repr

/-- Characters the `[_/\\]+` regex of normalizeTagToken folds to spaces. -/
def replSlash (c : Char) : Char :=
  if c = '_' ∨ c = '/' ∨ c = '\\' then ' ' else c

/-- Characters outside `[a-z0-9\s-]` are folded to spaces (the input is
already lower-cased when this class is applied). -/
def keepOrSpace (c : Char) : Char :=
  if ('a' ≤ c ∧ c ≤ 'z') ∨ ('0' ≤ c ∧ c ≤ '9') ∨ jsIsWs c ∨ c = '-' then c else ' '

/-- Concatenation of word chunks with single spaces. -/
def joinChunks : List (List Char) → List Char
  | [] => []
  | [w] => w
  | w :: ws => w ++ ' ' :: joinChunks ws

/-- normalizeTagToken of the tag-vocabulary module: lower-case, fold
`[_/\\]+` and `[^a-z0-9\s-]+` to spaces, collapse whitespace runs, trim.
Collapsing runs and trimming is equivalently: split into non-whitespace
words and re-join with single spaces. -/
def normalizeTagToken (value : String) : String :=
  let cs := ((value.data.map jsToLowerChar).map replSlash).map keepOrSpace
  ⟨joinChunks ((wsChunks cs).filter (fun w => w ≠ []))⟩

/-- toCanonicalCandidate of the tag-vocabulary module: the normalized token
with the (single) spaces replaced by hyphens. -/
def toCanonicalCandidate (value : String) : String :=
  ⟨(normalizeTagToken value).data.map (fun c => if c = ' ' then '-' else c)⟩

/-- Inner loop of one Levenshtein DP row: walks the characters of `a` and
the previous row in parallel, carrying the freshly computed left neighbour. -/
def levGo (bc : Char) : List Char → List ℕ → ℕ → List ℕ
  | [], _, _ => []
  | ac :: as', prev, last =>
    match prev with
    | p0 :: p1 :: ps =>
      let v := if ac = bc then p0 else 1 + min p0 (min p1 last)
      v :: levGo bc as' (p1 :: ps) v
    | _ => []

/-- levenshteinDistance of the tag-vocabulary module (row-by-row DP with the
same recurrence as the source's matrix). -/
def levenshteinDistance (a b : String) : ℕ :=
  if a = b then 0
  else if a.data.length = 0 then b.data.length
  else if b.data.length = 0 then a.data.length
  else
    let row0 := List.range (a.data.length + 1)
    let final := b.data.foldl
      (fun prev bc => (prev.headD 0 + 1) :: levGo bc a.data prev (prev.headD 0 + 1))
      row0
    final.getLastD 0

/-- Model of `String.prototype.includes`: substring containment. -/
def strIncludes (hay needle : String) : Bool :=
  (List.range (hay.data.length + 1)).any (fun i => needle.data.isPrefixOf (hay.data.drop i))

/-- Split on a single separator character, keeping empty chunks, as
JavaScript `split('-')` does. -/
def splitOnChar (sep : Char) (s : String) : List String :=
  (s.data.foldr
    (fun c acc =>
      if c = sep then [] :: acc
      else
        match acc with
        | [] => [[c]]
        | w :: ws => (c :: w) :: ws)
    [[]]).map (fun w => (⟨w⟩ : String))

/-- Space-separated non-empty token parts of a normalized string
(`normalized.split(' ').filter(Boolean)`). -/
def tokenPartsOf (normalized : String) : List String :=
  ((wsChunks normalized.data).filter (fun w => w ≠ [])).map (fun w => (⟨w⟩ : String))

/-- Hyphens-to-spaces rendering of a vocabulary tag (the source replaces
every hyphen of the tag by a space). -/
def tagSpaces (tag : String) : String :=
  ⟨tag.data.map (fun c => if c = '-' then ' ' else c)⟩

/-- Token-overlap score of one vocabulary tag inside
closestTagByTokenScore. -/
def tokenScoreFor (normalized : String) (tokenParts : List String) (tag : String) : ℕ :=
  let tagWords := splitOnChar '-' tag
  let base :=
    (if normalized = tagSpaces tag then 50 else 0) +
      (if strIncludes normalized (tagSpaces tag) then 8 else 0)
  tokenParts.foldl
    (fun score part =>
      score + (if part = tag then 10 else 0) + (if tagWords.contains part then 6 else 0) +
        (if part.data.length > 3 ∧ strIncludes tag part then 2 else 0))
    base

/-- closestTagByTokenScore of the tag-vocabulary module: best token-overlap
score over the vocabulary (strict improvement updates, so the first best tag
wins), falling back to a Levenshtein scan when no score reaches 8. -/
def closestTagByTokenScore (normalized : String) : Option String :=
  if normalized = "" then none
  else
    let tokenParts := tokenPartsOf normalized
    let multiToken := tokenParts.length > 1
    let best := TAG_VOCAB.foldl
      (fun acc tag =>
        if multiToken ∧ tag.data.length ≤ 2 then acc
        else
          let score := tokenScoreFor normalized tokenParts tag
          if score > acc.2 then (some tag, score) else acc)
      ((none : Option String), 0)
    if best.2 ≥ 8 then best.1
    else
      let compact : String := ⟨normalized.data.filter (fun c => ¬ jsIsWs c)⟩
      if compact.data.length < 5 then none
      else
        let lev := TAG_VOCAB.foldl
          (fun acc tag =>
            if tag.data.length ≤ 2 then acc
            else
              let distance := levenshteinDistance compact ⟨tag.data.filter (fun c => c ≠ '-')⟩
              match acc.2 with
              | none => (some tag, some distance)
              | some m => if distance < m then (some tag, some distance) else acc)
          ((none : Option String), (none : Option ℕ))
        match lev.2 with
        | some m => if m ≤ 2 then lev.1 else none
        | none => none

/-- mapRawTag of the tag-vocabulary module (the authoritative version with
ALIAS_MAP and the vocabulary-before-synonym per-token scan). -/
def mapRawTag (rawTag : String) : Option String × Option InvalidTagIssue :=
  let raw := strTrim rawTag
  if raw = "" then (none, none)
  else
    let canonicalCandidate := toCanonicalCandidate raw
    if VOCAB_SET canonicalCandidate then (some canonicalCandidate, none)
    else
      let normalized := normalizeTagToken raw
      if normalized = "" then
        (none, some { field := .inputsTags, rawTag := raw, mappedTo := none,
                      reason := some .unknown_tag })
      else if VOCAB_SET normalized then (some normalized, none)
      else
        let normalizedCompact : String := ⟨normalized.data.filter (fun c => ¬ jsIsWs c)⟩
        match (alGet ALIAS_MAP normalizedCompact).orElse (fun _ => alGet ALIAS_MAP normalized) with
        | some aliasTag => (some aliasTag, none)
        | none =>
          match (alGet SYNONYM_TO_TAG normalizedCompact).orElse
              (fun _ => alGet SYNONYM_TO_TAG normalized) with
          | some exactSynonym => (some exactSynonym, none)
          | none =>
            match COMPOUND_SYNONYMS.find? (fun p => strIncludes normalized p.1) with
            | some p => (some p.2, none)
            | none =>
              let parts := tokenPartsOf normalized
              let scanned := parts.foldl
                (fun acc part =>
                  match acc with
                  | some _ => acc
                  | none =>
                    if VOCAB_SET part then some (part, part)
                    else
                      match alGet SYNONYM_TO_TAG part with
                      | some synonym => some (synonym, synonym)
                      | none => none)
                (none : Option (String × String))
              match scanned with
              | some s =>
                (some s.1, some { field := .inputsTags, rawTag := raw, mappedTo := some s.2,
                                  reason := some .unknown_tag })
              | none =>
                match closestTagByTokenScore normalized with
                | some fuzzyMatch =>
                  (some fuzzyMatch,
                   some { field := .inputsTags, rawTag := raw, mappedTo := some fuzzyMatch,
                          reason := some .unknown_tag })
                | none =>
                  (none, some { field := .inputsTags, rawTag := raw, mappedTo := none,
                                reason := some .unknown_tag })

/-- Body of sanitizeTagField's per-candidate loop.  The autocorrect-success
branch `continue`s, skipping even the push of a pending mapRawTag issue; all
other branches fall through to that push. -/
def sanitizeStep (field : MachineField) (allowed : List String)
    (acc : List String × List InvalidTagIssue) (candidate : String) :
    List String × List InvalidTagIssue :=
  let m := mapRawTag candidate
  let pushIssue : List InvalidTagIssue → List InvalidTagIssue := fun issues =>
    match m.2 with
    | some issue => issues ++ [{ issue with field := field }]
    | none => issues
  match m.1 with
  | none => (acc.1, pushIssue acc.2)
  | some mapped =>
    if ¬ allowed.contains mapped then
      let fallThrough : List String × List InvalidTagIssue :=
        (acc.1,
         pushIssue (acc.2 ++ [{ field := field, rawTag := candidate, mappedTo := some mapped,
                                reason := some .field_not_allowed }]))
      if field = .artifactsTags then
        match alGet ARTIFACT_FIELD_AUTOCORRECT mapped with
        | some corrected =>
          if allowed.contains corrected then
            (if corrected ∈ acc.1 then acc.1 else acc.1 ++ [corrected], acc.2)
          else fallThrough
        | none => fallThrough
      else fallThrough
    else
      (if mapped ∈ acc.1 then acc.1 else acc.1 ++ [mapped], pushIssue acc.2)

/-- sanitizeTagField of the tag-vocabulary module: map the first 24 raw tags,
enforce the field allow-list (with the artifact autocorrect table), dedup in
first-acceptance order and cap the result at 8 tags. -/
def sanitizeTagField (rawTags : List String) (field : MachineField) :
    List String × List InvalidTagIssue :=
  let allowed := FIELD_ALLOWED field
  let r := (rawTags.take 24).foldl (sanitizeStep field allowed) ([], [])
  (r.1.take 8, r.2)

/-- sanitizeMachineTags of the tag-vocabulary module.  `Partial` fields that
are absent behave as `?? []`, so the input is taken already defaulted. -/
def sanitizeMachineTags (raw : MachineTagSemantics) :
    MachineTagSemantics × List InvalidTagIssue :=
  let inputs := sanitizeTagField raw.inputsTags .inputsTags
  let artifacts := sanitizeTagField raw.artifactsTags .artifactsTags
  let capabilities := sanitizeTagField raw.capabilitiesTags .capabilitiesTags
  ({ inputsTags := inputs.1, artifactsTags := artifacts.1, capabilitiesTags := capabilities.1 },
   inputs.2 ++ artifacts.2 ++ capabilities.2)

end SkillsScanner.TagVocabulary

namespace SkillsScanner.WorkflowAssembler

open SkillsScanner

/-- STAGE_ORDER of the assembler module (an identical copy of the graph
builder's table). -/
def STAGE_ORDER : Stage → ℕ := GraphBuilder.STAGE_ORDER

/-- MAX_ALTERNATIVES of the assembler module. -/
def MAX_ALTERNATIVES : ℕ := 3

/-- MIN_SELECTABLE_SCORE = 1.15. -/
def MIN_SELECTABLE_SCORE : ℚ := mkRat 23 20

/-- normalizeTags of the assembler module (identical to the graph builder's
copy). -/
def normalizeTags (tags : List String) : List String := GraphBuilder.normalizeTags tags

/-- intersectTags of the assembler module (identical to the graph builder's
copy). -/
def intersectTags (left right : List String) : List String :=
  GraphBuilder.intersectTags left right

/-- toEdgeKey of the assembler module. -/
def toEdgeKey (fromId toId : String) : String :=
  fromId ++ "->" ++ toId

/-- stageDistance of the assembler module. -/
def stageDistance (a b : Stage) : ℕ :=
  ((STAGE_ORDER a : ℤ) - (STAGE_ORDER b : ℤ)).natAbs

/-- scoreStage of the assembler module. -/
def scoreStage (stepStage skillStage : Stage) : ℚ :=
  let distance := stageDistance stepStage skillStage
  if distance = 0 then 2
  else if distance = 1 then 1
  else if distance = 2 then mkRat 3 10
  else 0

/-- String rendering of a stage, as the source's template literals render the
`Stage` union strings. -/
def stageName : Stage → String
  | .intake => "intake"
  | .plan => "plan"
  | .implement => "implement"
  | .verify => "verify"
  | .refactor => "refactor"
  | .security => "security"
  | .docs => "docs"
  | .release => "release"
  | .other => "other"

/-- WorkflowPlanStep of `src/types.ts`. -/
structure WorkflowPlanStep where
  id : Option String
  title : Option String
  stage : Stage
  inputsTags : List String
  outputsTags : List String
  capabilitiesTags : Option (List String)
deriving DecidableEq, Repr

/-- WorkflowPlan of `src/types.ts` (the optional `id`/`name` metadata is
never read by the assembler). -/
structure WorkflowPlan where
  steps : List WorkflowPlanStep
deriving DecidableEq, Repr

/-- Candidate source of a feedback record (`WorkflowFeedbackCandidateType`). -/
inductive FeedbackCandidateType
  | selected | alternative
deriving DecidableEq, Repr

/-- WorkflowFeedbackRecord of `src/types.ts`, projected to the fields the
assembler reads (`rating` is `1 | -1`, kept as a rational factor). -/
structure WorkflowFeedbackRecord where
  skillId : String
  stepStage : Stage
  expectedTags : List String
  rating : ℚ
  candidateType : FeedbackCandidateType
deriving DecidableEq, Repr

/-- WorkflowSkillCandidate of `src/types.ts`. -/
structure WorkflowSkillCandidate where
  skillId : String
  name : String
  stage : Stage
  score : ℚ
  confidence : ℚ
  matchedTags : List String
  reasoning : String
deriving DecidableEq, Repr

/-- StepEvaluation of the assembler module. -/
structure StepEvaluation where
  candidate : WorkflowSkillCandidate
  score : ℚ
  matchedTags : List String
  missingTags : List String
  graphBoost : ℚ
deriving DecidableEq, Repr

/-- AssemblerGraphOptions of the assembler module.  The `graph` option is
`SkillGraph | null | undefined`: `none` models an omitted option,
`some none` the explicit `null`, `some (some g)` a supplied graph. -/
structure AssemblerGraphOptions where
  graph : Option (Option SkillGraph)
  alternativesLimit : Option ℕ
  lockedSkillByStepId : List (String × String)
  feedbackEntries : Option (List WorkflowFeedbackRecord)
deriving Repr

/-- WorkflowStepAssembly of `src/types.ts`. -/
structure WorkflowStepAssembly where
  stepId : String
  title : String
  stage : Stage
  selected : Option WorkflowSkillCandidate
  alternatives : List WorkflowSkillCandidate
  overlapTags : List String
  missingCapabilities : List String
  locked : Bool
deriving DecidableEq, Repr

/-- SkillWorkflowAssembly of `src/types.ts` (records modelled as
insertion-ordered association lists). -/
structure SkillWorkflowAssembly where
  selected : List WorkflowSkillCandidate
  alternatives : List (String × List WorkflowSkillCandidate)
  reasoning : List (String × String)
  missingCapabilities : List String
  steps : List WorkflowStepAssembly
deriving DecidableEq, Repr

/-- buildEdgeLookup of the assembler module: a map from `from->to` keys to
the set of edge types present on that ordered pair. -/
def buildEdgeLookup (graph : SkillGraph) : List (String × List EdgeType) :=
  graph.edges.foldl
    (fun lookup edge =>
      let key := toEdgeKey edge.fromId edge.toId
      let bucket := (alGet lookup key).getD []
      upsert lookup key (if edge.type ∈ bucket then bucket else bucket ++ [edge.type]))
    []

/-- emptyGraph of the assembler module. -/
def emptyGraph : SkillGraph :=
  { edges := []
    adjacency := []
    relatedBySkill := []
    chains := []
    metrics :=
      { edgeCount := 0
        density := 0
        distributionByType :=
          { depends_on := 0, precedes := 0, complements := 0, alternative_to := 0 }
        topDegreeNodes := []
        dropReasons :=
          { stoplist := 0, spec := 0, threshold := 0, topK := 0, stage := 0, similarity := 0,
            reciprocalDependsOn := 0 }
        threshold := 0
        candidateCount := 0 } }

/-- scoreToConfidence of the assembler module; `expOf` abstracts `Math.exp`
(see the header comment). -/
def scoreToConfidence (expOf : ℚ → ℚ) (score : ℚ) : ℚ :=
  let confidence := 1 / (1 + expOf ((-(mkRat 3 4)) * (score - mkRat 12 5)))
  max 0 (min 1 (round4 confidence))

/-- jaccardSimilarity of the assembler module (unlike the graph builder's
copy, this one normalizes both tag lists first). -/
def jaccardSimilarity (left right : List String) : ℚ :=
  let leftSet := normalizeTags left
  let rightSet := normalizeTags right
  if leftSet.length = 0 ∧ rightSet.length = 0 then 0
  else
    let intersection := (leftSet.filter (fun t => t ∈ rightSet)).length
    let union := leftSet.length + rightSet.length - intersection
    if union = 0 then 0 else (intersection : ℚ) / (union : ℚ)

/-- Rendering of a rational to two decimal places, modelling
`Number.prototype.toFixed(2)` on the clamped feedback biases it is applied
to. -/
def qToFixed2 (q : ℚ) : String :=
  let scaled : ℤ := round (q * 100)
  let sign := if scaled < 0 then "-" else ""
  let a := scaled.natAbs
  sign ++ toString (a / 100) ++ "." ++ (if a % 100 < 10 then "0" else "") ++ toString (a % 100)

/-- feedbackBiasForCandidate of the assembler module: the summed, clamped
feedback weight together with the number of votes. -/
def feedbackBiasForCandidate (step : WorkflowPlanStep) (skill : SkillRecord)
    (feedbackEntries : Option (List WorkflowFeedbackRecord)) : ℚ × ℕ :=
  match feedbackEntries with
  | none => (0, 0)
  | some entries =>
    if entries.length = 0 then (0, 0)
    else
      let stepTags := normalizeTags
        (step.inputsTags ++ step.outputsTags ++ step.capabilitiesTags.getD [])
      let r := entries.foldl
        (fun acc feedback =>
          if feedback.skillId ≠ skill.id then acc
          else
            let stageWeight : ℚ := if feedback.stepStage = step.stage then 1 else mkRat 7 20
            let similarity := jaccardSimilarity stepTags feedback.expectedTags
            let confidence := mkRat 1 5 + similarity * mkRat 4 5
            let sourceWeight : ℚ :=
              if feedback.candidateType = .selected then 1 else mkRat 4 5
            (acc.1 + feedback.rating * stageWeight * confidence * sourceWeight, acc.2 + 1))
        ((0 : ℚ), (0 : ℕ))
      (max (-(mkRat 8 5)) (min (mkRat 8 5) (round4 r.1)), r.2)

/-- evaluateCandidate of the assembler module. -/
def evaluateCandidate (expOf : ℚ → ℚ) (step : WorkflowPlanStep) (skill : SkillRecord)
    (previousSelected : Option SkillRecord) (edgeLookup : List (String × List EdgeType))
    (feedbackEntries : Option (List WorkflowFeedbackRecord)) : StepEvaluation :=
  let stepInputs := normalizeTags step.inputsTags
  let stepOutputs := normalizeTags step.outputsTags
  let stepCapabilities := normalizeTags (step.capabilitiesTags.getD [])
  let skillInputs := normalizeTags skill.inputsTags
  let skillOutputs := normalizeTags skill.artifactsTags
  let skillCapabilities := normalizeTags skill.capabilitiesTags
  let inputMatches := intersectTags stepInputs (skillInputs ++ skillCapabilities)
  let outputMatches := intersectTags stepOutputs skillOutputs
  let capabilityMatches := intersectTags stepCapabilities skillCapabilities
  let score0 := scoreStage step.stage skill.stage
    + (inputMatches.length : ℚ) * mkRat 23 20
    + (outputMatches.length : ℚ) * mkRat 27 20
    + (capabilityMatches.length : ℚ) * mkRat 11 10
  let reasoningParts0 : List String :=
    (if scoreStage step.stage skill.stage > 0 then
      ["stage " ++ stageName step.stage ++ "~" ++ stageName skill.stage] else []) ++
    (if inputMatches.length ≠ 0 then ["inputs: " ++ strJoin ", " inputMatches] else []) ++
    (if outputMatches.length ≠ 0 then ["outputs: " ++ strJoin ", " outputMatches] else []) ++
    (if capabilityMatches.length ≠ 0 then
      ["capabilities: " ++ strJoin ", " capabilityMatches] else [])
  let flowPart : ℚ × List String :=
    match previousSelected with
    | none => (0, [])
    | some prev =>
      let flowOverlap := intersectTags prev.artifactsTags skillInputs
      let base : ℚ × List String :=
        if flowOverlap.length ≠ 0 then
          ((flowOverlap.length : ℚ) * mkRat 3 4,
           ["prev artifacts->inputs: " ++ strJoin ", " flowOverlap])
        else (0, [])
      let priorEdgeTypes := alGet edgeLookup (toEdgeKey prev.id skill.id)
      match priorEdgeTypes with
      | some types =>
        if EdgeType.depends_on ∈ types then
          (base.1 + mkRat 8 5, base.2 ++ ["graph depends_on"])
        else if EdgeType.precedes ∈ types then
          (base.1 + mkRat 11 10, base.2 ++ ["graph precedes"])
        else base
      | none => base
  let graphBoost := flowPart.1
  let feedback := feedbackBiasForCandidate step skill feedbackEntries
  let withFeedback : ℚ × List String :=
    if feedback.1 ≠ 0 then
      (score0 + feedback.1,
       reasoningParts0 ++ flowPart.2 ++
        ["feedback " ++ (if feedback.1 > 0 then "+" else "") ++ qToFixed2 feedback.1 ++
          " (" ++ toString feedback.2 ++ " votes)"])
    else (score0, reasoningParts0 ++ flowPart.2)
  let score := withFeedback.1 + graphBoost
  let reasoningParts := withFeedback.2
  let requiredTags := normalizeTags (stepInputs ++ stepOutputs ++ stepCapabilities)
  let coveredTags := normalizeTags (inputMatches ++ outputMatches ++ capabilityMatches)
  let missingTags := requiredTags.filter (fun tag => tag ∉ coveredTags)
  let matchedTags := coveredTags
  { candidate :=
      { skillId := skill.id
        name := skill.name
        stage := skill.stage
        score := round4 score
        confidence := scoreToConfidence expOf score
        matchedTags := matchedTags
        reasoning :=
          if reasoningParts.length ≠ 0 then strJoin " | " reasoningParts
          else "low tag overlap" }
    score := score
    matchedTags := matchedTags
    missingTags := missingTags
    graphBoost := graphBoost }

/-- State threaded through assembleWorkflow's step loop. -/
structure AssembleState where
  selected : List WorkflowSkillCandidate
  alternatives : List (String × List WorkflowSkillCandidate)
  reasoning : List (String × String)
  steps : List WorkflowStepAssembly
  missingGlobal : List String
  previousSelected : Option SkillRecord
deriving Repr

/-- Body of assembleWorkflow's per-step loop. -/
def assembleStep (expOf : ℚ → ℚ) (skills : List SkillRecord)
    (skillsById : List (String × SkillRecord)) (edgeLookup : List (String × List EdgeType))
    (alternativesLimit : ℕ) (options : AssemblerGraphOptions)
    (state : AssembleState) (indexed : ℕ × WorkflowPlanStep) : AssembleState :=
  let index := indexed.1
  let step := indexed.2
  let stepId := match step.id with
    | some s => if s = "" then "step-" ++ toString (index + 1) else s
    | none => "step-" ++ toString (index + 1)
  let title := match step.title with
    | some t => if t = "" then stageName step.stage ++ " step " ++ toString (index + 1) else t
    | none => stageName step.stage ++ " step " ++ toString (index + 1)
  let lockedSkillId : Option String := match alGet options.lockedSkillByStepId stepId with
    | some s => if s = "" then none else some s
    | none => none
  let evaluations := jsSort
    (fun a b =>
      cmpOr (b.score - a.score) (intCmpQ (strCmp a.candidate.skillId b.candidate.skillId)))
    (skills.map (fun skill =>
      evaluateCandidate expOf step skill state.previousSelected edgeLookup
        options.feedbackEntries))
  let evaluationBySkillId := evaluations.foldl
    (fun m entry => upsert m entry.candidate.skillId entry) []
  let lockedEvaluation : Option StepEvaluation :=
    lockedSkillId.bind (fun lid => alGet evaluationBySkillId lid)
  let selectable := evaluations.filter
    (fun entry =>
      entry.score ≥ MIN_SELECTABLE_SCORE ∧ (entry.matchedTags.length > 0 ∨ entry.graphBoost > 0))
  let winner : Option StepEvaluation := lockedEvaluation.orElse (fun _ => selectable.head?)
  let winnerCandidate : Option WorkflowSkillCandidate :=
    winner.map (fun w =>
      if lockedEvaluation.isSome then
        { w.candidate with reasoning := "locked selection | " ++ w.candidate.reasoning }
      else w.candidate)
  let stepAlternatives := ((selectable.filter
    (fun entry =>
      match winnerCandidate with
      | some wc => entry.candidate.skillId ≠ wc.skillId
      | none => true)).take alternativesLimit).map (·.candidate)
  let missingTags := match winner with
    | some w => w.missingTags
    | none => normalizeTags (step.inputsTags ++ step.outputsTags ++ step.capabilitiesTags.getD [])
  let overlapTags := match winner with
    | some w => w.matchedTags
    | none => []
  let missingGlobal := missingTags.foldl
    (fun acc tag => if tag ∈ acc then acc else acc ++ [tag]) state.missingGlobal
  let afterWinner : AssembleState :=
    match winnerCandidate with
    | some wc =>
      { state with
        selected := state.selected ++ [wc]
        reasoning := upsert state.reasoning stepId wc.reasoning
        previousSelected := alGet skillsById wc.skillId }
    | none =>
      { state with
        reasoning := upsert state.reasoning stepId
          "No candidate met minimum score/overlap constraints"
        previousSelected := none }
  { afterWinner with
    alternatives := upsert afterWinner.alternatives stepId stepAlternatives
    missingGlobal := missingGlobal
    steps := afterWinner.steps ++
      [{ stepId := stepId
         title := title
         stage := step.stage
         selected := winnerCandidate
         alternatives := stepAlternatives
         overlapTags := overlapTags
         missingCapabilities := missingTags
         locked := winnerCandidate.isSome ∧ lockedEvaluation.isSome }] }

/-- assembleWorkflow of the assembler module.  `idfOf` is forwarded to
`buildSkillGraph` for the `options.graph === undefined` case and `expOf`
abstracts `Math.exp` in the confidence computation. -/
def assembleWorkflow (idfOf : ℕ → ℕ → ℚ) (expOf : ℚ → ℚ) (plan : WorkflowPlan)
    (skills : List SkillRecord) (options : AssemblerGraphOptions) : SkillWorkflowAssembly :=
  let graph := match options.graph with
    | some none => emptyGraph
    | some (some g) => g
    | none => GraphBuilder.buildSkillGraph idfOf skills
  let edgeLookup := buildEdgeLookup graph
  let skillsById := skills.foldl (fun m skill => upsert m skill.id skill) []
  let alternativesLimit := options.alternativesLimit.getD MAX_ALTERNATIVES
  let finalState := plan.steps.enum.foldl
    (assembleStep expOf skills skillsById edgeLookup alternativesLimit options)
    ({ selected := [], alternatives := [], reasoning := [], steps := [], missingGlobal := [],
       previousSelected := none } : AssembleState)
  { selected := finalState.selected
    alternatives := finalState.alternatives
    reasoning := finalState.reasoning
    missingCapabilities := jsSort (fun a b => intCmpQ (strCmp a b)) finalState.missingGlobal
    steps := finalState.steps }

end SkillsScanner.WorkflowAssembler

namespace SkillsScanner

/-- Membership in a stable-insert result. -/
theorem mem_stableInsert {cmp : α → α → ℚ} {x a : α} {l : List α} :
    a ∈ stableInsert cmp x l ↔ a = x ∨ a ∈ l := by
  induction l with
  | nil => simp [stableInsert]
  | cons y ys ih =>
    by_cases h : cmp y x ≤ 0 <;> simp [stableInsert, h, ih] <;> tauto

/-- Stable insertion is a permutation of consing. -/
theorem stableInsert_perm (cmp : α → α → ℚ) (x : α) (l : List α) :
    (stableInsert cmp x l).Perm (x :: l) := by
  induction l with
  | nil => simp [stableInsert]
  | cons y ys ih =>
    by_cases h : cmp y x ≤ 0
    · simp only [stableInsert, h, if_pos]
      exact (ih.cons y).trans (List.Perm.swap x y ys)
    · simp [stableInsert, h]

/-- Auxiliary permutation statement for the sorting fold. -/
theorem jsSort_fold_perm (cmp : α → α → ℚ) (l acc : List α) :
    (l.foldl (fun acc x => stableInsert cmp x acc) acc).Perm (acc ++ l) := by
  induction l generalizing acc with
  | nil => simp
  | cons x xs ih =>
    simp only [List.foldl_cons]
    refine (ih (stableInsert cmp x acc)).trans ?_
    have h1 : (stableInsert cmp x acc ++ xs).Perm ((x :: acc) ++ xs) :=
      (stableInsert_perm cmp x acc).append_right xs
    refine h1.trans ?_
    simpa using (@List.perm_middle _ x acc xs).symm.symm.symm

/-- The modelled JavaScript sort permutes its input. -/
theorem jsSort_perm (cmp : α → α → ℚ) (l : List α) : (jsSort cmp l).Perm l := by
  simpa [jsSort] using jsSort_fold_perm cmp l []

/-- Membership is preserved by the modelled JavaScript sort. -/
theorem mem_jsSort {cmp : α → α → ℚ} {l : List α} {a : α} :
    a ∈ jsSort cmp l ↔ a ∈ l :=
  (jsSort_perm cmp l).mem_iff

/-- Unfolding of an association-list lookup over a cons cell. -/
theorem alGet_cons [DecidableEq κ] (k' : κ) (v' : α) (rest : List (κ × α)) (k : κ) :
    alGet ((k', v') :: rest) k = if k' = k then some v' else alGet rest k := by
  by_cases h : k' = k <;> simp [alGet, List.find?_cons, h]

/-- Elimination for membership in an upsert result. -/
theorem mem_upsert_elim [DecidableEq κ] {m : List (κ × α)} {k : κ} {v : α} {kv : κ × α}
    (h : kv ∈ upsert m k v) : kv = (k, v) ∨ kv ∈ m := by
  induction m with
  | nil => simpa [upsert] using h
  | cons p rest ih =>
    obtain ⟨k', v'⟩ := p
    by_cases hk : k' = k
    · simp only [upsert, if_pos hk] at h
      rcases List.mem_cons.mp h with h' | h'
      · exact Or.inl h'
      · exact Or.inr (List.mem_cons_of_mem _ h')
    · simp only [upsert, if_neg hk] at h
      rcases List.mem_cons.mp h with h' | h'
      · exact Or.inr (by simp [h'])
      · rcases ih h' with h'' | h''
        · exact Or.inl h''
        · exact Or.inr (List.mem_cons_of_mem _ h'')

/-- A successful association-list lookup returns a stored pair. -/
theorem alGet_mem [DecidableEq κ] {m : List (κ × α)} {k : κ} {v : α}
    (h : alGet m k = some v) : (k, v) ∈ m := by
  induction m with
  | nil => simp [alGet] at h
  | cons p rest ih =>
    obtain ⟨k', v'⟩ := p
    rw [alGet_cons] at h
    by_cases hk : k' = k
    · rw [if_pos hk] at h
      subst hk
      simp only [Option.some.injEq] at h
      simp [h]
    · rw [if_neg hk] at h
      exact List.mem_cons_of_mem _ (ih h)

/-- Lookup after an upsert: the updated key sees the new value, others are
unchanged. -/
theorem alGet_upsert [DecidableEq κ] (m : List (κ × α)) (k k' : κ) (v : α) :
    alGet (upsert m k v) k' = if k' = k then some v else alGet m k' := by
  induction m with
  | nil =>
    by_cases h : k' = k
    · simp [upsert, alGet_cons, h]
    · have h2 : ¬ k = k' := fun hc => h hc.symm
      simp [upsert, alGet_cons, h, h2, alGet]
  | cons p rest ih =>
    obtain ⟨pk, pv⟩ := p
    by_cases hk : pk = k
    · by_cases h : k' = k
      · subst h
        subst hk
        simp [upsert, alGet_cons]
      · have h2 : ¬ k = k' := fun hc => h hc.symm
        have h3 : ¬ pk = k' := fun hc => h (by rw [← hc, hk])
        simp [upsert, if_pos hk, alGet_cons, h2, h3, h]
    · by_cases hp : pk = k'
      · have hne : ¬ k' = k := fun hc => hk (by rw [hp, hc])
        simp [upsert, if_neg hk, alGet_cons, hp, hne]
      · simp [upsert, if_neg hk, alGet_cons, hp, ih]

/-- Membership in a first-occurrence deduplication (auxiliary form). -/
theorem mem_dedupFirst_fold [DecidableEq α] (l acc : List α) (a : α) :
    a ∈ l.foldl (fun acc x => if x ∈ acc then acc else acc ++ [x]) acc ↔ a ∈ acc ∨ a ∈ l := by
  induction l generalizing acc with
  | nil => simp
  | cons x xs ih =>
    by_cases hx : x ∈ acc
    · simp only [List.foldl_cons, if_pos hx, ih]
      constructor
      · tauto
      · rintro (h | h)
        · exact Or.inl h
        · rcases List.mem_cons.mp h with rfl | h
          · exact Or.inl hx
          · exact Or.inr h
    · simp only [List.foldl_cons, if_neg hx, ih]
      simp only [List.mem_append, List.mem_singleton, List.mem_cons]
      tauto

/-- Membership in `dedupFirst`. -/
theorem mem_dedupFirst [DecidableEq α] {l : List α} {a : α} :
    a ∈ dedupFirst l ↔ a ∈ l := by
  simpa [dedupFirst] using mem_dedupFirst_fold l [] a

end SkillsScanner

namespace SkillsScanner.GraphBuilder

open SkillsScanner

/-- Every element stored in a bucket of a group-and-append fold satisfies any
property satisfied by the fold's inputs and by the initial buckets. -/
theorem mem_groupAppendFold {α : Type} (key : α → String) (P : α → Prop) :
    ∀ (l : List α) (m0 : List (String × List α)),
      (∀ kv ∈ m0, ∀ c ∈ kv.2, P c) → (∀ c ∈ l, P c) →
      ∀ kv ∈ l.foldl (fun m c => upsert m (key c) (((alGet m (key c)).getD []) ++ [c])) m0,
        ∀ c ∈ kv.2, P c := by
  intro l
  induction l with
  | nil => intro m0 hm0 _ kv hkv; exact hm0 kv hkv
  | cons x xs ih =>
    intro m0 hm0 hl kv hkv
    refine ih _ ?_ (fun c hc => hl c (List.mem_cons_of_mem _ hc)) kv hkv
    intro kv' hkv' c hc
    rcases mem_upsert_elim hkv' with h | h
    · subst h
      rcases List.mem_append.mp hc with h' | h'
      · cases hold : alGet m0 (key x) with
        | none => rw [hold] at h'; simp at h'
        | some old =>
          rw [hold] at h'
          exact hm0 _ (alGet_mem hold) c h'
      · rw [List.mem_singleton.mp h']
        exact hl x (List.mem_cons_self x xs)
    · exact hm0 _ h c hc

/-- Elements kept by the thresholding fold score at least `t`. -/
theorem threshold_fold_kept (t : ℚ) (l : List EdgeCandidate)
    (acc : List EdgeCandidate × GraphDropReasons) (hacc : ∀ c ∈ acc.1, t ≤ c.score) :
    ∀ c ∈ (l.foldl (thresholdStep t) acc).1, t ≤ c.score := by
  induction l generalizing acc with
  | nil => exact hacc
  | cons x xs ih =>
    simp only [List.foldl_cons]
    refine ih _ ?_
    intro c hc
    simp only [thresholdStep] at hc
    by_cases hx : x.score < t
    · rw [if_pos hx] at hc
      exact hacc c hc
    · rw [if_neg hx] at hc
      rcases List.mem_append.mp hc with h | h
      · exact hacc c h
      · rw [List.mem_singleton.mp h]
        exact le_of_not_gt hx

/-- Candidates surviving thresholdCandidates score at least the returned
threshold. -/
theorem thresholdCandidates_kept_ge (cands : List EdgeCandidate) (dr : GraphDropReasons) :
    ∀ c ∈ (thresholdCandidates cands dr).1, (thresholdCandidates cands dr).2.1 ≤ c.score := by
  intro c hc
  have := threshold_fold_kept
    (max ABS_THRESHOLD (percentile (cands.map (·.score)) PERCENTILE_THRESHOLD)) cands
    ([], dr) (by simp)
  exact this c hc

/-- The threshold returned by thresholdCandidates is at least the absolute
floor of 1.2. -/
theorem thresholdCandidates_ge_abs (cands : List EdgeCandidate) (dr : GraphDropReasons) :
    ABS_THRESHOLD ≤ (thresholdCandidates cands dr).2.1 :=
  le_max_left _ _

/-- Values of the best-by-direction map come from the processed bucket. -/
theorem bestByDirectionFold_mem (bucket : List EdgeCandidate) (dr : GraphDropReasons) :
    ∀ kv ∈ (bestByDirectionFold bucket dr).1, kv.2 ∈ bucket := by
  have aux : ∀ (l : List EdgeCandidate) (acc : List (String × EdgeCandidate) × GraphDropReasons),
      (∀ kv ∈ acc.1, kv.2 ∈ bucket) → (∀ c ∈ l, c ∈ bucket) →
      ∀ kv ∈ (l.foldl
        (fun acc candidate =>
          match alGet acc.1 (dirKey candidate) with
          | none => (upsert acc.1 (dirKey candidate) candidate, acc.2)
          | some existing =>
            if candidate.score > existing.score then
              (upsert acc.1 (dirKey candidate) candidate,
               { acc.2 with reciprocalDependsOn := acc.2.reciprocalDependsOn + 1 })
            else
              (acc.1, { acc.2 with reciprocalDependsOn := acc.2.reciprocalDependsOn + 1 }))
        acc).1, kv.2 ∈ bucket := by
    intro l
    induction l with
    | nil => intro acc hacc _ kv hkv; exact hacc kv hkv
    | cons x xs ih =>
      intro acc hacc hl kv hkv
      refine ih _ ?_ (fun c hc => hl c (List.mem_cons_of_mem _ hc)) kv hkv
      intro kv' hkv'
      dsimp only at hkv'
      rcases h : alGet acc.1 (dirKey x) with _ | existing
      · rw [h] at hkv'
        rcases mem_upsert_elim hkv' with h' | h'
        · rw [h']; exact hl x (List.mem_cons_self x xs)
        · exact hacc _ h'
      · rw [h] at hkv'
        dsimp only at hkv'
        by_cases hs : x.score > existing.score
        · rw [if_pos hs] at hkv'
          rcases mem_upsert_elim hkv' with h' | h'
          · rw [h']; exact hl x (List.mem_cons_self x xs)
          · exact hacc _ h'
        · rw [if_neg hs] at hkv'
          exact hacc _ hkv'
  intro kv hkv
  exact aux bucket ([], dr) (by simp) (fun c hc => hc) kv hkv

end SkillsScanner.GraphBuilder

namespace SkillsScanner.GraphBuilder

open SkillsScanner

/-- Chosen comparator of the direction sort inside resolveBucket. -/
def dirCmp (a b' : EdgeCandidate) : ℚ := intCmpQ (strCmp (dirKey a) (dirKey b'))

/-- Membership transfer from the sorted direction list back to the bucket. -/
theorem sorted_head_mem (bucket : List EdgeCandidate) (dr : GraphDropReasons)
    {x : EdgeCandidate}
    (h : x ∈ jsSort dirCmp ((bestByDirectionFold bucket dr).1.map (fun q => q.2))) :
    x ∈ bucket := by
  rcases List.mem_map.mp (mem_jsSort.mp h) with ⟨kv, hkv, heq⟩
  rw [← heq]
  exact bestByDirectionFold_mem _ _ kv hkv

/-- Depends_on candidates kept from one reciprocal bucket come from that
bucket. -/
theorem resolveBucket_kept_mem (sb : List (String × SkillRecord)) (bucket : List EdgeCandidate)
    (dr : GraphDropReasons) : ∀ c ∈ (resolveBucket sb bucket dr).1, c ∈ bucket := by
  intro c hc
  match bucket with
  | [] => simpa [resolveBucket] using hc
  | [c0] =>
    simp only [resolveBucket, List.mem_singleton] at hc
    simp [hc]
  | c0 :: c1 :: rest =>
    simp only [resolveBucket] at hc
    split at hc
    · next single heq =>
      rw [List.mem_singleton.mp hc]
      rcases List.mem_map.mp (show single ∈
          (bestByDirectionFold (c0 :: c1 :: rest) dr).1.map (fun q => q.2) by
        rw [heq]; exact List.mem_singleton.mpr rfl) with ⟨kv, hkv, hkeq⟩
      rw [← hkeq]
      exact bestByDirectionFold_mem _ _ kv hkv
    · next heq2 =>
      split at hc
      · next first second rest3 heq3 =>
        have hfirst : first ∈ c0 :: c1 :: rest := by
          refine sorted_head_mem _ dr ?_
          show first ∈ jsSort dirCmp _
          rw [show jsSort dirCmp ((bestByDirectionFold (c0 :: c1 :: rest) dr).1.map
            (fun q => q.2)) = first :: second :: rest3 from heq3]
          exact List.mem_cons_self _ _
        have hsecond : second ∈ c0 :: c1 :: rest := by
          refine sorted_head_mem _ dr ?_
          show second ∈ jsSort dirCmp _
          rw [show jsSort dirCmp ((bestByDirectionFold (c0 :: c1 :: rest) dr).1.map
            (fun q => q.2)) = first :: second :: rest3 from heq3]
          exact List.mem_cons_of_mem _ (List.mem_cons_self _ _)
        split at hc
        · rw [List.mem_singleton.mp hc]; exact hfirst
        · split at hc
          · rw [List.mem_singleton.mp hc]; exact hsecond
          · split at hc
            · simp at hc
            · rw [List.mem_singleton.mp hc]
              by_cases hw : first.score ≥ second.score
              · rw [if_pos hw]; exact hfirst
              · rw [if_neg hw]; exact hsecond
      · simp at hc

/-- Complements promoted from one reciprocal bucket average the scores of two
members of that bucket. -/
theorem resolveBucket_promoted_mem (sb : List (String × SkillRecord))
    (bucket : List EdgeCandidate) (dr : GraphDropReasons) :
    ∀ p ∈ (resolveBucket sb bucket dr).2.1,
      p.type = .complements ∧
        ∃ c1 ∈ bucket, ∃ c2 ∈ bucket, p.score = (c1.score + c2.score) / 2 := by
  intro p hp
  match bucket with
  | [] => simp [resolveBucket] at hp
  | [c0] => simp [resolveBucket] at hp
  | c0 :: c1 :: rest =>
    simp only [resolveBucket] at hp
    split at hp
    · simp at hp
    · next heq2 =>
      split at hp
      · next first second rest3 heq3 =>
        have hfirst : first ∈ c0 :: c1 :: rest := by
          refine sorted_head_mem _ dr ?_
          show first ∈ jsSort dirCmp _
          rw [show jsSort dirCmp ((bestByDirectionFold (c0 :: c1 :: rest) dr).1.map
            (fun q => q.2)) = first :: second :: rest3 from heq3]
          exact List.mem_cons_self _ _
        have hsecond : second ∈ c0 :: c1 :: rest := by
          refine sorted_head_mem _ dr ?_
          show second ∈ jsSort dirCmp _
          rw [show jsSort dirCmp ((bestByDirectionFold (c0 :: c1 :: rest) dr).1.map
            (fun q => q.2)) = first :: second :: rest3 from heq3]
          exact List.mem_cons_of_mem _ (List.mem_cons_self _ _)
        split at hp
        · simp at hp
        · split at hp
          · simp at hp
          · split at hp
            · rw [List.mem_singleton.mp hp]
              exact ⟨rfl, first, hfirst, second, hsecond, rfl⟩
            · simp at hp
      · simp at hp

end SkillsScanner.GraphBuilder

namespace SkillsScanner.GraphBuilder

open SkillsScanner

/-- Invariant of the bucket-processing fold of resolveReciprocalDepends:
kept candidates come from the buckets (or from the initial accumulator). -/
theorem processBuckets_kept (sb : List (String × SkillRecord)) (S : EdgeCandidate → Prop)
    (bs : List (String × List EdgeCandidate))
    (acc : (List EdgeCandidate × List EdgeCandidate) × GraphDropReasons)
    (hacc : ∀ c ∈ acc.1.1, S c) (hbs : ∀ kv ∈ bs, ∀ c ∈ kv.2, S c) :
    ∀ c ∈ (bs.foldl
      (fun acc kv =>
        let r := resolveBucket sb kv.2 acc.2
        ((acc.1.1 ++ r.1, acc.1.2 ++ r.2.1), r.2.2)) acc).1.1, S c := by
  induction bs generalizing acc with
  | nil => exact hacc
  | cons kv0 bs' ih =>
    simp only [List.foldl_cons]
    refine ih _ ?_ (fun kv hkv => hbs kv (List.mem_cons_of_mem _ hkv))
    intro c hc
    rcases List.mem_append.mp hc with h | h
    · exact hacc c h
    · exact hbs kv0 (List.mem_cons_self _ _) c (resolveBucket_kept_mem sb kv0.2 _ c h)

/-- Invariant of the bucket-processing fold of resolveReciprocalDepends:
promoted complements average two bucket members' scores. -/
theorem processBuckets_promoted (sb : List (String × SkillRecord)) (S : EdgeCandidate → Prop)
    (bs : List (String × List EdgeCandidate))
    (acc : (List EdgeCandidate × List EdgeCandidate) × GraphDropReasons)
    (hacc : ∀ p ∈ acc.1.2,
      p.type = .complements ∧ ∃ c1, S c1 ∧ ∃ c2, S c2 ∧ p.score = (c1.score + c2.score) / 2)
    (hbs : ∀ kv ∈ bs, ∀ c ∈ kv.2, S c) :
    ∀ p ∈ (bs.foldl
      (fun acc kv =>
        let r := resolveBucket sb kv.2 acc.2
        ((acc.1.1 ++ r.1, acc.1.2 ++ r.2.1), r.2.2)) acc).1.2,
      p.type = .complements ∧
        ∃ c1, S c1 ∧ ∃ c2, S c2 ∧ p.score = (c1.score + c2.score) / 2 := by
  induction bs generalizing acc with
  | nil => exact hacc
  | cons kv0 bs' ih =>
    simp only [List.foldl_cons]
    refine ih _ ?_ (fun kv hkv => hbs kv (List.mem_cons_of_mem _ hkv))
    intro p hp
    rcases List.mem_append.mp hp with h | h
    · exact hacc p h
    · obtain ⟨htype, c1, hc1, c2, hc2, hsc⟩ := resolveBucket_promoted_mem sb kv0.2 _ p h
      exact ⟨htype,
        c1, hbs kv0 (List.mem_cons_self _ _) c1 hc1,
        c2, hbs kv0 (List.mem_cons_self _ _) c2 hc2, hsc⟩

/-- Directed candidates surviving resolveReciprocalDepends come from its
input list. -/
theorem resolveReciprocalDepends_directed_mem (cands : List EdgeCandidate)
    (sb : List (String × SkillRecord)) (dr : GraphDropReasons) :
    ∀ c ∈ (resolveReciprocalDepends cands sb dr).1.directed, c ∈ cands := by
  intro c hc
  simp only [resolveReciprocalDepends] at hc
  rcases List.mem_append.mp hc with h | h
  · exact List.mem_of_mem_filter h
  · have hbuckets := mem_groupAppendFold (fun c => pairKey c.fromId c.toId)
      (fun c => c ∈ cands) (cands.filter (fun c => c.type = EdgeType.depends_on)) []
      (by simp) (fun c hc => List.mem_of_mem_filter hc)
    have := processBuckets_kept sb (fun c => c ∈ cands) _ (([], []), dr) (by simp) hbuckets
    exact this c h

/-- Promoted complements of resolveReciprocalDepends are complements-typed
and average the scores of two input candidates. -/
theorem resolveReciprocalDepends_promoted_mem (cands : List EdgeCandidate)
    (sb : List (String × SkillRecord)) (dr : GraphDropReasons) :
    ∀ p ∈ (resolveReciprocalDepends cands sb dr).1.promotedComplements,
      p.type = .complements ∧
        ∃ c1 ∈ cands, ∃ c2 ∈ cands, p.score = (c1.score + c2.score) / 2 := by
  intro p hp
  simp only [resolveReciprocalDepends] at hp
  have hbuckets := mem_groupAppendFold (fun c => pairKey c.fromId c.toId)
    (fun c => c ∈ cands) (cands.filter (fun c => c.type = EdgeType.depends_on)) []
    (by simp) (fun c hc => List.mem_of_mem_filter hc)
  have := processBuckets_promoted sb (fun c => c ∈ cands) _ (([], []), dr) (by simp) hbuckets
  obtain ⟨ht, c1, hc1, c2, hc2, hsc⟩ := this p hp
  exact ⟨ht, c1, hc1, c2, hc2, hsc⟩

/-- Invariant satisfied by every merged undirected candidate: `Q` holds for
the pair-normalized form of every input of the requested type and is closed
under the max-score/union-tags merge, hence holds for every output. -/
theorem mergeUndirected_invariant (cands : List EdgeCandidate) (type : EdgeType)
    (Q : EdgeCandidate → Prop)
    (hnorm : ∀ c ∈ cands, c.type = type →
      Q { c with
          fromId := (sortPair c.fromId c.toId).1
          toId := (sortPair c.fromId c.toId).2
          overlapTags := normalizeTags c.overlapTags })
    (hmerge : ∀ e c, Q e → Q c →
      Q { e with
          score := max e.score c.score
          overlapTags := normalizeTags (e.overlapTags ++ c.overlapTags) }) :
    ∀ m ∈ mergeUndirectedCandidates cands type, Q m := by
  have aux : ∀ (l : List EdgeCandidate) (m0 : List (String × EdgeCandidate)),
      (∀ c ∈ l, c ∈ cands) → (∀ kv ∈ m0, Q kv.2) →
      ∀ kv ∈ (l.foldl
        (fun m candidate =>
          if candidate.type ≠ type then m
          else
            let pair := sortPair candidate.fromId candidate.toId
            let key := pair.1 ++ "<->" ++ pair.2
            let normalized : EdgeCandidate :=
              { candidate with
                fromId := pair.1
                toId := pair.2
                overlapTags := normalizeTags candidate.overlapTags }
            match alGet m key with
            | none => upsert m key normalized
            | some existing =>
              upsert m key
                { existing with
                  score := max existing.score normalized.score
                  overlapTags := normalizeTags (existing.overlapTags ++ normalized.overlapTags) })
        m0), Q kv.2 := by
    intro l
    induction l with
    | nil => intro m0 _ hm0 kv hkv; exact hm0 kv hkv
    | cons x xs ih =>
      intro m0 hl hm0 kv hkv
      refine ih _ (fun c hc => hl c (List.mem_cons_of_mem _ hc)) ?_ kv hkv
      intro kv' hkv'
      dsimp only at hkv'
      by_cases hx : x.type ≠ type
      · rw [if_pos hx] at hkv'
        exact hm0 kv' hkv'
      · rw [if_neg hx] at hkv'
        have hxt : x.type = type := not_not.mp hx
        have hxQ := hnorm x (hl x (List.mem_cons_self _ _)) hxt
        rcases hg : alGet m0 ((sortPair x.fromId x.toId).1 ++ "<->" ++ (sortPair x.fromId x.toId).2)
          with _ | existing
        · rw [hg] at hkv'
          rcases mem_upsert_elim hkv' with h' | h'
          · rw [h']; exact hxQ
          · exact hm0 kv' h'
        · rw [hg] at hkv'
          rcases mem_upsert_elim hkv' with h' | h'
          · rw [h']
            exact hmerge existing _ (hm0 _ (alGet_mem hg)) hxQ
          · exact hm0 kv' h'
  intro m hm
  simp only [mergeUndirectedCandidates] at hm
  rcases List.mem_map.mp hm with ⟨kv, hkv, heq⟩
  rw [← heq]
  exact aux cands [] (fun c hc => hc) (by simp) kv hkv

end SkillsScanner.GraphBuilder

namespace SkillsScanner.GraphBuilder

open SkillsScanner

/-- Candidates kept by pruneDirected come from its input. -/
theorem pruneDirected_mem (cands : List EdgeCandidate) (dr : GraphDropReasons) :
    ∀ c ∈ (pruneDirected cands dr).1, c ∈ cands := by
  intro c hc
  simp only [pruneDirected] at hc
  have hgroups := mem_groupAppendFold (fun c => c.fromId ++ "|" ++ edgeTypeName c.type)
    (fun c => c ∈ cands) cands [] (by simp) (fun c hc => hc)
  set groups := cands.foldl
    (fun m candidate =>
      upsert m (candidate.fromId ++ "|" ++ edgeTypeName candidate.type)
        (((alGet m (candidate.fromId ++ "|" ++ edgeTypeName candidate.type)).getD []) ++
          [candidate])) [] with hgdef
  have aux : ∀ (bs : List (String × List EdgeCandidate))
      (acc : List EdgeCandidate × GraphDropReasons),
      (∀ c ∈ acc.1, c ∈ cands) → (∀ kv ∈ bs, ∀ c ∈ kv.2, c ∈ cands) →
      ∀ c ∈ (bs.foldl
        (fun acc kv =>
          let bucket := jsSort
            (fun a b => cmpOr (b.score - a.score) (intCmpQ (strCmp a.toId b.toId))) kv.2
          let limit := match bucket with
            | [] => 0
            | c :: _ => TOP_K c.type
          (acc.1 ++ bucket.take limit,
           { acc.2 with topK := acc.2.topK + (bucket.length - min bucket.length limit) })) acc).1,
        c ∈ cands := by
    intro bs
    induction bs with
    | nil => intro acc hacc _ c hc; exact hacc c hc
    | cons kv0 bs' ih =>
      intro acc hacc hbs c hc
      refine ih _ ?_ (fun kv hkv => hbs kv (List.mem_cons_of_mem _ hkv)) c hc
      intro c' hc'
      rcases List.mem_append.mp hc' with h | h
      · exact hacc c' h
      · have hmem := mem_jsSort.mp (List.take_subset _ _ h)
        exact hbs kv0 (List.mem_cons_self _ _) c' hmem
  exact aux groups ([], dr) (by simp) hgroups c hc

/-- Candidates kept by pruneUndirected come from its input. -/
theorem pruneUndirected_mem (cands : List EdgeCandidate) (type : EdgeType)
    (dr : GraphDropReasons) : ∀ c ∈ (pruneUndirected cands type dr).1, c ∈ cands := by
  intro c hc
  simp only [pruneUndirected] at hc
  have aux : ∀ (l : List EdgeCandidate)
      (acc : List (String × ℕ) × List EdgeCandidate × GraphDropReasons),
      (∀ c ∈ acc.2.1, c ∈ cands) → (∀ c ∈ l, c ∈ cands) →
      ∀ c ∈ (l.foldl
        (fun acc candidate =>
          let degreeByNode := acc.1
          let fromDegree := (alGet degreeByNode candidate.fromId).getD 0
          let toDegree := (alGet degreeByNode candidate.toId).getD 0
          if fromDegree ≥ TOP_K type ∨ toDegree ≥ TOP_K type then
            (degreeByNode, acc.2.1, { acc.2.2 with topK := acc.2.2.topK + 1 })
          else
            (upsert (upsert degreeByNode candidate.fromId (fromDegree + 1)) candidate.toId
              (toDegree + 1),
             acc.2.1 ++ [candidate], acc.2.2)) acc).2.1, c ∈ cands := by
    intro l
    induction l with
    | nil => intro acc hacc _ c hc; exact hacc c hc
    | cons x xs ih =>
      intro acc hacc hl c hc
      refine ih _ ?_ (fun c' hc' => hl c' (List.mem_cons_of_mem _ hc')) c hc
      intro c' hc'
      dsimp only at hc'
      split at hc'
      · exact hacc c' hc'
      · rcases List.mem_append.mp hc' with h | h
        · exact hacc c' h
        · rw [List.mem_singleton.mp h]
          exact hl x (List.mem_cons_self _ _)
  have hin : ∀ c' ∈ jsSort
      (fun a b =>
        cmpOr (cmpOr (b.score - a.score) (intCmpQ (strCmp a.fromId b.fromId)))
          (intCmpQ (strCmp a.toId b.toId))) cands, c' ∈ cands :=
    fun c' hc' => mem_jsSort.mp hc'
  exact aux _ ([], [], dr) (by simp) hin c hc

/-- The edge list of the built graph is the sorted rendering of the kept
candidates. -/
theorem buildSkillGraph_edges (idfOf : ℕ → ℕ → ℚ) (skills : List SkillRecord) :
    (buildSkillGraph idfOf skills).edges = edgesOf idfOf skills := rfl

/-- The reported metrics threshold is the thresholding stage's threshold. -/
theorem buildSkillGraph_threshold (idfOf : ℕ → ℕ → ℚ) (skills : List SkillRecord) :
    (buildSkillGraph idfOf skills).metrics.threshold = thresholdOf idfOf skills := rfl

/-- Rounding to four decimals is monotone. -/
theorem round4_mono {a b : ℚ} (h : a ≤ b) : round4 a ≤ round4 b := by
  unfold round4
  have h1 : a * 10000 ≤ b * 10000 := by nlinarith
  have h2 : round (a * 10000) ≤ round (b * 10000) := by
    rw [round_eq, round_eq]
    exact Int.floor_le_floor (by linarith)
  have h3 : ((round (a * 10000) : ℚ)) ≤ ((round (b * 10000) : ℚ)) := by exact_mod_cast h2
  linarith

/-- Every kept candidate of the full pipeline scores at least the threshold. -/
theorem keptCandidatesOf_score_ge (idfOf : ℕ → ℕ → ℚ) (skills : List SkillRecord) :
    ∀ c ∈ keptCandidatesOf idfOf skills, thresholdOf idfOf skills ≤ c.score := by
  intro c hc
  have hthresh : ∀ x ∈ (thresholdedOf idfOf skills).1, thresholdOf idfOf skills ≤ x.score := by
    intro x hx
    exact thresholdCandidates_kept_ge (candidatesOf idfOf skills).1 (candidatesOf idfOf skills).2
      x hx
  have hdirected : ∀ x ∈ (reciprocalOf idfOf skills).1.directed,
      thresholdOf idfOf skills ≤ x.score := by
    intro x hx
    have := resolveReciprocalDepends_directed_mem _ _ _ x hx
    exact hthresh x (List.mem_of_mem_filter this)
  have hpromoted : ∀ p ∈ (reciprocalOf idfOf skills).1.promotedComplements,
      thresholdOf idfOf skills ≤ p.score := by
    intro p hp
    obtain ⟨_, c1, hc1, c2, hc2, hsc⟩ := resolveReciprocalDepends_promoted_mem _ _ _ p hp
    have h1 := hthresh c1 (List.mem_of_mem_filter hc1)
    have h2 := hthresh c2 (List.mem_of_mem_filter hc2)
    rw [hsc]
    linarith
  rcases List.mem_append.mp hc with h | h
  · rcases List.mem_append.mp h with h' | h'
    · exact hdirected c (pruneDirected_mem _ _ c h')
    · have hmerged := pruneUndirected_mem _ _ _ c h'
      refine mergeUndirected_invariant _ _ (fun m => thresholdOf idfOf skills ≤ m.score) ?_ ?_
        c hmerged
      · intro c' hc' _
        rcases List.mem_append.mp hc' with h'' | h''
        · exact hthresh c' (List.mem_of_mem_filter h'')
        · exact hpromoted c' h''
      · intro e c' he hc'
        exact le_max_of_le_left he
  · have hmerged := pruneUndirected_mem _ _ _ c h
    refine mergeUndirected_invariant _ _ (fun m => thresholdOf idfOf skills ≤ m.score) ?_ ?_
      c hmerged
    · intro c' hc' _
      exact hthresh c' (List.mem_of_mem_filter hc')
    · intro e c' he hc'
      exact le_max_of_le_left he

end SkillsScanner.GraphBuilder

namespace SkillsScanner.GraphBuilder

open SkillsScanner

set_option maxRecDepth 40000

/-- Candidates surviving thresholdCandidates come from its input. -/
theorem thresholdCandidates_kept_sub (cands : List EdgeCandidate) (dr : GraphDropReasons) :
    ∀ c ∈ (thresholdCandidates cands dr).1, c ∈ cands := by
  intro c hc
  simp only [thresholdCandidates] at hc
  have aux : ∀ (l : List EdgeCandidate) (t : ℚ) (acc : List EdgeCandidate × GraphDropReasons),
      (∀ c ∈ acc.1, c ∈ cands) → (∀ c ∈ l, c ∈ cands) →
      ∀ c ∈ (l.foldl (thresholdStep t) acc).1, c ∈ cands := by
    intro l t
    induction l with
    | nil => intro acc hacc _ c hc; exact hacc c hc
    | cons x xs ih =>
      intro acc hacc hl c hc
      simp only [List.foldl_cons] at hc
      refine ih _ ?_ (fun c' hc' => hl c' (List.mem_cons_of_mem _ hc')) c hc
      intro c' hc'
      simp only [thresholdStep] at hc'
      by_cases hx : x.score < t
      · rw [if_pos hx] at hc'
        exact hacc c' hc'
      · rw [if_neg hx] at hc'
        rcases List.mem_append.mp hc' with h | h
        · exact hacc c' h
        · rw [List.mem_singleton.mp h]
          exact hl x (List.mem_cons_self _ _)
  exact aux cands _ ([], dr) (by simp) (fun c' hc' => hc') c hc

/-- Merged undirected candidates carry the requested type. -/
theorem mergeUndirected_type (cands : List EdgeCandidate) (type : EdgeType) :
    ∀ m ∈ mergeUndirectedCandidates cands type, m.type = type := by
  refine mergeUndirected_invariant cands type (fun m => m.type = type) ?_ ?_
  · intro c _ hct
    exact hct
  · intro e c he _
    exact he

/-- The exact rational value of the IEEE-754 double
`smoothIdf(7, 2) = Math.log((7 + 1) / (2 + 1)) + 1 = 1.9808292530117262`,
used as the idf oracle for the seven-entry corpora below (the only df the
pipeline queries there is df = 2 at n = 7). -/
def exIdfC2 : ℕ → ℕ → ℚ := fun _ _ => mkRat 2230215471437047 1125899906842624

/-- Seven-entry corpus: `a` produces the artifact "code", `b` consumes it,
five tag-less fillers raise the corpus size so that df("code") = 2 passes the
specificity cut `df ≤ floor(7 * 0.3) = 2`. -/
def exSkillsC2 : List SkillRecord :=
  [⟨"a", "a", .implement, [], ["code"], []⟩,
   ⟨"b", "b", .verify, ["code"], [], []⟩,
   ⟨"c", "c", .intake, [], [], []⟩,
   ⟨"d", "d", .plan, [], [], []⟩,
   ⟨"e", "e", .refactor, [], [], []⟩,
   ⟨"f", "f", .security, [], [], []⟩,
   ⟨"g", "g", .docs, [], [], []⟩]

/-- C2 (counterexample): as stated, the claim is false for the reported
4-decimal-rounded edge scores.  On `exSkillsC2` the only candidate score is
`s = 1.9808292530117262 * 1.35 = 2.674119491...`, so the percentile threshold
equals `s` and both surviving edges are reported with `toFixed(4)` score
`2.6741 < s = metrics.threshold`. -/
theorem C2_counterexample :
    ∃ e ∈ (buildSkillGraph exIdfC2 exSkillsC2).edges,
      e.score < (buildSkillGraph exIdfC2 exSkillsC2).metrics.threshold := by
  decide

/-- C2 (amended): thresholding guarantees `threshold ≥ 1.2` and every kept
candidate's pre-rounding score is at least the threshold; consequently every
reported edge score is at least the threshold rounded to four decimals (and
at least 1.2), though rounding may place it below the unrounded threshold by
less than 0.00005. -/
theorem C2_threshold_invariant (idfOf : ℕ → ℕ → ℚ) (skills : List SkillRecord) :
    ABS_THRESHOLD ≤ (buildSkillGraph idfOf skills).metrics.threshold ∧
      ∀ e ∈ (buildSkillGraph idfOf skills).edges,
        round4 ((buildSkillGraph idfOf skills).metrics.threshold) ≤ e.score ∧
          ABS_THRESHOLD ≤ e.score := by
  constructor
  · rw [buildSkillGraph_threshold]
    exact thresholdCandidates_ge_abs _ _
  · intro e he
    rw [buildSkillGraph_edges] at he
    simp only [edgesOf] at he
    rcases List.mem_map.mp (mem_jsSort.mp he) with ⟨c, hc, heq⟩
    have hscore := keptCandidatesOf_score_ge idfOf skills c hc
    have h1 : round4 (thresholdOf idfOf skills) ≤ e.score := by
      rw [← heq]
      exact round4_mono hscore
    have habs : round4 ABS_THRESHOLD = ABS_THRESHOLD := by decide
    have h2 : ABS_THRESHOLD ≤ e.score := by
      calc ABS_THRESHOLD = round4 ABS_THRESHOLD := habs.symm
        _ ≤ round4 (thresholdOf idfOf skills) :=
          round4_mono (thresholdCandidates_ge_abs _ _)
        _ ≤ e.score := h1
    rw [buildSkillGraph_threshold]
    exact ⟨h1, h2⟩

/-- C2 (witness): the amended invariant evaluated on the seven-entry corpus,
at the concrete precedes edge the build produces. -/
theorem C2_threshold_invariant_witness :
    (({ fromId := "a", toId := "b", type := .precedes, score := mkRat 26741 10000,
        overlapTags := ["code"], via := ["code"] } : SkillGraphEdge) ∈
      (buildSkillGraph exIdfC2 exSkillsC2).edges) ∧
      (round4 ((buildSkillGraph exIdfC2 exSkillsC2).metrics.threshold) ≤ mkRat 26741 10000 ∧
        ABS_THRESHOLD ≤ mkRat 26741 10000) :=
  ⟨by decide,
   (C2_threshold_invariant exIdfC2 exSkillsC2).2
     ({ fromId := "a", toId := "b", type := .precedes, score := mkRat 26741 10000,
        overlapTags := ["code"], via := ["code"] } : SkillGraphEdge) (by decide)⟩

end SkillsScanner.GraphBuilder

namespace SkillsScanner

/-- Bridging `List.contains` to membership for strings. -/
theorem contains_iff_mem {l : List String} {a : String} : l.contains a = true ↔ a ∈ l := by
  simp [List.contains, List.elem_iff]

/-- Characters differing in code point differ. -/
theorem char_ne_of_toNat_ne {a b : Char} (h : a.toNat ≠ b.toNat) : a ≠ b :=
  fun heq => h (heq ▸ rfl)

/-- Code point of the lower-cased image of an upper-case letter. -/
theorem jsToLowerChar_toNat {c : Char} (h : 'A' ≤ c ∧ c ≤ 'Z') :
    (jsToLowerChar c).toNat = c.toNat + 32 := by
  have h90 : c.toNat ≤ 90 := by
    have := h.2
    rw [Char.le_def] at this
    exact this
  simp only [jsToLowerChar, if_pos h]
  rw [Char.ofNat, dif_pos]
  · rfl
  · exact Or.inl (by exact_mod_cast Nat.lt_of_le_of_lt (Nat.add_le_add_right h90 32) (by norm_num))

/-- Lower-casing leaves characters outside the upper-case range unchanged. -/
theorem jsToLowerChar_eq_self {c : Char} (h : ¬ ('A' ≤ c ∧ c ≤ 'Z')) : jsToLowerChar c = c := by
  simp [jsToLowerChar, h]

/-- Whitespace characters all have code points at most 32. -/
theorem jsIsWs_false_of_toNat_large {c : Char} (h : 33 ≤ c.toNat) : jsIsWs c = false := by
  apply decide_eq_false
  rintro (rfl | rfl | rfl | rfl | rfl | rfl) <;> revert h <;> decide

/-- Lower-casing is idempotent. -/
theorem jsToLowerChar_fix (c : Char) : jsToLowerChar (jsToLowerChar c) = jsToLowerChar c := by
  by_cases h : 'A' ≤ c ∧ c ≤ 'Z'
  · have ht := jsToLowerChar_toNat h
    have hnot : ¬ ('A' ≤ jsToLowerChar c ∧ jsToLowerChar c ≤ 'Z') := by
      rintro ⟨_, hz⟩
      rw [Char.le_def] at hz
      have hz' : (jsToLowerChar c).toNat ≤ 90 := hz
      have h65 : 65 ≤ c.toNat := by
        have h1 := h.1
        rw [Char.le_def] at h1
        exact h1
      omega
    exact jsToLowerChar_eq_self hnot
  · rw [jsToLowerChar_eq_self h, jsToLowerChar_eq_self h]

/-- Lower-casing preserves whitespace-ness. -/
theorem jsIsWs_jsToLowerChar (c : Char) : jsIsWs (jsToLowerChar c) = jsIsWs c := by
  by_cases h : 'A' ≤ c ∧ c ≤ 'Z'
  · have h65 : 65 ≤ c.toNat := by
      have h1 := h.1
      rw [Char.le_def] at h1
      exact h1
    have ht := jsToLowerChar_toNat h
    rw [jsIsWs_false_of_toNat_large (by omega),
      @jsIsWs_false_of_toNat_large c (by omega)]
  · rw [jsToLowerChar_eq_self h]

/-- Dropping a prefix twice drops it once. -/
theorem dropWhile_dropWhile (p : α → Bool) (l : List α) :
    (l.dropWhile p).dropWhile p = l.dropWhile p := by
  induction l with
  | nil => rfl
  | cons x xs ih =>
    by_cases h : p x
    · simp [List.dropWhile_cons, h, ih]
    · simp [List.dropWhile_cons, h]

/-- A list whose head fails the predicate is unchanged by dropWhile. -/
theorem dropWhile_eq_self_of_head {p : α → Bool} {l : List α}
    (h : ∀ x, l.head? = some x → p x = false) : l.dropWhile p = l := by
  cases l with
  | nil => rfl
  | cons x xs =>
    have := h x rfl
    simp [List.dropWhile_cons, this]

/-- The head of a trimmed string is (if present) not whitespace. -/
theorem strTrim_head_not_ws (s : String) :
    ∀ x, (strTrim s).data.head? = some x → jsIsWs x = false := by
  intro x hx
  simp only [strTrim] at hx
  rw [List.head?_reverse] at hx
  have hne : (s.data.dropWhile jsIsWs).reverse.dropWhile jsIsWs ≠ [] := by
    intro hnil
    rw [hnil] at hx
    simp at hx
  obtain ⟨t, ht⟩ := @List.dropWhile_suffix _ ((s.data.dropWhile jsIsWs).reverse) jsIsWs
  have hlast : ((s.data.dropWhile jsIsWs).reverse).getLast? = some x := by
    calc ((s.data.dropWhile jsIsWs).reverse).getLast?
        = (t ++ (s.data.dropWhile jsIsWs).reverse.dropWhile jsIsWs).getLast? := by rw [ht]
      _ = ((s.data.dropWhile jsIsWs).reverse.dropWhile jsIsWs).getLast? :=
          List.getLast?_append_of_ne_nil t hne
      _ = some x := hx
  rw [List.getLast?_reverse] at hlast
  have hhead := List.head?_dropWhile_not jsIsWs s.data
  rw [hlast] at hhead
  exact hhead

/-- Trimming is idempotent. -/
theorem strTrim_idem (s : String) : strTrim (strTrim s) = strTrim s := by
  have h1 : (strTrim s).data.dropWhile jsIsWs = (strTrim s).data :=
    dropWhile_eq_self_of_head (strTrim_head_not_ws s)
  have h2 : ((strTrim s).data).reverse = (s.data.dropWhile jsIsWs).reverse.dropWhile jsIsWs := by
    simp [strTrim]
  show String.mk _ = strTrim s
  rw [h1, h2, dropWhile_dropWhile]
  cases hs : strTrim s with
  | mk data =>
    simp only [← hs]
    rw [show ((s.data.dropWhile jsIsWs).reverse.dropWhile jsIsWs) = (strTrim s).data.reverse
      from h2.symm]
    simp [List.reverse_reverse]

/-- Lower-casing is idempotent on strings. -/
theorem strLower_idem (s : String) : strLower (strLower s) = strLower s := by
  simp only [strLower, List.map_map]
  congr 1
  exact List.map_congr_left (fun c _ => jsToLowerChar_fix c)

/-- Trimming commutes with lower-casing. -/
theorem strTrim_strLower (s : String) : strTrim (strLower s) = strLower (strTrim s) := by
  have hcomp : (jsIsWs ∘ jsToLowerChar) = jsIsWs := funext jsIsWs_jsToLowerChar
  simp only [strTrim, strLower]
  rw [List.dropWhile_map]
  rw [hcomp]
  rw [← List.map_reverse]
  rw [List.dropWhile_map]
  rw [hcomp]
  rw [← List.map_reverse]

/-- Token normalization of the graph builder is idempotent. -/
theorem normalizeToken_idem (s : String) :
    GraphBuilder.normalizeToken (GraphBuilder.normalizeToken s) = GraphBuilder.normalizeToken s := by
  simp only [GraphBuilder.normalizeToken]
  rw [strTrim_strLower, strLower_idem]
  rw [strTrim_idem]

end SkillsScanner

namespace SkillsScanner

/-- The first-occurrence deduplication fold keeps the accumulator free of
duplicates. -/
theorem dedupFirst_fold_nodup [DecidableEq α] (l acc : List α) (hacc : acc.Nodup) :
    (l.foldl (fun acc x => if x ∈ acc then acc else acc ++ [x]) acc).Nodup := by
  induction l generalizing acc with
  | nil => exact hacc
  | cons x xs ih =>
    simp only [List.foldl_cons]
    by_cases hx : x ∈ acc
    · rw [if_pos hx]
      exact ih acc hacc
    · rw [if_neg hx]
      exact ih _ (by simp [List.nodup_append, hacc, hx])

/-- First-occurrence deduplication produces a duplicate-free list. -/
theorem dedupFirst_nodup [DecidableEq α] (l : List α) : (dedupFirst l).Nodup :=
  dedupFirst_fold_nodup l [] List.nodup_nil

/-- First-occurrence deduplication of an already duplicate-free list is the
identity. -/
theorem dedupFirst_eq_self [DecidableEq α] {l : List α} (h : l.Nodup) : dedupFirst l = l := by
  have aux : ∀ (l' acc : List α), (∀ x ∈ l', x ∉ acc) → l'.Nodup →
      l'.foldl (fun acc x => if x ∈ acc then acc else acc ++ [x]) acc = acc ++ l' := by
    intro l'
    induction l' with
    | nil => intro acc _ _; simp
    | cons x xs ih =>
      intro acc hdisj hnd
      simp only [List.foldl_cons]
      rw [if_neg (hdisj x (List.mem_cons_self _ _))]
      rw [ih (acc ++ [x]) ?_ hnd.of_cons]
      · simp
      · intro y hy
        simp only [List.mem_append, List.mem_singleton]
        rintro (hya | rfl)
        · exact hdisj y (List.mem_cons_of_mem _ hy) hya
        · exact (List.nodup_cons.mp hnd).1 hy
  simpa using aux l [] (by simp) h

/-- Every member of a normalized tag list is a fixed point of token
normalization and non-empty. -/
theorem mem_normalizeTags_fix {l : List String} {t : String}
    (h : t ∈ GraphBuilder.normalizeTags l) :
    GraphBuilder.normalizeToken t = t ∧ t ≠ "" := by
  simp only [GraphBuilder.normalizeTags] at h
  have h' := mem_dedupFirst.mp h
  rcases List.mem_filter.mp h' with ⟨hmap, hne⟩
  rcases List.mem_map.mp hmap with ⟨z, _, hz⟩
  refine ⟨?_, by simpa using hne⟩
  rw [← hz]
  exact normalizeToken_idem z

/-- Normalized tag lists are duplicate-free. -/
theorem normalizeTags_nodup (l : List String) : (GraphBuilder.normalizeTags l).Nodup :=
  dedupFirst_nodup _

/-- A duplicate-free list of non-empty normalization fixed points is left
unchanged by normalizeTags. -/
theorem normalizeTags_eq_self {l : List String}
    (h1 : ∀ t ∈ l, GraphBuilder.normalizeToken t = t ∧ t ≠ "") (h2 : l.Nodup) :
    GraphBuilder.normalizeTags l = l := by
  simp only [GraphBuilder.normalizeTags]
  have hmap : l.map GraphBuilder.normalizeToken = l := by
    rw [List.map_congr_left (fun t ht => (h1 t ht).1)]
    exact List.map_id l
  rw [hmap]
  rw [List.filter_eq_self.mpr (fun t ht => by simpa using (h1 t ht).2)]
  exact dedupFirst_eq_self h2

end SkillsScanner

namespace SkillsScanner.GraphBuilder

open SkillsScanner

/-- Characterization of a successful validateOverlapTags: the surviving list
is the interface-narrowed (when requested), stoplist-free normalization of
the overlap.  The result does not depend on the drop counters. -/
theorem validateOverlapTags_some {ov : List String} {df : List (String × ℕ)} {m : ℕ}
    {dr : GraphDropReasons} {flag : Bool} {res : List String}
    (h : (validateOverlapTags ov df m dr flag).1 = some res) :
    res = normalizeTags
      (((if flag then ov.filter (fun t => ARTIFACT_INTERFACE_SET t) else ov)).filter
        (fun t => ¬ STOPLIST.contains t)) := by
  unfold validateOverlapTags at h
  set N := if flag then ov.filter (fun t => ARTIFACT_INTERFACE_SET t) else ov with hN
  by_cases h0 : ov.length = 0
  · rw [if_pos h0] at h
    simp at h
  · rw [if_neg h0] at h
    by_cases h1 : N.length = 0
    · rw [if_pos h1] at h
      simp at h
    · rw [if_neg h1] at h
      by_cases h2 : (N.filter (fun t => ¬ STOPLIST.contains t)).length = 0
      · rw [if_pos h2] at h
        simp at h
      · rw [if_neg h2] at h
        by_cases h3 : ¬ (N.filter (fun t => ¬ STOPLIST.contains t)).any
            (fun tag => hasSpecificNonStopTag tag df m) = true
        · rw [if_pos h3] at h
          simp at h
        · rw [if_neg h3] at h
          exact (Option.some.inj h).symm

/-- Candidates emitted by one ordered-pair step: either inherited from the
accumulator, or a depends_on/precedes candidate of that pair with the
interface-restricted overlap; precedes additionally requires a strictly
later target stage, and both directions require distinct ids. -/
theorem orderedPairStep_new (df : List (String × ℕ)) (idfByTag : List (String × ℚ)) (m : ℕ)
    (acc : List EdgeCandidate × GraphDropReasons) (pr : SkillRecord × SkillRecord) :
    ∀ c ∈ (orderedPairStep df idfByTag m acc pr).1,
      c ∈ acc.1 ∨
      (c.fromId = pr.1.id ∧ c.toId = pr.2.id ∧ pr.1.id ≠ pr.2.id ∧
       (c.type = .depends_on ∨
         (c.type = .precedes ∧ STAGE_ORDER pr.1.stage < STAGE_ORDER pr.2.stage)) ∧
       c.overlapTags = normalizeTags
         (((intersectTags pr.1.artifactsTags pr.2.inputsTags).filter
            (fun t => ARTIFACT_INTERFACE_SET t)).filter (fun t => ¬ STOPLIST.contains t))) := by
  intro c hc
  unfold orderedPairStep at hc
  dsimp only at hc
  split at hc
  · exact Or.inl hc
  · next hid =>
    split at hc
    · next hst =>
      dsimp only at hc
      split at hc
      · next dependsOverlap heq =>
        rcases List.mem_append.mp hc with h | h
        · exact Or.inl h
        · rw [List.mem_singleton.mp h]
          refine Or.inr ⟨rfl, rfl, hid, Or.inl rfl, ?_⟩
          simpa using validateOverlapTags_some heq
      · exact Or.inl hc
    · next hst =>
      split at hc
      · next heqw =>
        dsimp only at hc
        split at hc
        · next dependsOverlap heq =>
          rcases List.mem_append.mp hc with h | h
          · exact Or.inl h
          · rw [List.mem_singleton.mp h]
            refine Or.inr ⟨rfl, rfl, hid, Or.inl rfl, ?_⟩
            simpa using validateOverlapTags_some heq
        · exact Or.inl hc
      · next precedesOverlap heqw =>
        dsimp only at hc
        rcases List.mem_append.mp hc with h | h
        · split at h
          · next dependsOverlap heq =>
            rcases List.mem_append.mp h with h' | h'
            · exact Or.inl h'
            · rw [List.mem_singleton.mp h']
              refine Or.inr ⟨rfl, rfl, hid, Or.inl rfl, ?_⟩
              simpa using validateOverlapTags_some heq
          · exact Or.inl h
        · rw [List.mem_singleton.mp h]
          refine Or.inr ⟨rfl, rfl, hid, Or.inr ⟨rfl, lt_of_not_ge hst⟩, ?_⟩
          simpa using validateOverlapTags_some heqw

end SkillsScanner.GraphBuilder

namespace SkillsScanner.GraphBuilder

open SkillsScanner

/-- Candidates emitted by one unordered-pair step are inherited or carry an
undirected type. -/
theorem upperPairStep_new (df : List (String × ℕ)) (idfByTag : List (String × ℚ)) (m : ℕ)
    (acc : List EdgeCandidate × GraphDropReasons) (pr : SkillRecord × SkillRecord) :
    ∀ c ∈ (upperPairStep df idfByTag m acc pr).1,
      c ∈ acc.1 ∨ c.type = .complements ∨ c.type = .alternative_to := by
  intro c hc
  unfold upperPairStep at hc
  dsimp only at hc
  split at hc
  · split at hc
    · next heq =>
      split at hc
      · exact Or.inl hc
      · rcases List.mem_append.mp hc with h | h
        · exact Or.inl h
        · rw [List.mem_singleton.mp h]
          exact Or.inr (Or.inl rfl)
    · exact Or.inl hc
  · split at hc
    · next heqsim =>
      split at hc
      · next heq =>
        split at hc
        · exact Or.inl hc
        · rcases List.mem_append.mp hc with h | h
          · exact Or.inl h
          · rw [List.mem_singleton.mp h]
            exact Or.inr (Or.inl rfl)
      · exact Or.inl hc
    · split at hc
      · next heqw =>
        split at hc
        · next heq =>
          split at hc
          · exact Or.inl hc
          · rcases List.mem_append.mp hc with h | h
            · exact Or.inl h
            · rw [List.mem_singleton.mp h]
              exact Or.inr (Or.inl rfl)
        · exact Or.inl hc
      · next precedesOverlap heqw =>
        rcases List.mem_append.mp hc with h | h
        · split at h
          · next heq =>
            split at h
            · exact Or.inl h
            · rcases List.mem_append.mp h with h' | h'
              · exact Or.inl h'
              · rw [List.mem_singleton.mp h']
                exact Or.inr (Or.inl rfl)
          · exact Or.inl h
        · rw [List.mem_singleton.mp h]
          exact Or.inr (Or.inr rfl)

/-- Membership in the ordered-pair enumeration projects to membership in the
entry list. -/
theorem mem_orderedPairs {skills : List SkillRecord} {pr : SkillRecord × SkillRecord}
    (h : pr ∈ orderedPairs skills) : pr.1 ∈ skills ∧ pr.2 ∈ skills := by
  simp only [orderedPairs, List.mem_flatMap] at h
  obtain ⟨s, hs, hmap⟩ := h
  rcases List.mem_map.mp hmap with ⟨t, ht, heq⟩
  rw [← heq]
  exact ⟨hs, ht⟩

/-- Shape of every candidate collectCandidates emits: precedes candidates
join two entries at strictly increasing stages with the interface-restricted
artifact/input overlap, and depends_on candidates join two distinct ids with
that same overlap. -/
theorem collectCandidates_shape (skills : List SkillRecord) (df : List (String × ℕ))
    (idfByTag : List (String × ℚ)) (dr : GraphDropReasons) :
    ∀ c ∈ (collectCandidates skills df idfByTag dr).1,
      (c.type = .precedes →
        ∃ s ∈ skills, ∃ t ∈ skills, s.id = c.fromId ∧ t.id = c.toId ∧
          STAGE_ORDER s.stage < STAGE_ORDER t.stage ∧
          c.overlapTags = normalizeTags
            (((intersectTags s.artifactsTags t.inputsTags).filter
               (fun tg => ARTIFACT_INTERFACE_SET tg)).filter
              (fun tg => ¬ STOPLIST.contains tg))) ∧
      (c.type = .depends_on →
        ∃ s ∈ skills, ∃ t ∈ skills, s.id = c.fromId ∧ t.id = c.toId ∧ s.id ≠ t.id ∧
          c.overlapTags = normalizeTags
            (((intersectTags s.artifactsTags t.inputsTags).filter
               (fun tg => ARTIFACT_INTERFACE_SET tg)).filter
              (fun tg => ¬ STOPLIST.contains tg))) := by
  have hstep1 : ∀ (prs : List (SkillRecord × SkillRecord))
      (acc : List EdgeCandidate × GraphDropReasons),
      (∀ pr ∈ prs, pr.1 ∈ skills ∧ pr.2 ∈ skills) →
      (∀ c ∈ acc.1,
        (c.type = .precedes →
          ∃ s ∈ skills, ∃ t ∈ skills, s.id = c.fromId ∧ t.id = c.toId ∧
            STAGE_ORDER s.stage < STAGE_ORDER t.stage ∧
            c.overlapTags = normalizeTags
              (((intersectTags s.artifactsTags t.inputsTags).filter
                 (fun tg => ARTIFACT_INTERFACE_SET tg)).filter
                (fun tg => ¬ STOPLIST.contains tg))) ∧
        (c.type = .depends_on →
          ∃ s ∈ skills, ∃ t ∈ skills, s.id = c.fromId ∧ t.id = c.toId ∧ s.id ≠ t.id ∧
            c.overlapTags = normalizeTags
              (((intersectTags s.artifactsTags t.inputsTags).filter
                 (fun tg => ARTIFACT_INTERFACE_SET tg)).filter
                (fun tg => ¬ STOPLIST.contains tg)))) →
      ∀ c ∈ (prs.foldl (orderedPairStep df idfByTag
        (max 1 (skills.length * 3 / 10))) acc).1,
        (c.type = .precedes →
          ∃ s ∈ skills, ∃ t ∈ skills, s.id = c.fromId ∧ t.id = c.toId ∧
            STAGE_ORDER s.stage < STAGE_ORDER t.stage ∧
            c.overlapTags = normalizeTags
              (((intersectTags s.artifactsTags t.inputsTags).filter
                 (fun tg => ARTIFACT_INTERFACE_SET tg)).filter
                (fun tg => ¬ STOPLIST.contains tg))) ∧
        (c.type = .depends_on →
          ∃ s ∈ skills, ∃ t ∈ skills, s.id = c.fromId ∧ t.id = c.toId ∧ s.id ≠ t.id ∧
            c.overlapTags = normalizeTags
              (((intersectTags s.artifactsTags t.inputsTags).filter
                 (fun tg => ARTIFACT_INTERFACE_SET tg)).filter
                (fun tg => ¬ STOPLIST.contains tg))) := by
    intro prs
    induction prs with
    | nil => intro acc _ hacc c hc; exact hacc c hc
    | cons pr prs' ih =>
      intro acc hprs hacc c hc
      refine ih _ (fun p hp => hprs p (List.mem_cons_of_mem _ hp)) ?_ c hc
      intro c' hc'
      rcases orderedPairStep_new df idfByTag _ acc pr c' hc' with h | h
      · exact hacc c' h
      · obtain ⟨hfrom, hto, hne, htype, hov⟩ := h
        obtain ⟨hs, ht⟩ := hprs pr (List.mem_cons_self _ _)
        constructor
        · intro hp
          rcases htype with hd | ⟨hprec, hst⟩
          · rw [hp] at hd
            cases hd
          · exact ⟨pr.1, hs, pr.2, ht, hfrom.symm, hto.symm, hst, hov⟩
        · intro hd
          rcases htype with hdep | ⟨hprec, _⟩
          · exact ⟨pr.1, hs, pr.2, ht, hfrom.symm, hto.symm, hne, hov⟩
          · rw [hd] at hprec
            cases hprec
  have hstep2 : ∀ (prs : List (SkillRecord × SkillRecord))
      (acc : List EdgeCandidate × GraphDropReasons),
      (∀ c ∈ acc.1,
        (c.type = .precedes →
          ∃ s ∈ skills, ∃ t ∈ skills, s.id = c.fromId ∧ t.id = c.toId ∧
            STAGE_ORDER s.stage < STAGE_ORDER t.stage ∧
            c.overlapTags = normalizeTags
              (((intersectTags s.artifactsTags t.inputsTags).filter
                 (fun tg => ARTIFACT_INTERFACE_SET tg)).filter
                (fun tg => ¬ STOPLIST.contains tg))) ∧
        (c.type = .depends_on →
          ∃ s ∈ skills, ∃ t ∈ skills, s.id = c.fromId ∧ t.id = c.toId ∧ s.id ≠ t.id ∧
            c.overlapTags = normalizeTags
              (((intersectTags s.artifactsTags t.inputsTags).filter
                 (fun tg => ARTIFACT_INTERFACE_SET tg)).filter
                (fun tg => ¬ STOPLIST.contains tg)))) →
      ∀ c ∈ (prs.foldl (upperPairStep df idfByTag
        (max 1 (skills.length * 3 / 10))) acc).1,
        (c.type = .precedes →
          ∃ s ∈ skills, ∃ t ∈ skills, s.id = c.fromId ∧ t.id = c.toId ∧
            STAGE_ORDER s.stage < STAGE_ORDER t.stage ∧
            c.overlapTags = normalizeTags
              (((intersectTags s.artifactsTags t.inputsTags).filter
                 (fun tg => ARTIFACT_INTERFACE_SET tg)).filter
                (fun tg => ¬ STOPLIST.contains tg))) ∧
        (c.type = .depends_on →
          ∃ s ∈ skills, ∃ t ∈ skills, s.id = c.fromId ∧ t.id = c.toId ∧ s.id ≠ t.id ∧
            c.overlapTags = normalizeTags
              (((intersectTags s.artifactsTags t.inputsTags).filter
                 (fun tg => ARTIFACT_INTERFACE_SET tg)).filter
                (fun tg => ¬ STOPLIST.contains tg))) := by
    intro prs
    induction prs with
    | nil => intro acc hacc c hc; exact hacc c hc
    | cons pr prs' ih =>
      intro acc hacc c hc
      refine ih _ ?_ c hc
      intro c' hc'
      rcases upperPairStep_new df idfByTag _ acc pr c' hc' with h | h | h
      · exact hacc c' h
      · constructor
        · intro hp
          rw [hp] at h
          cases h
        · intro hd
          rw [hd] at h
          cases h
      · constructor
        · intro hp
          rw [hp] at h
          cases h
        · intro hd
          rw [hd] at h
          cases h
  intro c hc
  unfold collectCandidates at hc
  dsimp only at hc
  refine hstep2 _ _ ?_ c hc
  refine hstep1 _ _ (fun pr hpr => mem_orderedPairs hpr) ?_
  intro c' hc'
  simp at hc'

end SkillsScanner.GraphBuilder

namespace SkillsScanner.GraphBuilder

open SkillsScanner

/-- None of the thirteen interface artifact tags is stoplisted. -/
theorem interface_tags_not_stop :
    ∀ tag ∈ TagVocabulary.ARTIFACT_INTERFACE_TAGS, STOPLIST.contains tag = false := by
  decide

/-- The interface-restricted overlap of two canonical tag lists is already
normalized and stoplist-free, so the builder's final normalization leaves it
unchanged. -/
theorem overlap_simplification (a b : List String) :
    normalizeTags (((intersectTags a b).filter (fun tg => ARTIFACT_INTERFACE_SET tg)).filter
      (fun tg => ¬ STOPLIST.contains tg)) =
    (intersectTags a b).filter (fun tg => ARTIFACT_INTERFACE_SET tg) := by
  have hstop : ((intersectTags a b).filter (fun tg => ARTIFACT_INTERFACE_SET tg)).filter
      (fun tg => ¬ STOPLIST.contains tg) =
      (intersectTags a b).filter (fun tg => ARTIFACT_INTERFACE_SET tg) := by
    apply List.filter_eq_self.mpr
    intro x hx
    have hint : ARTIFACT_INTERFACE_SET x = true := List.of_mem_filter hx
    have hmem : x ∈ TagVocabulary.getArtifactInterfaceTags := contains_iff_mem.mp hint
    have := interface_tags_not_stop x hmem
    simp only [decide_eq_true_iff]
    intro hcontra
    rw [hcontra] at this
    cases this
  rw [hstop]
  apply normalizeTags_eq_self
  · intro t ht
    have h1 : t ∈ intersectTags a b := List.mem_of_mem_filter ht
    have h2 : t ∈ normalizeTags a := by
      have h3 : t ∈ (normalizeTags a).filter (fun tag => tag ∈ normalizeTags b) := by
        simpa [intersectTags] using h1
      exact List.mem_of_mem_filter h3
    exact mem_normalizeTags_fix h2
  · exact ((normalizeTags_nodup a).filter _).filter _

/-- C1 (amended): every precedes edge goes from an entry at a strictly
earlier stage to one at a strictly later stage, and its overlapTags are
exactly the tags shared between the source's artifacts and the target's
inputs, restricted to the interface artifact subset. -/
theorem C1_precedes_edges (idfOf : ℕ → ℕ → ℚ) (skills : List SkillRecord) :
    ∀ e ∈ (buildSkillGraph idfOf skills).edges, e.type = .precedes →
      ∃ s ∈ skills, ∃ t ∈ skills, s.id = e.fromId ∧ t.id = e.toId ∧
        STAGE_ORDER s.stage < STAGE_ORDER t.stage ∧
        e.overlapTags = (intersectTags s.artifactsTags t.inputsTags).filter
          (fun tag => ARTIFACT_INTERFACE_SET tag) := by
  intro e he htype
  rw [buildSkillGraph_edges] at he
  simp only [edgesOf] at he
  rcases List.mem_map.mp (mem_jsSort.mp he) with ⟨c, hc, heq⟩
  have hctype : c.type = .precedes := by
    rw [← htype, ← heq]
    rfl
  have hcand : c ∈ (candidatesOf idfOf skills).1 := by
    rcases List.mem_append.mp hc with h | h
    · rcases List.mem_append.mp h with h' | h'
      · have hdir := resolveReciprocalDepends_directed_mem _ _ _ c (pruneDirected_mem _ _ c h')
        exact thresholdCandidates_kept_sub _ _ c (List.mem_of_mem_filter hdir)
      · have := mergeUndirected_type _ _ c (pruneUndirected_mem _ _ _ c h')
        rw [hctype] at this
        cases this
    · have := mergeUndirected_type _ _ c (pruneUndirected_mem _ _ _ c h)
      rw [hctype] at this
      cases this
  obtain ⟨hprec, _⟩ := collectCandidates_shape skills _ _ _ c hcand
  obtain ⟨s, hs, t, ht, hsid, htid, hst, hov⟩ := hprec hctype
  have hfrom : e.fromId = c.fromId := by rw [← heq]; rfl
  have hto : e.toId = c.toId := by rw [← heq]; rfl
  have hovE : e.overlapTags = c.overlapTags := by rw [← heq]; rfl
  refine ⟨s, hs, t, ht, ?_, ?_, hst, ?_⟩
  · rw [hfrom]
    exact hsid
  · rw [hto]
    exact htid
  · rw [hovE, hov]
    exact overlap_simplification _ _

/-- The idf oracle for the C1 corpus: the exact IEEE-754 double value of
`smoothIdf(7, 2) = 1.9808292530117262` (the only query the pipeline makes on
that corpus). -/
def exIdfC1 : ℕ → ℕ → ℚ := fun _ _ => mkRat 2230215471437047 1125899906842624

/-- Seven-entry corpus for C1: identical in shape to `exSkillsC2`; the
produced precedes edge carries overlap tag "code" coming from the source's
artifacts while the source's capabilities are empty. -/
def exSkillsC1 : List SkillRecord :=
  [⟨"a", "a", .implement, [], ["code"], []⟩,
   ⟨"b", "b", .verify, ["code"], [], []⟩,
   ⟨"c", "c", .intake, [], [], []⟩,
   ⟨"d", "d", .plan, [], [], []⟩,
   ⟨"e", "e", .refactor, [], [], []⟩,
   ⟨"f", "f", .security, [], [], []⟩,
   ⟨"g", "g", .docs, [], [], []⟩]

/-- C1 (counterexample): the claim as stated is false — the precedes edge
from "a" to "b" carries overlapTags ["code"], which are shared between the
source's *artifacts* and the target's inputs; the source's *capabilities*
are empty, so the claimed capabilities/inputs overlap (even interface
restricted) is empty and differs. -/
theorem C1_counterexample :
    ∃ e ∈ (buildSkillGraph exIdfC1 exSkillsC1).edges, e.type = .precedes ∧
      e.fromId = "a" ∧ e.toId = "b" ∧
      ∃ s ∈ exSkillsC1, ∃ t ∈ exSkillsC1, s.id = e.fromId ∧ t.id = e.toId ∧
        e.overlapTags ≠ (intersectTags s.capabilitiesTags t.inputsTags).filter
          (fun tag => ARTIFACT_INTERFACE_SET tag) := by
  decide

/-- C1 (witness): the amended statement evaluated on the C1 corpus at its
concrete precedes edge. -/
theorem C1_precedes_edges_witness :
    (({ fromId := "a", toId := "b", type := .precedes, score := mkRat 26741 10000,
        overlapTags := ["code"], via := ["code"] } : SkillGraphEdge) ∈
      (buildSkillGraph exIdfC1 exSkillsC1).edges) ∧
      (∃ s ∈ exSkillsC1, ∃ t ∈ exSkillsC1, s.id = "a" ∧ t.id = "b" ∧
        STAGE_ORDER s.stage < STAGE_ORDER t.stage ∧
        (["code"] : List String) = (intersectTags s.artifactsTags t.inputsTags).filter
          (fun tag => ARTIFACT_INTERFACE_SET tag)) :=
  ⟨by decide,
   C1_precedes_edges exIdfC1 exSkillsC1
     ({ fromId := "a", toId := "b", type := .precedes, score := mkRat 26741 10000,
        overlapTags := ["code"], via := ["code"] } : SkillGraphEdge) (by decide) (by decide)⟩

end SkillsScanner.GraphBuilder

namespace SkillsScanner

/-- Keys of an upserted association list: unchanged for an existing key,
appended for a new one. -/
theorem upsert_map_fst [DecidableEq κ] (m : List (κ × α)) (k : κ) (v : α) :
    (upsert m k v).map (·.1) =
      if k ∈ m.map (·.1) then m.map (·.1) else m.map (·.1) ++ [k] := by
  induction m with
  | nil => simp [upsert]
  | cons p rest ih =>
    obtain ⟨pk, pv⟩ := p
    by_cases hk : pk = k
    · subst hk
      simp [upsert]
    · have : ¬ k = pk := fun hc => hk hc.symm
      simp only [upsert, if_neg hk, List.map_cons, ih]
      by_cases hmem : k ∈ rest.map (·.1)
      · simp [hmem, this]
      · simp [hmem, this]

/-- Upserting preserves duplicate-freedom of the key list. -/
theorem upsert_keys_nodup [DecidableEq κ] {m : List (κ × α)} (k : κ) (v : α)
    (h : (m.map (·.1)).Nodup) : ((upsert m k v).map (·.1)).Nodup := by
  rw [upsert_map_fst]
  by_cases hmem : k ∈ m.map (·.1)
  · rwa [if_pos hmem]
  · rw [if_neg hmem]
    simp [List.nodup_append, h, hmem]

end SkillsScanner

namespace SkillsScanner.GraphBuilder

open SkillsScanner

/-- In a group-and-append fold, every bucket member maps to its bucket's
key. -/
theorem mem_groupAppendFold_key {α : Type} (key : α → String) (l : List α)
    (m0 : List (String × List α)) (h0 : ∀ kv ∈ m0, ∀ c ∈ kv.2, key c = kv.1) :
    ∀ kv ∈ l.foldl (fun m c => upsert m (key c) (((alGet m (key c)).getD []) ++ [c])) m0,
      ∀ c ∈ kv.2, key c = kv.1 := by
  induction l generalizing m0 with
  | nil => exact h0
  | cons x xs ih =>
    simp only [List.foldl_cons]
    refine ih _ ?_
    intro kv hkv c hc
    rcases mem_upsert_elim hkv with h | h
    · subst h
      rcases List.mem_append.mp hc with h' | h'
      · cases hold : alGet m0 (key x) with
        | none => rw [hold] at h'; simp at h'
        | some old =>
          rw [hold] at h'
          exact h0 _ (alGet_mem hold) c h'
      · rw [List.mem_singleton.mp h']
    · exact h0 _ h c hc

/-- In a group-and-append fold starting from the empty map, the key list is
duplicate-free. -/
theorem groupAppendFold_keys_nodup {α : Type} (key : α → String) (l : List α)
    (m0 : List (String × List α)) (h0 : (m0.map (·.1)).Nodup) :
    ((l.foldl (fun m c => upsert m (key c) (((alGet m (key c)).getD []) ++ [c])) m0).map
      (·.1)).Nodup := by
  induction l generalizing m0 with
  | nil => exact h0
  | cons x xs ih =>
    simp only [List.foldl_cons]
    exact ih _ (upsert_keys_nodup _ _ h0)

/-- A reciprocal bucket contributes at most one kept depends_on candidate. -/
theorem resolveBucket_kept_le_one (sb : List (String × SkillRecord))
    (bucket : List EdgeCandidate) (dr : GraphDropReasons) :
    (resolveBucket sb bucket dr).1.length ≤ 1 := by
  match bucket with
  | [] => simp [resolveBucket]
  | [c0] => simp [resolveBucket]
  | c0 :: c1 :: rest =>
    simp only [resolveBucket]
    split
    · simp
    · split
      · split
        · simp
        · split
          · simp
          · split
            · simp
            · simp
      · simp

end SkillsScanner.GraphBuilder

namespace SkillsScanner

/-- A zero character-list comparison means equality. -/
theorem listCmp_eq_zero_iff : ∀ {a b : List Char}, listCmp a b = 0 ↔ a = b := by
  intro a
  induction a with
  | nil =>
    intro b
    cases b <;> simp [listCmp]
  | cons x xs ih =>
    intro b
    cases b with
    | nil => simp [listCmp]
    | cons y ys =>
      by_cases h1 : x.toNat < y.toNat
      · simp only [listCmp, if_pos h1]
        constructor
        · intro h; cases h
        · rintro h
          injection h with hx hy
          rw [hx] at h1
          omega
      · by_cases h2 : y.toNat < x.toNat
        · simp only [listCmp, if_neg h1, if_pos h2]
          constructor
          · intro h; cases h
          · rintro h
            injection h with hx hy
            rw [hx] at h2
            omega
        · have hxy : x = y := by
            apply Char.eq_of_val_eq
            apply UInt32.toNat.inj
            have h1' : ¬ x.val.toNat < y.val.toNat := h1
            have h2' : ¬ y.val.toNat < x.val.toNat := h2
            omega
          simp [listCmp, h1, h2, ih, hxy]

end SkillsScanner

namespace SkillsScanner

/-- Character-list comparison is antisymmetric up to negation. -/
theorem listCmp_neg : ∀ (a b : List Char), listCmp a b = -(listCmp b a) := by
  intro a
  induction a with
  | nil =>
    intro b
    cases b <;> simp [listCmp]
  | cons x xs ih =>
    intro b
    cases b with
    | nil => simp [listCmp]
    | cons y ys =>
      by_cases h1 : x.toNat < y.toNat
      · have h2 : ¬ y.toNat < x.toNat := by omega
        simp [listCmp, h1, h2]
      · by_cases h2 : y.toNat < x.toNat
        · simp [listCmp, h1, h2]
        · simp [listCmp, h1, h2, ih]

/-- A zero string comparison means equality. -/
theorem strCmp_eq_zero_iff {a b : String} : strCmp a b = 0 ↔ a = b := by
  constructor
  · intro h
    exact String.ext (listCmp_eq_zero_iff.mp h)
  · rintro rfl
    exact listCmp_eq_zero_iff.mpr rfl

/-- All members of a list of length at most one coincide. -/
theorem mem_of_len_le_one {l : List α} (h : l.length ≤ 1) {a b : α}
    (ha : a ∈ l) (hb : b ∈ l) : a = b := by
  match l with
  | [] => cases ha
  | [x] => rw [List.mem_singleton.mp ha, List.mem_singleton.mp hb]
  | x :: y :: _ => simp at h

end SkillsScanner

namespace SkillsScanner.GraphBuilder

open SkillsScanner

/-- `[from, to].sort()` is insensitive to the order of its two inputs. -/
theorem sortPair_comm (a b : String) : sortPair a b = sortPair b a := by
  unfold sortPair
  have hneg : strCmp b a = -(strCmp a b) := by
    simpa [strCmp] using listCmp_neg b.data a.data
  by_cases h : strCmp a b ≤ 0
  · by_cases h' : strCmp b a ≤ 0
    · have h0 : strCmp a b = 0 := by omega
      have hab : a = b := strCmp_eq_zero_iff.mp h0
      rw [if_pos h, if_pos h', hab]
    · rw [if_pos h, if_neg h']
  · have h' : strCmp b a ≤ 0 := by omega
    rw [if_neg h, if_pos h']

/-- The unordered-pair key is symmetric in its two identifiers. -/
theorem pairKey_comm (a b : String) : pairKey a b = pairKey b a := by
  unfold pairKey
  rw [sortPair_comm]

end SkillsScanner.GraphBuilder

namespace SkillsScanner.GraphBuilder

open SkillsScanner

/-- The bucket-processing fold of resolveReciprocalDepends keeps at most one
candidate per unordered-pair key: distinct bucket keys, key-consistent
buckets and a key-unique accumulator disjoint from the pending keys yield a
key-unique result. -/
theorem processBuckets_unique (sb : List (String × SkillRecord)) :
    ∀ (bs : List (String × List EdgeCandidate))
      (acc : (List EdgeCandidate × List EdgeCandidate) × GraphDropReasons),
      (bs.map (·.1)).Nodup →
      (∀ kv ∈ bs, ∀ c ∈ kv.2, pairKey c.fromId c.toId = kv.1) →
      (∀ c ∈ acc.1.1, ∀ c' ∈ acc.1.1,
        pairKey c.fromId c.toId = pairKey c'.fromId c'.toId → c = c') →
      (∀ c ∈ acc.1.1, pairKey c.fromId c.toId ∉ bs.map (·.1)) →
      ∀ c ∈ (bs.foldl
        (fun acc kv =>
          let r := resolveBucket sb kv.2 acc.2
          ((acc.1.1 ++ r.1, acc.1.2 ++ r.2.1), r.2.2)) acc).1.1,
      ∀ c' ∈ (bs.foldl
        (fun acc kv =>
          let r := resolveBucket sb kv.2 acc.2
          ((acc.1.1 ++ r.1, acc.1.2 ++ r.2.1), r.2.2)) acc).1.1,
        pairKey c.fromId c.toId = pairKey c'.fromId c'.toId → c = c' := by
  intro bs
  induction bs with
  | nil => intro acc _ _ huniq _; exact huniq
  | cons kv0 bs' ih =>
    intro acc hnodup hkeys huniq hdisj
    simp only [List.foldl_cons]
    have hnodup' : (bs'.map (·.1)).Nodup := (List.nodup_cons.mp hnodup).2
    have hhead : kv0.1 ∉ bs'.map (·.1) := (List.nodup_cons.mp hnodup).1
    refine ih _ hnodup' (fun kv hkv => hkeys kv (List.mem_cons_of_mem _ hkv)) ?_ ?_
    · intro c hc c' hc' hk
      rcases List.mem_append.mp hc with h | h
      · rcases List.mem_append.mp hc' with h' | h'
        · exact huniq c h c' h' hk
        · have hkc' : pairKey c'.fromId c'.toId = kv0.1 :=
            hkeys kv0 (List.mem_cons_self _ _) c' (resolveBucket_kept_mem sb kv0.2 _ c' h')
          have := hdisj c h
          rw [hk, hkc'] at this
          exact absurd (List.mem_cons_self kv0.1 (bs'.map (·.1))) (by simpa using this)
      · rcases List.mem_append.mp hc' with h' | h'
        · have hkc : pairKey c.fromId c.toId = kv0.1 :=
            hkeys kv0 (List.mem_cons_self _ _) c (resolveBucket_kept_mem sb kv0.2 _ c h)
          have := hdisj c' h'
          rw [← hk, hkc] at this
          exact absurd (List.mem_cons_self kv0.1 (bs'.map (·.1))) (by simpa using this)
        · exact mem_of_len_le_one (resolveBucket_kept_le_one sb kv0.2 _) h h'
    · intro c hc
      rcases List.mem_append.mp hc with h | h
      · have := hdisj c h
        simp only [List.map_cons, List.mem_cons] at this
        exact fun hmem => this (Or.inr hmem)
      · have hkc : pairKey c.fromId c.toId = kv0.1 :=
          hkeys kv0 (List.mem_cons_self _ _) c (resolveBucket_kept_mem sb kv0.2 _ c h)
      
        rw [hkc]
        exact hhead

/-- resolveReciprocalDepends leaves at most one depends_on candidate per
unordered pair of skill identifiers. -/
theorem resolveReciprocalDepends_unique (cands : List EdgeCandidate)
    (sb : List (String × SkillRecord)) (dr : GraphDropReasons) :
    ∀ c ∈ (resolveReciprocalDepends cands sb dr).1.directed, c.type = .depends_on →
    ∀ c' ∈ (resolveReciprocalDepends cands sb dr).1.directed, c'.type = .depends_on →
      pairKey c.fromId c.toId = pairKey c'.fromId c'.toId → c = c' := by
  intro c hc hct c' hc' hct' hk
  simp only [resolveReciprocalDepends] at hc hc'
  have hnotnon : ∀ d : EdgeCandidate, d.type = EdgeType.depends_on →
      d ∉ cands.filter (fun x => x.type ≠ EdgeType.depends_on) := by
    intro d hd hmem
    have := (List.mem_filter.mp hmem).2
    rw [decide_eq_true_eq] at this
    exact this hd
  rcases List.mem_append.mp hc with h | h
  · exact absurd h (hnotnon c hct)
  · rcases List.mem_append.mp hc' with h' | h'
    · exact absurd h' (hnotnon c' hct')
    · have hnodup := groupAppendFold_keys_nodup (fun x => pairKey x.fromId x.toId)
        (cands.filter (fun x => x.type = EdgeType.depends_on)) [] (by simp)
      have hkeys := mem_groupAppendFold_key (fun x => pairKey x.fromId x.toId)
        (cands.filter (fun x => x.type = EdgeType.depends_on)) [] (by simp)
      exact processBuckets_unique sb _ (([], []), dr) hnodup hkeys (by simp) (by simp)
        c h c' h' hk

end SkillsScanner.GraphBuilder

namespace SkillsScanner.GraphBuilder

open SkillsScanner

/-- Every depends_on candidate the builder keeps: it survived reciprocal
resolution, and it joins two distinct skill identifiers. -/
theorem keptDepends_props (idfOf : ℕ → ℕ → ℚ) (skills : List SkillRecord) :
    ∀ c ∈ keptCandidatesOf idfOf skills, c.type = .depends_on →
      c ∈ (reciprocalOf idfOf skills).1.directed ∧ c.fromId ≠ c.toId := by
  intro c hc hct
  have hdir : c ∈ (reciprocalOf idfOf skills).1.directed := by
    rcases List.mem_append.mp hc with h | h
    · rcases List.mem_append.mp h with h' | h'
      · exact pruneDirected_mem _ _ c h'
      · have := mergeUndirected_type _ _ c (pruneUndirected_mem _ _ _ c h')
        rw [hct] at this
        cases this
    · have := mergeUndirected_type _ _ c (pruneUndirected_mem _ _ _ c h)
      rw [hct] at this
      cases this
  refine ⟨hdir, ?_⟩
  have hcand : c ∈ (candidatesOf idfOf skills).1 := by
    have hfil := resolveReciprocalDepends_directed_mem _ _ _ c hdir
    exact thresholdCandidates_kept_sub _ _ c (List.mem_of_mem_filter hfil)
  obtain ⟨_, hdep⟩ := collectCandidates_shape skills _ _ _ c hcand
  obtain ⟨s, _, t, _, hsid, htid, hne, _⟩ := hdep hct
  intro heq
  exact hne (by rw [hsid, htid]; exact heq)

/-- Decidable check for a pair of mutually inverse depends_on edges in an
edge list (a self-loop counts as its own inverse). -/
def hasReciprocalDepends (edges : List SkillGraphEdge) : Bool :=
  edges.any (fun e => decide (e.type = EdgeType.depends_on) &&
    edges.any (fun e' => decide (e'.type = EdgeType.depends_on) &&
      decide (e'.fromId = e.toId) && decide (e'.toId = e.fromId)))

/-- C4: for every entry list and every unordered pair of entry ids, the graph
returned by buildSkillGraph never contains both a depends_on edge from a to b
and a depends_on edge from b to a. -/
theorem C4_no_reciprocal_depends (idfOf : ℕ → ℕ → ℚ) (skills : List SkillRecord) :
    hasReciprocalDepends (buildSkillGraph idfOf skills).edges = false := by
  rw [Bool.eq_false_iff]
  intro hcontra
  simp only [hasReciprocalDepends, List.any_eq_true, Bool.and_eq_true,
    decide_eq_true_eq] at hcontra
  obtain ⟨e, he, het, e', he', ⟨het', hfrom⟩, hto⟩ := hcontra
  rw [buildSkillGraph_edges] at he he'
  simp only [edgesOf] at he he'
  rcases List.mem_map.mp (mem_jsSort.mp he) with ⟨c, hc, hceq⟩
  rcases List.mem_map.mp (mem_jsSort.mp he') with ⟨c', hc', hceq'⟩
  have hctype : c.type = .depends_on := by rw [← hceq] at het; exact het
  have hctype' : c'.type = .depends_on := by rw [← hceq'] at het'; exact het'
  obtain ⟨hdirc, hnec⟩ := keptDepends_props idfOf skills c hc hctype
  obtain ⟨hdirc', _⟩ := keptDepends_props idfOf skills c' hc' hctype'
  have hcfrom : c.fromId = e.fromId := by rw [← hceq]; rfl
  have hcto : c.toId = e.toId := by rw [← hceq]; rfl
  have hcfrom' : c'.fromId = e'.fromId := by rw [← hceq']; rfl
  have hcto' : c'.toId = e'.toId := by rw [← hceq']; rfl
  have hkey : pairKey c.fromId c.toId = pairKey c'.fromId c'.toId := by
    rw [hcfrom, hcto, hcfrom', hcto', hfrom, hto, pairKey_comm]
  have hcc : c = c' :=
    resolveReciprocalDepends_unique _ _ _ c hdirc hctype c' hdirc' hctype' hkey
  apply hnec
  calc c.fromId = c'.fromId := by rw [hcc]
    _ = e'.fromId := hcfrom'
    _ = e.toId := hfrom
    _ = c.toId := hcto.symm

end SkillsScanner.GraphBuilder

namespace SkillsScanner.GraphBuilder

open SkillsScanner

/-- Comparator of pruneUndirected's candidate sort. -/
def undirCmp (a b : EdgeCandidate) : ℚ :=
  cmpOr (cmpOr (b.score - a.score) (intCmpQ (strCmp a.fromId b.fromId)))
    (intCmpQ (strCmp a.toId b.toId))

/-- Body of pruneUndirected's greedy degree-capped loop (the `let`-free form
of the fold body, definitionally equal to it). -/
def pruneStep (limit : ℕ) (acc : List (String × ℕ) × List EdgeCandidate × GraphDropReasons)
    (candidate : EdgeCandidate) : List (String × ℕ) × List EdgeCandidate × GraphDropReasons :=
  if (alGet acc.1 candidate.fromId).getD 0 ≥ limit ∨
      (alGet acc.1 candidate.toId).getD 0 ≥ limit then
    (acc.1, acc.2.1, { acc.2.2 with topK := acc.2.2.topK + 1 })
  else
    (upsert (upsert acc.1 candidate.fromId ((alGet acc.1 candidate.fromId).getD 0 + 1))
       candidate.toId ((alGet acc.1 candidate.toId).getD 0 + 1),
     acc.2.1 ++ [candidate], acc.2.2)

/-- pruneUndirected restated through the named comparator and step body. -/
theorem pruneUndirected_eq (cands : List EdgeCandidate) (type : EdgeType)
    (dr : GraphDropReasons) :
    (pruneUndirected cands type dr).1 =
      ((jsSort undirCmp cands).foldl (pruneStep (TOP_K type))
        ((([] : List (String × ℕ)), [], dr))).2.1 := rfl

/-- Invariant of the greedy loop: the number of kept candidates touching any
node is bounded by that node's tracked degree, which never exceeds the
limit. -/
theorem pruneStepFold_inv (limit : ℕ) :
    ∀ (l : List EdgeCandidate) (acc : List (String × ℕ) × List EdgeCandidate × GraphDropReasons),
      (∀ m : String,
        ((acc.2.1.filter (fun c => decide (c.fromId = m) || decide (c.toId = m))).length
          ≤ (alGet acc.1 m).getD 0) ∧ (alGet acc.1 m).getD 0 ≤ limit) →
      ∀ m : String,
        (((l.foldl (pruneStep limit) acc).2.1.filter
          (fun c => decide (c.fromId = m) || decide (c.toId = m))).length
            ≤ (alGet (l.foldl (pruneStep limit) acc).1 m).getD 0) ∧
          (alGet (l.foldl (pruneStep limit) acc).1 m).getD 0 ≤ limit := by
  intro l
  induction l with
  | nil => intro acc h; exact h
  | cons x xs ih =>
    intro acc h
    simp only [List.foldl_cons]
    refine ih _ ?_
    intro m
    by_cases hskip : (alGet acc.1 x.fromId).getD 0 ≥ limit ∨ (alGet acc.1 x.toId).getD 0 ≥ limit
    · have hstep : pruneStep limit acc x =
          (acc.1, acc.2.1, { acc.2.2 with topK := acc.2.2.topK + 1 }) := by
        simp only [pruneStep]
        rw [if_pos hskip]
      rw [hstep]
      exact h m
    · have hfd : (alGet acc.1 x.fromId).getD 0 < limit := by
        rcases not_or.mp hskip with ⟨h1, _⟩
        omega
      have htd : (alGet acc.1 x.toId).getD 0 < limit := by
        rcases not_or.mp hskip with ⟨_, h2⟩
        omega
      have hstep : pruneStep limit acc x =
          (upsert (upsert acc.1 x.fromId ((alGet acc.1 x.fromId).getD 0 + 1))
             x.toId ((alGet acc.1 x.toId).getD 0 + 1),
           acc.2.1 ++ [x], acc.2.2) := by
        simp only [pruneStep]
        rw [if_neg hskip]
      rw [hstep]
      have hdeg : alGet (upsert (upsert acc.1 x.fromId ((alGet acc.1 x.fromId).getD 0 + 1))
          x.toId ((alGet acc.1 x.toId).getD 0 + 1)) m =
          if m = x.toId then some ((alGet acc.1 x.toId).getD 0 + 1)
          else if m = x.fromId then some ((alGet acc.1 x.fromId).getD 0 + 1)
          else alGet acc.1 m := by
        rw [alGet_upsert, alGet_upsert]
      obtain ⟨hlen, hbound⟩ := h m
      by_cases hmto : m = x.toId
      · have hfil : ((acc.2.1 ++ [x]).filter
            (fun c => decide (c.fromId = m) || decide (c.toId = m))).length =
            (acc.2.1.filter (fun c => decide (c.fromId = m) || decide (c.toId = m))).length
              + 1 := by
          rw [List.filter_append, List.length_append]
          have : (List.filter (fun c => decide (c.fromId = m) || decide (c.toId = m))
              [x]).length = 1 := by
            simp [List.filter, hmto.symm]
          rw [this]
        have hold : (alGet acc.1 m).getD 0 = (alGet acc.1 x.toId).getD 0 := by rw [hmto]
        constructor
        · rw [hfil, hdeg, if_pos hmto]
          simp only [Option.getD_some]
          omega
        · rw [hdeg, if_pos hmto]
          simp only [Option.getD_some]
          omega
      · by_cases hmfrom : m = x.fromId
        · have hfil : ((acc.2.1 ++ [x]).filter
              (fun c => decide (c.fromId = m) || decide (c.toId = m))).length =
              (acc.2.1.filter (fun c => decide (c.fromId = m) || decide (c.toId = m))).length
                + 1 := by
            rw [List.filter_append, List.length_append]
            have : (List.filter (fun c => decide (c.fromId = m) || decide (c.toId = m))
                [x]).length = 1 := by
              simp [List.filter, hmfrom.symm]
            rw [this]
          have hold : (alGet acc.1 m).getD 0 = (alGet acc.1 x.fromId).getD 0 := by rw [hmfrom]
          constructor
          · rw [hfil, hdeg, if_neg hmto, if_pos hmfrom]
            simp only [Option.getD_some]
            omega
          · rw [hdeg, if_neg hmto, if_pos hmfrom]
            simp only [Option.getD_some]
            omega
        · have hfil : ((acc.2.1 ++ [x]).filter
              (fun c => decide (c.fromId = m) || decide (c.toId = m))).length =
              (acc.2.1.filter
                (fun c => decide (c.fromId = m) || decide (c.toId = m))).length := by
            rw [List.filter_append, List.length_append]
            have : (List.filter (fun c => decide (c.fromId = m) || decide (c.toId = m))
                [x]).length = 0 := by
              have h1 : ¬ x.fromId = m := fun hc => hmfrom hc.symm
              have h2 : ¬ x.toId = m := fun hc => hmto hc.symm
              simp [List.filter, h1, h2]
            rw [this]
            omega
          rw [hfil, hdeg, if_neg hmto, if_neg hmfrom]
          exact ⟨hlen, hbound⟩

/-- In the output of pruneUndirected, at most `TOP_K type` kept candidates
touch any given node. -/
theorem pruneUndirected_touch_le (cands : List EdgeCandidate) (type : EdgeType)
    (dr : GraphDropReasons) (m : String) :
    ((pruneUndirected cands type dr).1.filter
      (fun c => decide (c.fromId = m) || decide (c.toId = m))).length ≤ TOP_K type := by
  rw [pruneUndirected_eq]
  have := pruneStepFold_inv (TOP_K type) (jsSort undirCmp cands)
    ((([] : List (String × ℕ)), [], dr))
    (by intro m'; constructor <;> simp [alGet]) m
  exact le_trans this.1 this.2

end SkillsScanner.GraphBuilder

namespace SkillsScanner

/-- Filtering a mapped list keeps as many elements as filtering the original
through the composed predicate. -/
theorem length_filter_map {α β : Type} (f : α → β) (p : β → Bool) :
    ∀ (l : List α), ((l.map f).filter p).length = (l.filter (fun a => p (f a))).length := by
  intro l
  induction l with
  | nil => rfl
  | cons x xs ih =>
    by_cases h : p (f x) = true
    · simp [List.filter_cons, h, ih]
    · simp only [Bool.not_eq_true] at h
      simp [List.filter_cons, h, ih]

/-- A filter whose predicate fails on every element is empty. -/
theorem filter_false_nil {α : Type} {p : α → Bool} :
    ∀ {l : List α}, (∀ a ∈ l, p a = false) → l.filter p = [] := by
  intro l
  induction l with
  | nil => intro _; rfl
  | cons x xs ih =>
    intro h
    rw [List.filter_cons, h x (List.mem_cons_self x xs)]
    simpa using ih (fun a ha => h a (List.mem_cons_of_mem _ ha))

end SkillsScanner

namespace SkillsScanner.GraphBuilder

open SkillsScanner

/-- Candidates surviving directed pruning carry a directed edge type. -/
theorem prunedDirected_types (idfOf : ℕ → ℕ → ℚ) (skills : List SkillRecord) :
    ∀ c ∈ (prunedDirectedOf idfOf skills).1, DIRECTED_TYPES c.type = true := by
  intro c hc
  have hdir := pruneDirected_mem _ _ c hc
  have hfil := resolveReciprocalDepends_directed_mem _ _ _ c hdir
  exact (List.mem_filter.mp hfil).2

/-- At most five kept complements candidates touch any node. -/
theorem kept_complements_touch (idfOf : ℕ → ℕ → ℚ) (skills : List SkillRecord) (node : String) :
    ((keptCandidatesOf idfOf skills).filter
      (fun c => decide (c.type = EdgeType.complements) &&
        (decide (c.fromId = node) || decide (c.toId = node)))).length ≤ 5 := by
  unfold keptCandidatesOf
  rw [List.filter_append, List.filter_append]
  have hA : ((prunedDirectedOf idfOf skills).1.filter
      (fun c => decide (c.type = EdgeType.complements) &&
        (decide (c.fromId = node) || decide (c.toId = node)))) = [] := by
    apply filter_false_nil
    intro c hcmem
    have hd := prunedDirected_types idfOf skills c hcmem
    simp only [DIRECTED_TYPES, decide_eq_true_eq] at hd
    have hne : ¬ (c.type = EdgeType.complements) := by
      rcases hd with h | h <;> rw [h] <;> intro hcon <;> cases hcon
    simp [hne]
  have hC : ((prunedAlternativesOf idfOf skills).1.filter
      (fun c => decide (c.type = EdgeType.complements) &&
        (decide (c.fromId = node) || decide (c.toId = node)))) = [] := by
    apply filter_false_nil
    intro c hcmem
    have ht := mergeUndirected_type _ _ c (pruneUndirected_mem _ _ _ c hcmem)
    have hne : ¬ (c.type = EdgeType.complements) := by
      rw [ht]
      intro hcon
      cases hcon
    simp [hne]
  have hB : ((prunedComplementsOf idfOf skills).1.filter
      (fun c => decide (c.type = EdgeType.complements) &&
        (decide (c.fromId = node) || decide (c.toId = node)))).length ≤ 5 := by
    have hcongr : ((prunedComplementsOf idfOf skills).1.filter
        (fun c => decide (c.type = EdgeType.complements) &&
          (decide (c.fromId = node) || decide (c.toId = node)))) =
        ((prunedComplementsOf idfOf skills).1.filter
          (fun c => decide (c.fromId = node) || decide (c.toId = node))) := by
      apply List.filter_congr
      intro c hcmem
      have ht := mergeUndirected_type _ _ c (pruneUndirected_mem _ _ _ c hcmem)
      simp [ht]
    rw [hcongr]
    exact pruneUndirected_touch_le (mergedComplementsOf idfOf skills) .complements
      (prunedDirectedOf idfOf skills).2 node
  rw [hA, hC]
  simpa using hB

/-- At most three kept alternative_to candidates touch any node. -/
theorem kept_alternatives_touch (idfOf : ℕ → ℕ → ℚ) (skills : List SkillRecord) (node : String) :
    ((keptCandidatesOf idfOf skills).filter
      (fun c => decide (c.type = EdgeType.alternative_to) &&
        (decide (c.fromId = node) || decide (c.toId = node)))).length ≤ 3 := by
  unfold keptCandidatesOf
  rw [List.filter_append, List.filter_append]
  have hA : ((prunedDirectedOf idfOf skills).1.filter
      (fun c => decide (c.type = EdgeType.alternative_to) &&
        (decide (c.fromId = node) || decide (c.toId = node)))) = [] := by
    apply filter_false_nil
    intro c hcmem
    have hd := prunedDirected_types idfOf skills c hcmem
    simp only [DIRECTED_TYPES, decide_eq_true_eq] at hd
    have hne : ¬ (c.type = EdgeType.alternative_to) := by
      rcases hd with h | h <;> rw [h] <;> intro hcon <;> cases hcon
    simp [hne]
  have hB : ((prunedComplementsOf idfOf skills).1.filter
      (fun c => decide (c.type = EdgeType.alternative_to) &&
        (decide (c.fromId = node) || decide (c.toId = node)))) = [] := by
    apply filter_false_nil
    intro c hcmem
    have ht := mergeUndirected_type _ _ c (pruneUndirected_mem _ _ _ c hcmem)
    have hne : ¬ (c.type = EdgeType.alternative_to) := by
      rw [ht]
      intro hcon
      cases hcon
    simp [hne]
  have hC : ((prunedAlternativesOf idfOf skills).1.filter
      (fun c => decide (c.type = EdgeType.alternative_to) &&
        (decide (c.fromId = node) || decide (c.toId = node)))).length ≤ 3 := by
    have hcongr : ((prunedAlternativesOf idfOf skills).1.filter
        (fun c => decide (c.type = EdgeType.alternative_to) &&
          (decide (c.fromId = node) || decide (c.toId = node)))) =
        ((prunedAlternativesOf idfOf skills).1.filter
          (fun c => decide (c.fromId = node) || decide (c.toId = node))) := by
      apply List.filter_congr
      intro c hcmem
      have ht := mergeUndirected_type _ _ c (pruneUndirected_mem _ _ _ c hcmem)
      simp [ht]
    rw [hcongr]
    exact pruneUndirected_touch_le
      (mergeUndirectedCandidates
        ((thresholdedOf idfOf skills).1.filter (fun c => c.type = .alternative_to))
        .alternative_to)
      .alternative_to (prunedComplementsOf idfOf skills).2 node
  rw [hA, hB]
  simpa using hC

/-- Counting filtered edges equals counting the kept candidates they render. -/
theorem edges_filter_len (idfOf : ℕ → ℕ → ℚ) (skills : List SkillRecord)
    (p : SkillGraphEdge → Bool) :
    ((edgesOf idfOf skills).filter p).length =
      ((keptCandidatesOf idfOf skills).filter (fun c => p (edgeOfCandidate c))).length := by
  unfold edgesOf
  rw [((jsSort_perm _ _).filter p).length_eq]
  exact length_filter_map edgeOfCandidate p _

/-- Number of edges of one type touching a node (its degree within the
type). -/
def undirectedDegree (edges : List SkillGraphEdge) (type : EdgeType) (node : String) : ℕ :=
  (edges.filter (fun e => decide (e.type = type) &&
    (decide (e.fromId = node) || decide (e.toId = node)))).length

/-- C5: in the graph returned by buildSkillGraph, every node's degree over
kept edges of each undirected type respects the configured cap — at most 5
complements edges and at most 3 alternative_to edges touch any single
node. -/
theorem C5_degree_caps (idfOf : ℕ → ℕ → ℚ) (skills : List SkillRecord) (node : String) :
    undirectedDegree (buildSkillGraph idfOf skills).edges .complements node ≤ 5 ∧
    undirectedDegree (buildSkillGraph idfOf skills).edges .alternative_to node ≤ 3 := by
  rw [buildSkillGraph_edges]
  constructor
  · unfold undirectedDegree
    rw [edges_filter_len idfOf skills
      (fun e => decide (e.type = EdgeType.complements) &&
        (decide (e.fromId = node) || decide (e.toId = node)))]
    exact kept_complements_touch idfOf skills node
  · unfold undirectedDegree
    rw [edges_filter_len idfOf skills
      (fun e => decide (e.type = EdgeType.alternative_to) &&
        (decide (e.fromId = node) || decide (e.toId = node)))]
    exact kept_alternatives_touch idfOf skills node

end SkillsScanner.GraphBuilder

namespace SkillsScanner

/-- Appending a fresh element preserves duplicate-freedom. -/
theorem nodup_snoc {α : Type} {l : List α} {a : α} (h : l.Nodup) (ha : a ∉ l) :
    (l ++ [a]).Nodup := by
  induction l with
  | nil => simp
  | cons x xs ih =>
    rcases List.nodup_cons.mp h with ⟨hx, hxs⟩
    have ha' : a ∉ xs := fun hc => ha (List.mem_cons_of_mem _ hc)
    have hax : ¬ a = x := fun hc => ha (by rw [hc]; exact List.mem_cons_self _ _)
    refine List.nodup_cons.mpr ⟨?_, ih hxs ha'⟩
    intro hc
    rcases List.mem_append.mp hc with h' | h'
    · exact hx h'
    · exact hax (List.mem_singleton.mp h').symm

end SkillsScanner

namespace SkillsScanner.TagVocabulary

open SkillsScanner

set_option maxRecDepth 1000000 in
/-- Every tag a field's allow-list admits maps to itself through mapRawTag
with no issue (each allowed tag is a vocabulary member fixed by trimming and
canonicalization). -/
theorem allowed_fixed :
    ∀ (field : MachineField), ∀ t ∈ FIELD_ALLOWED field, mapRawTag t = (some t, none) := by
  intro field
  cases field <;> decide

end SkillsScanner.TagVocabulary

namespace SkillsScanner.TagVocabulary

open SkillsScanner

/-- Invariant of sanitizeTagField's loop: accepted tags always pass the
field's allow-list and stay duplicate-free. -/
theorem sanitizeFold_inv (field : MachineField) (allowed : List String) :
    ∀ (l : List String) (acc : List String × List InvalidTagIssue),
      (∀ t ∈ acc.1, allowed.contains t = true) → acc.1.Nodup →
      (∀ t ∈ (l.foldl (sanitizeStep field allowed) acc).1, allowed.contains t = true) ∧
        (l.foldl (sanitizeStep field allowed) acc).1.Nodup := by
  intro l
  induction l with
  | nil => intro acc h1 h2; exact ⟨h1, h2⟩
  | cons x xs ih =>
    intro acc h1 h2
    simp only [List.foldl_cons]
    have hstep : (∀ t ∈ (sanitizeStep field allowed acc x).1, allowed.contains t = true) ∧
        (sanitizeStep field allowed acc x).1.Nodup := by
      unfold sanitizeStep
      dsimp only
      split
      · exact ⟨h1, h2⟩
      · next mapped heq =>
        split
        · next hnal =>
          split
          · next hart =>
            split
            · next corrected hcor =>
              split
              · next hcal =>
                by_cases hin : corrected ∈ acc.1
                · rw [if_pos hin]
                  exact ⟨h1, h2⟩
                · rw [if_neg hin]
                  refine ⟨?_, nodup_snoc h2 hin⟩
                  intro t ht
                  rcases List.mem_append.mp ht with h | h
                  · exact h1 t h
                  · rw [List.mem_singleton.mp h]
                    exact hcal
              · exact ⟨h1, h2⟩
            · exact ⟨h1, h2⟩
          · exact ⟨h1, h2⟩
        · next hallow =>
          have hal : allowed.contains mapped = true := not_not.mp hallow
          by_cases hin : mapped ∈ acc.1
          · rw [if_pos hin]
            exact ⟨h1, h2⟩
          · rw [if_neg hin]
            refine ⟨?_, nodup_snoc h2 hin⟩
            intro t ht
            rcases List.mem_append.mp ht with h | h
            · exact h1 t h
            · rw [List.mem_singleton.mp h]
              exact hal
    exact ih _ hstep.1 hstep.2

/-- Running sanitizeTagField's loop over already-canonical, allowed,
duplicate-free tags reproduces them verbatim and raises no issue. -/
theorem sanitizeFold_id (field : MachineField) (allowed : List String) :
    ∀ (l done : List String) (issues : List InvalidTagIssue),
      (∀ t ∈ l, allowed.contains t = true ∧ mapRawTag t = (some t, none)) →
      (done ++ l).Nodup →
      l.foldl (sanitizeStep field allowed) (done, issues) = (done ++ l, issues) := by
  intro l
  induction l with
  | nil => intro done issues _ _; simp
  | cons x xs ih =>
    intro done issues hl hnd
    obtain ⟨hal, hmap⟩ := hl x (List.mem_cons_self x xs)
    have hxnotin : x ∉ done := by
      rcases (List.nodup_append.mp hnd) with ⟨_, _, hdisj⟩
      intro hc
      exact hdisj hc (List.mem_cons_self x xs)
    have hstep : sanitizeStep field allowed (done, issues) x = (done ++ [x], issues) := by
      unfold sanitizeStep
      rw [hmap]
      dsimp only
      rw [if_neg (not_not_intro hal), if_neg hxnotin]
    simp only [List.foldl_cons, hstep]
    have hnd' : ((done ++ [x]) ++ xs).Nodup := by
      rw [List.append_assoc]
      simpa using hnd
    rw [ih (done ++ [x]) issues (fun t ht => hl t (List.mem_cons_of_mem _ ht)) hnd']
    simp

/-- sanitizeTagField is idempotent on its own tag output: feeding the
accepted tags back through the same field reproduces them with no issues. -/
theorem sanitizeTagField_id (rawTags : List String) (field : MachineField) :
    sanitizeTagField ((sanitizeTagField rawTags field).1) field =
      ((sanitizeTagField rawTags field).1, []) := by
  have hinv := sanitizeFold_inv field (FIELD_ALLOWED field) (rawTags.take 24) ([], [])
    (by simp) (by simp)
  have hsub : ∀ t ∈ (sanitizeTagField rawTags field).1,
      (FIELD_ALLOWED field).contains t = true := by
    intro t ht
    exact hinv.1 t (List.take_subset _ _ ht)
  have hnd : (sanitizeTagField rawTags field).1.Nodup :=
    (List.take_sublist _ _).nodup hinv.2
  have hlen : (sanitizeTagField rawTags field).1.length ≤ 8 := by
    have : (sanitizeTagField rawTags field).1.length ≤ 8 := by
      simpa [sanitizeTagField] using
        List.length_take_le 8
          (((rawTags.take 24).foldl (sanitizeStep field (FIELD_ALLOWED field)) ([], [])).1)
    exact this
  have htake24 : ((sanitizeTagField rawTags field).1).take 24 =
      (sanitizeTagField rawTags field).1 :=
    List.take_of_length_le (le_trans hlen (by omega))
  have hfold := sanitizeFold_id field (FIELD_ALLOWED field)
    ((sanitizeTagField rawTags field).1) [] []
    (fun t ht => ⟨hsub t ht, allowed_fixed field t (contains_iff_mem.mp (hsub t ht))⟩)
    (by simpa using hnd)
  show (((((sanitizeTagField rawTags field).1).take 24).foldl
      (sanitizeStep field (FIELD_ALLOWED field)) ([], [])).1.take 8,
    ((((sanitizeTagField rawTags field).1).take 24).foldl
      (sanitizeStep field (FIELD_ALLOWED field)) ([], [])).2) = _
  rw [htake24, hfold]
  simp [List.take_of_length_le hlen]

end SkillsScanner.TagVocabulary

namespace SkillsScanner.TagVocabulary

open SkillsScanner

/-- Record extensionality for the three tag fields. -/
theorem mts_ext {a b : MachineTagSemantics} (h1 : a.inputsTags = b.inputsTags)
    (h2 : a.artifactsTags = b.artifactsTags) (h3 : a.capabilitiesTags = b.capabilitiesTags) :
    a = b := by
  cases a
  cases b
  cases h1
  cases h2
  cases h3
  rfl

/-- C8: the sanitizer is idempotent — feeding the canonical tag record
produced by sanitizeMachineTags back through sanitizeMachineTags returns
exactly the same tag lists for every field (each accepted canonical tag maps
to itself and remains allowed for its field). -/
theorem C8_sanitize_idempotent (raw : MachineTagSemantics) :
    (sanitizeMachineTags (sanitizeMachineTags raw).1).1 = (sanitizeMachineTags raw).1 := by
  apply mts_ext
  · have h : (sanitizeTagField ((sanitizeTagField raw.inputsTags .inputsTags).1)
        .inputsTags).1 = (sanitizeTagField raw.inputsTags .inputsTags).1 := by
      rw [sanitizeTagField_id]
    exact h
  · have h : (sanitizeTagField ((sanitizeTagField raw.artifactsTags .artifactsTags).1)
        .artifactsTags).1 = (sanitizeTagField raw.artifactsTags .artifactsTags).1 := by
      rw [sanitizeTagField_id]
    exact h
  · have h : (sanitizeTagField ((sanitizeTagField raw.capabilitiesTags .capabilitiesTags).1)
        .capabilitiesTags).1 = (sanitizeTagField raw.capabilitiesTags .capabilitiesTags).1 := by
      rw [sanitizeTagField_id]
    exact h

/-- C9: every tag in the artifactsTags output of sanitizeMachineTags is a
member of the artifacts allow-list, for every raw input record; and a mapped
tag outside that allow-list is never emitted as-is: when the fixed artifact
autocorrect table maps it to an allowed tag, that corrected tag is appended
instead (deduplicated, no issue recorded for the candidate), and otherwise
the candidate is dropped with a field_not_allowed issue naming the mapped
tag. -/
theorem C9_artifacts_allowlist :
    (∀ (raw : MachineTagSemantics), ∀ t ∈ (sanitizeMachineTags raw).1.artifactsTags,
      t ∈ ARTIFACT_TAGS_ALLOWED) ∧
    (∀ (acc : List String × List InvalidTagIssue) (candidate mapped corrected : String),
      (mapRawTag candidate).1 = some mapped →
      ¬ ARTIFACT_TAGS_ALLOWED.contains mapped = true →
      alGet ARTIFACT_FIELD_AUTOCORRECT mapped = some corrected →
      ARTIFACT_TAGS_ALLOWED.contains corrected = true →
      sanitizeStep .artifactsTags (FIELD_ALLOWED .artifactsTags) acc candidate =
        ((if corrected ∈ acc.1 then acc.1 else acc.1 ++ [corrected]), acc.2)) ∧
    (∀ (acc : List String × List InvalidTagIssue) (candidate mapped : String),
      (mapRawTag candidate).1 = some mapped →
      ¬ ARTIFACT_TAGS_ALLOWED.contains mapped = true →
      (alGet ARTIFACT_FIELD_AUTOCORRECT mapped = none ∨
        ∃ corrected, alGet ARTIFACT_FIELD_AUTOCORRECT mapped = some corrected ∧
          ¬ ARTIFACT_TAGS_ALLOWED.contains corrected = true) →
      (sanitizeStep .artifactsTags (FIELD_ALLOWED .artifactsTags) acc candidate).1 = acc.1 ∧
      ({ field := .artifactsTags, rawTag := candidate, mappedTo := some mapped,
         reason := some .field_not_allowed } : InvalidTagIssue) ∈
        (sanitizeStep .artifactsTags (FIELD_ALLOWED .artifactsTags) acc candidate).2) := by
  refine ⟨?_, ?_, ?_⟩
  · intro raw t ht
    have hinv := sanitizeFold_inv .artifactsTags (FIELD_ALLOWED .artifactsTags)
      (raw.artifactsTags.take 24) ([], []) (by simp) (by simp)
    have hmem : t ∈ ((raw.artifactsTags.take 24).foldl
        (sanitizeStep .artifactsTags (FIELD_ALLOWED .artifactsTags)) ([], [])).1 :=
      List.take_subset _ _ ht
    exact contains_iff_mem.mp (hinv.1 t hmem)
  · intro acc candidate mapped corrected hmap hnal hcor hcal
    have hnal' : ¬ (FIELD_ALLOWED MachineField.artifactsTags).contains mapped = true := hnal
    have hcal' : (FIELD_ALLOWED MachineField.artifactsTags).contains corrected = true := hcal
    unfold sanitizeStep
    dsimp only
    rw [hmap]
    dsimp only
    rw [if_pos hnal', if_pos rfl, hcor]
    dsimp only
    rw [if_pos hcal']
  · intro acc candidate mapped hmap hnal hbad
    have hnal' : ¬ (FIELD_ALLOWED MachineField.artifactsTags).contains mapped = true := hnal
    unfold sanitizeStep
    dsimp only
    rw [hmap]
    dsimp only
    rw [if_pos hnal', if_pos rfl]
    have hfall : ∀ (l : List InvalidTagIssue),
        ({ field := .artifactsTags, rawTag := candidate, mappedTo := some mapped,
           reason := some .field_not_allowed } : InvalidTagIssue) ∈
          (match (mapRawTag candidate).2 with
           | some issue =>
             (l ++ [({ field := .artifactsTags, rawTag := candidate, mappedTo := some mapped,
                       reason := some .field_not_allowed } : InvalidTagIssue)]) ++
               [({ issue with field := MachineField.artifactsTags } : InvalidTagIssue)]
           | none =>
             l ++ [({ field := .artifactsTags, rawTag := candidate, mappedTo := some mapped,
                      reason := some .field_not_allowed } : InvalidTagIssue)]) := by
      intro l
      cases hm2 : (mapRawTag candidate).2 with
      | none =>
        exact List.mem_append.mpr (Or.inr (List.mem_singleton.mpr rfl))
      | some issue =>
        exact List.mem_append.mpr
          (Or.inl (List.mem_append.mpr (Or.inr (List.mem_singleton.mpr rfl))))
    rcases hbad with hnone | ⟨corrected, hcor, hncal⟩
    · rw [hnone]
      dsimp only
      exact ⟨rfl, hfall acc.2⟩
    · have hncal' : ¬ (FIELD_ALLOWED MachineField.artifactsTags).contains corrected = true :=
        hncal
      rw [hcor]
      dsimp only
      rw [if_neg hncal']
      exact ⟨rfl, hfall acc.2⟩

end SkillsScanner.TagVocabulary

namespace SkillsScanner.WorkflowAssembler

open SkillsScanner

/-- The step identifier assembleWorkflow derives (`step.id || step-N`). -/
def stepIdOf (indexed : ℕ × WorkflowPlanStep) : String :=
  match indexed.2.id with
  | some s => if s = "" then "step-" ++ toString (indexed.1 + 1) else s
  | none => "step-" ++ toString (indexed.1 + 1)

/-- The step title assembleWorkflow derives (`step.title || stage step N`). -/
def titleOf (indexed : ℕ × WorkflowPlanStep) : String :=
  match indexed.2.title with
  | some t =>
    if t = "" then stageName indexed.2.stage ++ " step " ++ toString (indexed.1 + 1) else t
  | none => stageName indexed.2.stage ++ " step " ++ toString (indexed.1 + 1)

/-- The locked skill id for a step (`options.lockedSkillByStepId?.[stepId] ||
null`). -/
def lockedIdOf (options : AssemblerGraphOptions) (stepId : String) : Option String :=
  match alGet options.lockedSkillByStepId stepId with
  | some s => if s = "" then none else some s
  | none => none

/-- The sorted per-step evaluations of every catalog entry. -/
def stepEvalsOf (expOf : ℚ → ℚ) (skills : List SkillRecord)
    (edgeLookup : List (String × List EdgeType)) (options : AssemblerGraphOptions)
    (state : AssembleState) (indexed : ℕ × WorkflowPlanStep) : List StepEvaluation :=
  jsSort
    (fun a b =>
      cmpOr (b.score - a.score) (intCmpQ (strCmp a.candidate.skillId b.candidate.skillId)))
    (skills.map (fun skill =>
      evaluateCandidate expOf indexed.2 skill state.previousSelected edgeLookup
        options.feedbackEntries))

/-- The by-id index over the evaluations. -/
def evalByIdOf (evals : List StepEvaluation) : List (String × StepEvaluation) :=
  evals.foldl (fun m entry => upsert m entry.candidate.skillId entry) []

/-- The evaluation of the locked skill, when a lock names a catalog entry. -/
def stepLockedOf (expOf : ℚ → ℚ) (skills : List SkillRecord)
    (edgeLookup : List (String × List EdgeType)) (options : AssemblerGraphOptions)
    (state : AssembleState) (indexed : ℕ × WorkflowPlanStep) : Option StepEvaluation :=
  (lockedIdOf options (stepIdOf indexed)).bind
    (fun lid => alGet (evalByIdOf (stepEvalsOf expOf skills edgeLookup options state indexed)) lid)

/-- The selectable evaluations (score at least 1.15 and a matched tag or a
positive graph boost). -/
def selectableOf (evals : List StepEvaluation) : List StepEvaluation :=
  evals.filter
    (fun entry =>
      entry.score ≥ MIN_SELECTABLE_SCORE ∧ (entry.matchedTags.length > 0 ∨ entry.graphBoost > 0))

/-- The step's winning evaluation (`lockedEvaluation || selectable[0] ||
null`). -/
def stepWinnerOf (expOf : ℚ → ℚ) (skills : List SkillRecord)
    (edgeLookup : List (String × List EdgeType)) (options : AssemblerGraphOptions)
    (state : AssembleState) (indexed : ℕ × WorkflowPlanStep) : Option StepEvaluation :=
  (stepLockedOf expOf skills edgeLookup options state indexed).orElse
    (fun _ => (selectableOf (stepEvalsOf expOf skills edgeLookup options state indexed)).head?)

/-- The winner candidate, with the locked-selection reasoning prefix. -/
def stepWinnerCandidateOf (expOf : ℚ → ℚ) (skills : List SkillRecord)
    (edgeLookup : List (String × List EdgeType)) (options : AssemblerGraphOptions)
    (state : AssembleState) (indexed : ℕ × WorkflowPlanStep) : Option WorkflowSkillCandidate :=
  (stepWinnerOf expOf skills edgeLookup options state indexed).map
    (fun w =>
      if (stepLockedOf expOf skills edgeLookup options state indexed).isSome then
        { w.candidate with reasoning := "locked selection | " ++ w.candidate.reasoning }
      else w.candidate)

/-- The step's reported alternatives. -/
def stepAlternativesOf (expOf : ℚ → ℚ) (skills : List SkillRecord)
    (edgeLookup : List (String × List EdgeType)) (options : AssemblerGraphOptions)
    (altLimit : ℕ) (state : AssembleState) (indexed : ℕ × WorkflowPlanStep) :
    List WorkflowSkillCandidate :=
  (((selectableOf (stepEvalsOf expOf skills edgeLookup options state indexed)).filter
    (fun entry =>
      match stepWinnerCandidateOf expOf skills edgeLookup options state indexed with
      | some wc => entry.candidate.skillId ≠ wc.skillId
      | none => true)).take altLimit).map (·.candidate)

/-- The step's missing tags (the winner's missing list, or the full
normalized requirement union when no winner exists). -/
def stepMissingOf (expOf : ℚ → ℚ) (skills : List SkillRecord)
    (edgeLookup : List (String × List EdgeType)) (options : AssemblerGraphOptions)
    (state : AssembleState) (indexed : ℕ × WorkflowPlanStep) : List String :=
  match stepWinnerOf expOf skills edgeLookup options state indexed with
  | some w => w.missingTags
  | none => normalizeTags (indexed.2.inputsTags ++ indexed.2.outputsTags ++
      indexed.2.capabilitiesTags.getD [])

/-- The step's overlap tags. -/
def stepOverlapOf (expOf : ℚ → ℚ) (skills : List SkillRecord)
    (edgeLookup : List (String × List EdgeType)) (options : AssemblerGraphOptions)
    (state : AssembleState) (indexed : ℕ × WorkflowPlanStep) : List String :=
  match stepWinnerOf expOf skills edgeLookup options state indexed with
  | some w => w.matchedTags
  | none => []

/-- The winner-dependent part of the state update. -/
def stepAfterWinnerOf (skillsById : List (String × SkillRecord)) (stepId : String)
    (winnerCandidate : Option WorkflowSkillCandidate) (state : AssembleState) : AssembleState :=
  match winnerCandidate with
  | some wc =>
    { state with
      selected := state.selected ++ [wc]
      reasoning := upsert state.reasoning stepId wc.reasoning
      previousSelected := alGet skillsById wc.skillId }
  | none =>
    { state with
      reasoning := upsert state.reasoning stepId
        "No candidate met minimum score/overlap constraints"
      previousSelected := none }

/-- The step-assembly record assembleWorkflow appends for one step. -/
def stepRecordOf (expOf : ℚ → ℚ) (skills : List SkillRecord)
    (edgeLookup : List (String × List EdgeType)) (options : AssemblerGraphOptions)
    (altLimit : ℕ) (state : AssembleState) (indexed : ℕ × WorkflowPlanStep) :
    WorkflowStepAssembly :=
  { stepId := stepIdOf indexed
    title := titleOf indexed
    stage := indexed.2.stage
    selected := stepWinnerCandidateOf expOf skills edgeLookup options state indexed
    alternatives := stepAlternativesOf expOf skills edgeLookup options altLimit state indexed
    overlapTags := stepOverlapOf expOf skills edgeLookup options state indexed
    missingCapabilities := stepMissingOf expOf skills edgeLookup options state indexed
    locked := (stepWinnerCandidateOf expOf skills edgeLookup options state indexed).isSome ∧
      (stepLockedOf expOf skills edgeLookup options state indexed).isSome }

/-- assembleStep restated through the staged definitions (a definitional
re-grouping of its `let`-sequence). -/
theorem assembleStep_eq (expOf : ℚ → ℚ) (skills : List SkillRecord)
    (skillsById : List (String × SkillRecord)) (edgeLookup : List (String × List EdgeType))
    (altLimit : ℕ) (options : AssemblerGraphOptions) (state : AssembleState)
    (indexed : ℕ × WorkflowPlanStep) :
    assembleStep expOf skills skillsById edgeLookup altLimit options state indexed =
      { stepAfterWinnerOf skillsById (stepIdOf indexed)
          (stepWinnerCandidateOf expOf skills edgeLookup options state indexed) state with
        alternatives := upsert
          (stepAfterWinnerOf skillsById (stepIdOf indexed)
            (stepWinnerCandidateOf expOf skills edgeLookup options state indexed)
            state).alternatives
          (stepIdOf indexed)
          (stepAlternativesOf expOf skills edgeLookup options altLimit state indexed)
        missingGlobal := (stepMissingOf expOf skills edgeLookup options state indexed).foldl
          (fun acc tag => if tag ∈ acc then acc else acc ++ [tag]) state.missingGlobal
        steps := (stepAfterWinnerOf skillsById (stepIdOf indexed)
            (stepWinnerCandidateOf expOf skills edgeLookup options state indexed)
            state).steps ++
          [stepRecordOf expOf skills edgeLookup options altLimit state indexed] } := rfl

end SkillsScanner.WorkflowAssembler

namespace SkillsScanner.WorkflowAssembler

open SkillsScanner

/-- The winner-dependent update never rewrites the accumulated step list. -/
theorem stepAfterWinnerOf_steps (skillsById : List (String × SkillRecord)) (stepId : String)
    (wc : Option WorkflowSkillCandidate) (state : AssembleState) :
    (stepAfterWinnerOf skillsById stepId wc state).steps = state.steps := by
  cases wc <;> rfl

/-- C6: a lock naming a catalog entry makes that entry the step's winner,
with its ordinary evaluation carried over (no score or overlap requirement)
and a locked-selection reasoning prefix; a lock naming no catalog entry is
ignored and the top selectable candidate (or null) wins, unlocked. -/
theorem C6_locked_winner (expOf : ℚ → ℚ) (skills : List SkillRecord)
    (skillsById : List (String × SkillRecord)) (edgeLookup : List (String × List EdgeType))
    (altLimit : ℕ) (options : AssemblerGraphOptions) (state : AssembleState)
    (indexed : ℕ × WorkflowPlanStep) (lid : String)
    (hlid : lockedIdOf options (stepIdOf indexed) = some lid) :
    (∀ e : StepEvaluation,
      alGet (evalByIdOf (stepEvalsOf expOf skills edgeLookup options state indexed)) lid =
        some e →
      (assembleStep expOf skills skillsById edgeLookup altLimit options state indexed).steps =
        state.steps ++ [stepRecordOf expOf skills edgeLookup options altLimit state indexed] ∧
      stepWinnerCandidateOf expOf skills edgeLookup options state indexed =
        some { e.candidate with reasoning := "locked selection | " ++ e.candidate.reasoning } ∧
      (stepRecordOf expOf skills edgeLookup options altLimit state indexed).locked = true) ∧
    (alGet (evalByIdOf (stepEvalsOf expOf skills edgeLookup options state indexed)) lid =
        none →
      stepWinnerCandidateOf expOf skills edgeLookup options state indexed =
        ((selectableOf (stepEvalsOf expOf skills edgeLookup options state indexed)).head?).map
          (fun w => w.candidate) ∧
      (stepRecordOf expOf skills edgeLookup options altLimit state indexed).locked = false) := by
  constructor
  · intro e he
    have hle : stepLockedOf expOf skills edgeLookup options state indexed = some e := by
      unfold stepLockedOf
      rw [hlid]
      exact he
    have hw : stepWinnerOf expOf skills edgeLookup options state indexed = some e := by
      unfold stepWinnerOf
      rw [hle]
      rfl
    have hwc : stepWinnerCandidateOf expOf skills edgeLookup options state indexed =
        some { e.candidate with reasoning := "locked selection | " ++ e.candidate.reasoning } := by
      unfold stepWinnerCandidateOf
      rw [hle, hw]
      rfl
    refine ⟨?_, hwc, ?_⟩
    · rw [assembleStep_eq]
      dsimp only
      rw [stepAfterWinnerOf_steps]
    · unfold stepRecordOf
      dsimp only
      rw [hwc, hle]
      simp
  · intro he
    have hle : stepLockedOf expOf skills edgeLookup options state indexed = none := by
      unfold stepLockedOf
      rw [hlid]
      exact he
    have hwc : stepWinnerCandidateOf expOf skills edgeLookup options state indexed =
        ((selectableOf (stepEvalsOf expOf skills edgeLookup options state indexed)).head?).map
          (fun w => w.candidate) := by
      unfold stepWinnerCandidateOf stepWinnerOf
      rw [hle]
      rfl
    refine ⟨hwc, ?_⟩
    unfold stepRecordOf
    dsimp only
    rw [hle]
    simp

end SkillsScanner.WorkflowAssembler

namespace SkillsScanner.WorkflowAssembler

open SkillsScanner

/-- C6 example: a plan step requiring "spec" at intake. -/
def exStepC6 : WorkflowPlanStep :=
  { id := some "s", title := some "t", stage := .intake, inputsTags := ["spec"],
    outputsTags := [], capabilitiesTags := none }

/-- C6 example: a one-entry catalog whose entry matches nothing in the step
(stage distance 6, no shared tags, so its score is 0, below the 1.15 bar). -/
def exSkillsC6 : List SkillRecord :=
  [⟨"s1", "s1", .docs, [], [], []⟩]

/-- C6 example: options locking step "s" to entry "s1". -/
def exOptsC6 : AssemblerGraphOptions :=
  { graph := some none, alternativesLimit := none,
    lockedSkillByStepId := [("s", "s1")], feedbackEntries := none }

/-- C6 example: the assembler's initial loop state. -/
def exState0C6 : AssembleState :=
  { selected := [], alternatives := [], reasoning := [], steps := [], missingGlobal := [],
    previousSelected := none }

/-- C6 example: a trivial exponential oracle (confidence evaluates to 1/2). -/
def exExpC6 : ℚ → ℚ := fun _ => 1

/-- C6 example: the evaluation of entry "s1" against the step. -/
def exEvalC6 : StepEvaluation :=
  { candidate :=
      { skillId := "s1", name := "s1", stage := .docs, score := 0, confidence := mkRat 1 2,
        matchedTags := [], reasoning := "low tag overlap" }
    score := 0
    matchedTags := []
    missingTags := ["spec"]
    graphBoost := 0 }

/-- C6 (witness): on the concrete corpus the locked entry "s1" wins its step
with the locked-reasoning prefix, although its score 0 is far below the
selectable bar. -/
theorem C6_locked_winner_witness :
    lockedIdOf exOptsC6 (stepIdOf (0, exStepC6)) = some "s1" ∧
    stepWinnerCandidateOf exExpC6 exSkillsC6 [] exOptsC6 exState0C6 (0, exStepC6) =
      some { skillId := "s1", name := "s1", stage := .docs, score := 0,
             confidence := mkRat 1 2, matchedTags := [],
             reasoning := "locked selection | low tag overlap" } ∧
    (stepRecordOf exExpC6 exSkillsC6 [] exOptsC6 3 exState0C6 (0, exStepC6)).locked = true :=
  ⟨by decide,
   by
     have h := (C6_locked_winner exExpC6 exSkillsC6 [] [] 3 exOptsC6 exState0C6 (0, exStepC6)
       "s1" (by decide)).1 exEvalC6 (by decide)
     exact h.2.1.trans (by decide),
   by
     have h := (C6_locked_winner exExpC6 exSkillsC6 [] [] 3 exOptsC6 exState0C6 (0, exStepC6)
       "s1" (by decide)).1 exEvalC6 (by decide)
     exact h.2.2⟩

end SkillsScanner.WorkflowAssembler

namespace SkillsScanner.WorkflowAssembler

open SkillsScanner

/-- Each loop iteration of assembleWorkflow appends exactly one step
record. -/
theorem assembleFold_len (expOf : ℚ → ℚ) (skills : List SkillRecord)
    (skillsById : List (String × SkillRecord)) (edgeLookup : List (String × List EdgeType))
    (altLimit : ℕ) (options : AssemblerGraphOptions) :
    ∀ (l : List (ℕ × WorkflowPlanStep)) (state : AssembleState),
      ((l.foldl (assembleStep expOf skills skillsById edgeLookup altLimit options)
        state).steps).length = state.steps.length + l.length := by
  intro l
  induction l with
  | nil => intro state; simp
  | cons x xs ih =>
    intro state
    simp only [List.foldl_cons]
    rw [ih]
    have hone : (assembleStep expOf skills skillsById edgeLookup altLimit options
        state x).steps.length = state.steps.length + 1 := by
      rw [assembleStep_eq]
      dsimp only
      rw [stepAfterWinnerOf_steps]
      simp
    rw [hone]
    simp only [List.length_cons]
    omega

/-- C7: with no lock and no selectable candidate, the step's record reports a
null selection, the full normalized required-tag union as its missing tags
(all added to the plan-wide missing set), the fixed no-candidate reasoning
string, and a reset previous selection; and assembleWorkflow always emits one
step record per plan step, so subsequent steps are still processed. -/
theorem C7_no_candidate (expOf : ℚ → ℚ) (skills : List SkillRecord)
    (skillsById : List (String × SkillRecord)) (edgeLookup : List (String × List EdgeType))
    (altLimit : ℕ) (options : AssemblerGraphOptions) (state : AssembleState)
    (indexed : ℕ × WorkflowPlanStep)
    (hnolock : stepLockedOf expOf skills edgeLookup options state indexed = none)
    (hnosel : selectableOf (stepEvalsOf expOf skills edgeLookup options state indexed) = []) :
    (assembleStep expOf skills skillsById edgeLookup altLimit options state indexed).steps =
      state.steps ++ [stepRecordOf expOf skills edgeLookup options altLimit state indexed] ∧
    (stepRecordOf expOf skills edgeLookup options altLimit state indexed).selected = none ∧
    (stepRecordOf expOf skills edgeLookup options altLimit state indexed).missingCapabilities =
      normalizeTags (indexed.2.inputsTags ++ indexed.2.outputsTags ++
        indexed.2.capabilitiesTags.getD []) ∧
    (∀ t ∈ (stepRecordOf expOf skills edgeLookup options altLimit state
        indexed).missingCapabilities,
      t ∈ (assembleStep expOf skills skillsById edgeLookup altLimit options state
        indexed).missingGlobal) ∧
    alGet (assembleStep expOf skills skillsById edgeLookup altLimit options state
        indexed).reasoning (stepIdOf indexed) =
      some "No candidate met minimum score/overlap constraints" ∧
    (assembleStep expOf skills skillsById edgeLookup altLimit options state
      indexed).previousSelected = none ∧
    (∀ (idfOf : ℕ → ℕ → ℚ) (plan : WorkflowPlan) (opts : AssemblerGraphOptions),
      (assembleWorkflow idfOf expOf plan skills opts).steps.length = plan.steps.length) := by
  have hw : stepWinnerOf expOf skills edgeLookup options state indexed = none := by
    unfold stepWinnerOf
    rw [hnolock, hnosel]
    rfl
  have hwc : stepWinnerCandidateOf expOf skills edgeLookup options state indexed = none := by
    unfold stepWinnerCandidateOf
    rw [hw]
    rfl
  have hmiss : stepMissingOf expOf skills edgeLookup options state indexed =
      normalizeTags (indexed.2.inputsTags ++ indexed.2.outputsTags ++
        indexed.2.capabilitiesTags.getD []) := by
    unfold stepMissingOf
    rw [hw]
  refine ⟨?_, ?_, ?_, ?_, ?_, ?_, ?_⟩
  · rw [assembleStep_eq]
    dsimp only
    rw [stepAfterWinnerOf_steps]
  · show stepWinnerCandidateOf expOf skills edgeLookup options state indexed = none
    exact hwc
  · exact hmiss
  · intro t ht
    rw [assembleStep_eq]
    dsimp only
    exact (mem_dedupFirst_fold _ _ t).mpr (Or.inr ht)
  · rw [assembleStep_eq]
    dsimp only
    rw [hwc]
    show alGet (upsert state.reasoning (stepIdOf indexed)
      "No candidate met minimum score/overlap constraints") (stepIdOf indexed) = _
    rw [alGet_upsert]
    simp
  · rw [assembleStep_eq]
    dsimp only
    rw [hwc]
    rfl
  · intro idfOf plan opts
    show ((plan.steps.enum.foldl (assembleStep expOf skills _ _ _ opts) _).steps).length = _
    rw [assembleFold_len]
    simp [List.enum_length]

end SkillsScanner.WorkflowAssembler

namespace SkillsScanner.WorkflowAssembler

open SkillsScanner

/-- C7 example: a plan step requiring "spec" at intake. -/
def exStepC7 : WorkflowPlanStep :=
  { id := some "s", title := some "t", stage := .intake, inputsTags := ["spec"],
    outputsTags := [], capabilitiesTags := none }

/-- C7 example: a one-entry catalog with no "spec" anywhere and a distant
stage, so the entry scores 0 and nothing is selectable. -/
def exSkillsC7 : List SkillRecord :=
  [⟨"s1", "s1", .docs, [], [], []⟩]

/-- C7 example: options with no lock for any step. -/
def exOptsC7 : AssemblerGraphOptions :=
  { graph := some none, alternativesLimit := none, lockedSkillByStepId := [],
    feedbackEntries := none }

/-- C7 example: the assembler's initial loop state. -/
def exState0C7 : AssembleState :=
  { selected := [], alternatives := [], reasoning := [], steps := [], missingGlobal := [],
    previousSelected := none }

/-- C7 example: a trivial exponential oracle. -/
def exExpC7 : ℚ → ℚ := fun _ => 1

/-- C7 (witness): on the concrete corpus with no lock and no selectable
candidate the step reports a null selection, missing tag "spec" and the
fixed no-candidate reasoning string. -/
theorem C7_no_candidate_witness :
    stepLockedOf exExpC7 exSkillsC7 [] exOptsC7 exState0C7 (0, exStepC7) = none ∧
    selectableOf (stepEvalsOf exExpC7 exSkillsC7 [] exOptsC7 exState0C7 (0, exStepC7)) = [] ∧
    (stepRecordOf exExpC7 exSkillsC7 [] exOptsC7 3 exState0C7 (0, exStepC7)).selected = none ∧
    (stepRecordOf exExpC7 exSkillsC7 [] exOptsC7 3 exState0C7
      (0, exStepC7)).missingCapabilities = ["spec"] ∧
    alGet (assembleStep exExpC7 exSkillsC7 [] [] 3 exOptsC7 exState0C7
        (0, exStepC7)).reasoning "s" =
      some "No candidate met minimum score/overlap constraints" :=
  ⟨by decide, by decide,
   (C7_no_candidate exExpC7 exSkillsC7 [] [] 3 exOptsC7 exState0C7 (0, exStepC7)
     (by decide) (by decide)).2.1,
   ((C7_no_candidate exExpC7 exSkillsC7 [] [] 3 exOptsC7 exState0C7 (0, exStepC7)
     (by decide) (by decide)).2.2.1).trans (by decide),
   (C7_no_candidate exExpC7 exSkillsC7 [] [] 3 exOptsC7 exState0C7 (0, exStepC7)
     (by decide) (by decide)).2.2.2.2.1⟩

end SkillsScanner.WorkflowAssembler

namespace SkillsScanner.WorkflowAssembler

open SkillsScanner

/-- Looking anything up in an empty association list fails. -/
theorem alGet_nil [DecidableEq κ] (k : κ) : alGet ([] : List (κ × α)) k = none := rfl

/-- The edge lookup of the empty graph is empty. -/
theorem buildEdgeLookup_empty : buildEdgeLookup emptyGraph = [] := rfl

/-- C10: an omitted graph option makes assembleWorkflow score against the
graph built from the supplied catalog by buildSkillGraph; only an explicit
null graph selects the empty graph, and under the empty graph's (empty) edge
lookup a candidate's graph boost is exactly the artifacts-to-inputs flow term
— no depends_on/precedes edge bonus is ever added. -/
theorem C10_graph_default (idfOf : ℕ → ℕ → ℚ) (expOf : ℚ → ℚ) (plan : WorkflowPlan)
    (skills : List SkillRecord) (options : AssemblerGraphOptions) :
    (options.graph = none →
      assembleWorkflow idfOf expOf plan skills options =
        assembleWorkflow idfOf expOf plan skills
          { options with graph := some (some (GraphBuilder.buildSkillGraph idfOf skills)) }) ∧
    (options.graph = some none →
      assembleWorkflow idfOf expOf plan skills options =
        assembleWorkflow idfOf expOf plan skills
          { options with graph := some (some emptyGraph) }) ∧
    (∀ (step : WorkflowPlanStep) (skill : SkillRecord) (prev : Option SkillRecord)
        (fb : Option (List WorkflowFeedbackRecord)),
      (evaluateCandidate expOf step skill prev (buildEdgeLookup emptyGraph) fb).graphBoost =
        match prev with
        | none => 0
        | some p =>
          ((intersectTags p.artifactsTags (normalizeTags skill.inputsTags)).length : ℚ) *
            mkRat 3 4) := by
  refine ⟨?_, ?_, ?_⟩
  · intro h
    rcases options with ⟨g, al, locks, fb⟩
    simp only at h
    subst h
    rfl
  · intro h
    rcases options with ⟨g, al, locks, fb⟩
    simp only at h
    subst h
    rfl
  · intro step skill prev fb
    cases prev with
    | none => rfl
    | some p =>
      show (evaluateCandidate expOf step skill (some p) (buildEdgeLookup emptyGraph)
        fb).graphBoost = _
      unfold evaluateCandidate
      dsimp only
      rw [buildEdgeLookup_empty, alGet_nil]
      dsimp only
      by_cases hlen :
          (intersectTags p.artifactsTags (normalizeTags skill.inputsTags)).length ≠ 0
      · rw [if_pos hlen]
      · rw [if_neg hlen]
        have h0 : (intersectTags p.artifactsTags (normalizeTags skill.inputsTags)).length = 0 :=
          not_not.mp hlen
        rw [h0]
        simp

end SkillsScanner.WorkflowAssembler

namespace SkillsScanner.WorkflowAssembler

open SkillsScanner

/-- C10 example: a constant idf oracle. -/
def exIdfC10 : ℕ → ℕ → ℚ := fun _ _ => 1

/-- C10 example: a trivial exponential oracle. -/
def exExpC10 : ℚ → ℚ := fun _ => 1

/-- C10 example: a one-step plan. -/
def exPlanC10 : WorkflowPlan :=
  ⟨[{ id := some "s", title := some "t", stage := .implement, inputsTags := ["code"],
      outputsTags := [], capabilitiesTags := none }]⟩

/-- C10 example: a two-entry catalog. -/
def exSkillsC10 : List SkillRecord :=
  [⟨"a", "a", .implement, ["code"], ["code"], []⟩,
   ⟨"b", "b", .verify, ["code"], [], []⟩]

/-- C10 example: options with the graph option omitted. -/
def exOptsC10 : AssemblerGraphOptions :=
  { graph := none, alternativesLimit := none, lockedSkillByStepId := [],
    feedbackEntries := none }

/-- C10 example: options with an explicit null graph. -/
def exOptsNullC10 : AssemblerGraphOptions :=
  { graph := some none, alternativesLimit := none, lockedSkillByStepId := [],
    feedbackEntries := none }

/-- C10 (witness): on the concrete plan and catalog, omitting the graph
behaves like passing the catalog's built graph, and an explicit null graph
behaves like passing the empty graph. -/
theorem C10_graph_default_witness :
    exOptsC10.graph = none ∧
    assembleWorkflow exIdfC10 exExpC10 exPlanC10 exSkillsC10 exOptsC10 =
      assembleWorkflow exIdfC10 exExpC10 exPlanC10 exSkillsC10
        { exOptsC10 with
          graph := some (some (GraphBuilder.buildSkillGraph exIdfC10 exSkillsC10)) } ∧
    exOptsNullC10.graph = some none ∧
    assembleWorkflow exIdfC10 exExpC10 exPlanC10 exSkillsC10 exOptsNullC10 =
      assembleWorkflow exIdfC10 exExpC10 exPlanC10 exSkillsC10
        { exOptsNullC10 with graph := some (some emptyGraph) } :=
  ⟨rfl,
   (C10_graph_default exIdfC10 exExpC10 exPlanC10 exSkillsC10 exOptsC10).1 rfl,
   rfl,
   (C10_graph_default exIdfC10 exExpC10 exPlanC10 exSkillsC10 exOptsNullC10).2.1 rfl⟩

end SkillsScanner.WorkflowAssembler

namespace SkillsScanner.GraphBuilder

open SkillsScanner

/-- The idf oracle for the C3 corpus (a constant below the 1.7 high-idf bar,
so the pair also yields no complements candidate). -/
def exIdfC3 : ℕ → ℕ → ℚ := fun _ _ => 1

/-- C3 corpus, first order: entries "a" and "b" share capabilities x and y
(listed in opposite orders), plus five tagless fillers that raise the
specific-df ceiling to 2. -/
def exSkillsC3a : List SkillRecord :=
  [⟨"a", "a", .implement, [], [], ["x", "y"]⟩,
   ⟨"b", "b", .implement, [], [], ["y", "x"]⟩,
   ⟨"c", "c", .intake, [], [], []⟩,
   ⟨"d", "d", .plan, [], [], []⟩,
   ⟨"e", "e", .refactor, [], [], []⟩,
   ⟨"f", "f", .security, [], [], []⟩,
   ⟨"g", "g", .docs, [], [], []⟩]

/-- C3 corpus, second order: the same seven entries with "a" and "b"
swapped. -/
def exSkillsC3b : List SkillRecord :=
  [⟨"b", "b", .implement, [], [], ["y", "x"]⟩,
   ⟨"a", "a", .implement, [], [], ["x", "y"]⟩,
   ⟨"c", "c", .intake, [], [], []⟩,
   ⟨"d", "d", .plan, [], [], []⟩,
   ⟨"e", "e", .refactor, [], [], []⟩,
   ⟨"f", "f", .security, [], [], []⟩,
   ⟨"g", "g", .docs, [], [], []⟩]

/-- C3 (code bug): the two input orders are permutations of the same seven
entries, yet buildSkillGraph returns different edge sets — the single
alternative_to edge a–b carries overlapTags ["x", "y"] under the first order
and ["y", "x"] under the second (the overlap list inherits the first-listed
entry's tag order), so an edge of the first graph appears in no form in the
second.  The spec's determinism requirement (permutation-invariant edge sets)
is violated. -/
theorem C3_permutation_bug :
    exSkillsC3a.Perm exSkillsC3b ∧
    (buildSkillGraph exIdfC3 exSkillsC3a).edges ≠ (buildSkillGraph exIdfC3 exSkillsC3b).edges ∧
    ∃ e ∈ (buildSkillGraph exIdfC3 exSkillsC3a).edges,
      ∀ e' ∈ (buildSkillGraph exIdfC3 exSkillsC3b).edges, e ≠ e' := by
  decide

end SkillsScanner.GraphBuilder

namespace SkillsScanner.TagVocabulary

open SkillsScanner

/-- C9 example: a raw record with one artifact tag. -/
def exRawC9 : MachineTagSemantics :=
  { inputsTags := [], artifactsTags := ["code"], capabilitiesTags := [] }

/-- C9 (witness): on the concrete record the sanitizer emits artifact tag
"code", which the theorem places in the artifacts allow-list; the disallowed
mapped tag "workflow" is replaced by its autocorrect "plan" with no issue,
and the disallowed mapped tag "auth" (no autocorrect entry) is dropped with
a field_not_allowed issue. -/
theorem C9_artifacts_allowlist_witness :
    (("code" : String) ∈ (sanitizeMachineTags exRawC9).1.artifactsTags ∧
      ("code" : String) ∈ ARTIFACT_TAGS_ALLOWED) ∧
    ((mapRawTag "workflow").1 = some "workflow" ∧
      sanitizeStep .artifactsTags (FIELD_ALLOWED .artifactsTags) ([], []) "workflow" =
        (["plan"], [])) ∧
    ((mapRawTag "auth").1 = some "auth" ∧
      (sanitizeStep .artifactsTags (FIELD_ALLOWED .artifactsTags) ([], []) "auth").1 = [] ∧
      ({ field := .artifactsTags, rawTag := "auth", mappedTo := some "auth",
         reason := some .field_not_allowed } : InvalidTagIssue) ∈
        (sanitizeStep .artifactsTags (FIELD_ALLOWED .artifactsTags) ([], []) "auth").2) :=
  ⟨⟨by decide, C9_artifacts_allowlist.1 exRawC9 "code" (by decide)⟩,
   ⟨by decide,
    (C9_artifacts_allowlist.2.1 ([], []) "workflow" "workflow" "plan" (by decide) (by decide)
      (by decide) (by decide)).trans (by decide)⟩,
   ⟨by decide,
    (C9_artifacts_allowlist.2.2 ([], []) "auth" "auth" (by decide) (by decide)
      (Or.inl (by decide))).1,
    (C9_artifacts_allowlist.2.2 ([], []) "auth" "auth" (by decide) (by decide)
      (Or.inl (by decide))).2⟩⟩

end SkillsScanner.TagVocabulary
